import Mathlib

/-!
# TGraphPainter: painting one Delaunay triangle in colour bands or with grid lines

A shallow embedding of `TGraphPainter::PaintLevels` (histpainter/src/TGraphPainter.cxx).

Modelling conventions.

* `Double_t` values are exact rationals (`ℚ`): the theorems are statements of exact
  arithmetic, rounding is not modelled.
* In `ℚ` a division by zero yields `0`, whereas the C++ code would produce an infinity or a
  NaN.  Every division the code executes therefore appends its denominator to the trace
  `Gfx.divs`, so that "this run divided by zero" is a statement about the model.
* `Int_t` values are unbounded integers (`ℤ`); the conversion `(Int_t) d` of a double is
  truncation toward zero (`truncInt`).
* C arrays and pointers (`T`, `x`, `y`, `fZ`, `glev`, `xp`, `yp`) are functions on `ℤ`; an
  assignment `a[i] = v` is `Function.update a i v`.
* The attribute setters of the graph (`SetFillColor`, `SetLineStyle`) are always followed by
  the matching `Modify()` before anything is drawn, so one attribute record stands for both the
  graph's attributes and the attributes current on the pad.  The calls to `gPad` are
  recorded, in call order, in `Gfx.out`.
* The two `for` loops recurse on a fuel argument, which `paintColors` and `paintGrid` set to
  the number of iterations of the loop; `stripeLoop_fuel` and `gridLoop_fuel` show that any
  larger fuel gives the same result.
* The stack arrays `xp`, `yp` are not initialised in the code; they start as zero arrays here.
  The first iteration of the stripe loop writes the entries 0 to 2 before any entry is read.
* `TMVA::CrossEvaluation::MergeFoldResults` (tmva/tmva/src/CrossEvaluation.cxx) is modelled
  as well: a `std::vector` is a list, and a call of `at` with an index out of range, which
  throws, makes the function return `none`.
-/

namespace TGraphPainter

/-- A point of the pad, in normalised device coordinates. -/
abbrev Pt := ℚ × ℚ

/-- One call to the pad, together with the attribute it is drawn with. -/
inductive Draw where
  | fillArea (fillColor : ℤ) (pts : List Pt)
  | polyLine (lineStyle : ℤ) (pts : List Pt)
  | polyMarker (markerStyle markerColor : ℤ) (pts : List Pt)
  deriving DecidableEq

/-- Drawing attributes of `fGraph2D`, the calls made to `gPad` so far (`out`), and the
denominators of the floating-point divisions executed so far (`divs`). -/
structure Gfx where
  fillColor : ℤ
  fillStyle : ℤ
  lineColor : ℤ
  lineStyle : ℤ
  markerStyle : ℤ
  markerColor : ℤ
  out : List Draw
  divs : List ℚ

/-- The data members of the painter that `PaintLevels` reads. -/
structure Painter where
  fZ : ℤ → ℚ
  fZmin : ℚ
  fZmax : ℚ

/-- The part of `gStyle` that is read: `GetNumberOfColors()` and `GetColorPalette(i)`. -/
structure TStyle where
  numberOfColors : ℤ
  colorPalette : ℤ → ℤ

/-- The conversion `(Int_t) q` of a double: truncation toward zero. -/
def truncInt (q : ℚ) : ℤ := if 0 ≤ q then ⌊q⌋ else ⌈q⌉

/-- The first `n` points `(x[0],y[0]), ..., (x[n-1],y[n-1])` of a pair of coordinate arrays. -/
def points (n : ℕ) (x y : ℤ → ℚ) : List Pt :=
  (List.range n).map fun i : ℕ => (x (i : ℤ), y (i : ℤ))

/-- The call `fGraph2D->SetFillColor(c); fGraph2D->TAttFill::Modify();`. -/
def setFillColor (g : Gfx) (c : ℤ) : Gfx := { g with fillColor := c }

/-- The call `fGraph2D->SetLineStyle(s); fGraph2D->TAttLine::Modify();`. -/
def setLineStyle (g : Gfx) (s : ℤ) : Gfx := { g with lineStyle := s }

/-- The call `gPad->PaintFillArea(n,x,y)`. -/
def paintFillArea (g : Gfx) (n : ℕ) (x y : ℤ → ℚ) : Gfx :=
  { g with out := g.out ++ [Draw.fillArea g.fillColor (points n x y)] }

/-- The call `gPad->PaintPolyLine(n,x,y)`. -/
def paintPolyLine (g : Gfx) (n : ℕ) (x y : ℤ → ℚ) : Gfx :=
  { g with out := g.out ++ [Draw.polyLine g.lineStyle (points n x y)] }

/-- Records that a division by `d` is executed. -/
def divBy (g : Gfx) (d : ℚ) : Gfx := { g with divs := g.divs ++ [d] }

/-- The running minimum `(X0,Y0,Z0,I0)` and maximum `(X2,Y2,Z2,I2)` of the ordering step. -/
structure Ext where
  X0 : ℚ
  Y0 : ℚ
  Z0 : ℚ
  I0 : ℤ
  X2 : ℚ
  Y2 : ℚ
  Z2 : ℚ
  I2 : ℤ

/-- The three vertices ordered along Z, with the index each one had in `x`, `y` and `T`. -/
structure Ordered where
  I0 : ℤ
  I1 : ℤ
  I2 : ℤ
  X0 : ℚ
  Y0 : ℚ
  Z0 : ℚ
  X1 : ℚ
  Y1 : ℚ
  Z1 : ℚ
  X2 : ℚ
  Y2 : ℚ
  Z2 : ℚ

/-- Lines 185-186 (`k = 1`) and 187-188 (`k = 2`): vertex `k`, of Z value `z`, replaces the
minimum if `z <= Z0` and, tested afterwards, the maximum if `z > Z2`. -/
def orderStep (x y : ℤ → ℚ) (k : ℤ) (z : ℚ) (e : Ext) : Ext :=
  let e := if z ≤ e.Z0 then { e with Z0 := z, X0 := x k, Y0 := y k, I0 := k } else e
  if z > e.Z2 then { e with Z2 := z, X2 := x k, Y2 := y k, I2 := k } else e

/-- Lines 173-192: order the points `(Xi,Yi,Zi)` along the Z axis. -/
def orderZ (p : Painter) (T : ℤ → ℤ) (x y : ℤ → ℚ) : Ordered :=
  let P0 := T 0 - 1
  let P1 := T 1 - 1
  let P2 := T 2 - 1
  let e : Ext :=
    { X0 := x 0, Y0 := y 0, Z0 := p.fZ P0, I0 := 0, X2 := x 0, Y2 := y 0, Z2 := p.fZ P0, I2 := 0 }
  let e := orderStep x y 1 (p.fZ P1) e
  let e := orderStep x y 2 (p.fZ P2) e
  let I1 := 3 - e.I2 - e.I0
  { I0 := e.I0, I1 := I1, I2 := e.I2,
    X0 := e.X0, Y0 := e.Y0, Z0 := e.Z0,
    X1 := x I1, Y1 := y I1, Z1 := p.fZ (T I1 - 1),
    X2 := e.X2, Y2 := e.Y2, Z2 := e.Z2 }

/-- The locals of the colour branch that live across the iterations of the stripe loop,
together with the graphics state. -/
structure Stripe where
  xp : ℤ → ℚ
  yp : ℤ → ℚ
  Zi : ℚ
  Zip : ℚ
  npf : ℕ
  g : Gfx

/-- Lines 232 and 266: `(((Ci+1)*(fZmax-fZmin))/(ncolors-1))+fZmin`, the upper Z bound of
the stripe of colour `Ci`. -/
def levelZ (p : Painter) (ncolors Ci : ℤ) : ℚ :=
  ((((Ci + 1 : ℤ) : ℚ) * (p.fZmax - p.fZmin)) / ((ncolors - 1 : ℤ) : ℚ)) + p.fZmin

/-- Lines 232-250: the stripe of the colour of Z0. -/
def firstStripe (p : Painter) (ncolors : ℤ) (o : Ordered) (Ci : ℤ) (s : Stripe) : Stripe :=
  let Zi := levelZ p ncolors Ci
  let g := divBy s.g ((ncolors - 1 : ℤ) : ℚ)
  let xp := Function.update s.xp 0 o.X0
  let yp := Function.update s.yp 0 o.Y0
  let Rl := (Zi - o.Z0) / (o.Z2 - o.Z0)
  let g := divBy g (o.Z2 - o.Z0)
  let xp := Function.update xp 1 (Rl * (o.X2 - o.X0) + o.X0)
  let yp := Function.update yp 1 (Rl * (o.Y2 - o.Y0) + o.Y0)
  if Zi ≥ o.Z1 ∨ o.Z0 = o.Z1 then
    let Rs := (Zi - o.Z1) / (o.Z2 - o.Z1)
    let g := divBy g (o.Z2 - o.Z1)
    let xp := Function.update xp 2 (Rs * (o.X2 - o.X1) + o.X1)
    let yp := Function.update yp 2 (Rs * (o.Y2 - o.Y1) + o.Y1)
    let xp := Function.update xp 3 o.X1
    let yp := Function.update yp 3 o.Y1
    { s with xp := xp, yp := yp, Zi := Zi, npf := 4, g := g }
  else
    let Rs := (Zi - o.Z0) / (o.Z1 - o.Z0)
    let g := divBy g (o.Z1 - o.Z0)
    let xp := Function.update xp 2 (Rs * (o.X1 - o.X0) + o.X0)
    let yp := Function.update yp 2 (Rs * (o.Y1 - o.Y0) + o.Y0)
    { s with xp := xp, yp := yp, Zi := Zi, npf := 3, g := g }

/-- Lines 252-264: the stripe of the colour of Z2. -/
def lastStripe (o : Ordered) (s : Stripe) : Stripe :=
  let xp := Function.update s.xp 0 (s.xp 1)
  let yp := Function.update s.yp 0 (s.yp 1)
  let xp := Function.update xp 1 o.X2
  let yp := Function.update yp 1 o.Y2
  if s.Zi < o.Z1 ∨ o.Z2 = o.Z1 then
    let xp := Function.update xp 3 (xp 2)
    let yp := Function.update yp 3 (yp 2)
    let xp := Function.update xp 2 o.X1
    let yp := Function.update yp 2 o.Y1
    { s with xp := xp, yp := yp, npf := 4 }
  else
    { s with xp := xp, yp := yp, npf := 3 }

/-- Lines 266-291: a stripe strictly between the colours of Z0 and Z2. -/
def middleStripe (p : Painter) (ncolors : ℤ) (o : Ordered) (Ci : ℤ) (s : Stripe) : Stripe :=
  let Zi := levelZ p ncolors Ci
  let g := divBy s.g ((ncolors - 1 : ℤ) : ℚ)
  let xp := Function.update s.xp 0 (s.xp 1)
  let yp := Function.update s.yp 0 (s.yp 1)
  let Rl := (Zi - o.Z0) / (o.Z2 - o.Z0)
  let g := divBy g (o.Z2 - o.Z0)
  let xp := Function.update xp 1 (Rl * (o.X2 - o.X0) + o.X0)
  let yp := Function.update yp 1 (Rl * (o.Y2 - o.Y0) + o.Y0)
  let s5 : Stripe :=
    if Zi ≥ o.Z1 ∧ s.Zip ≤ o.Z1 then
      let xp := Function.update xp 3 o.X1
      let yp := Function.update yp 3 o.Y1
      let xp := Function.update xp 4 (xp 2)
      let yp := Function.update yp 4 (yp 2)
      { s with xp := xp, yp := yp, Zi := Zi, npf := 5, g := g }
    else
      let xp := Function.update xp 3 (xp 2)
      let yp := Function.update yp 3 (yp 2)
      { s with xp := xp, yp := yp, Zi := Zi, npf := 4, g := g }
  if Zi < o.Z1 then
    let Rs := (Zi - o.Z0) / (o.Z1 - o.Z0)
    { s5 with
      xp := Function.update s5.xp 2 (Rs * (o.X1 - o.X0) + o.X0)
      yp := Function.update s5.yp 2 (Rs * (o.Y1 - o.Y0) + o.Y0)
      g := divBy s5.g (o.Z1 - o.Z0) }
  else
    let Rs := (Zi - o.Z1) / (o.Z2 - o.Z1)
    { s5 with
      xp := Function.update s5.xp 2 (Rs * (o.X2 - o.X1) + o.X1)
      yp := Function.update s5.yp 2 (Rs * (o.Y2 - o.Y1) + o.Y1)
      g := divBy s5.g (o.Z2 - o.Z1) }

/-- Lines 229-295: the body of the stripe loop for the colour `Ci`. -/
def stripeBody (p : Painter) (st : TStyle) (o : Ordered) (theColor0 theColor2 Ci : ℤ)
    (s : Stripe) : Stripe :=
  let s := { s with g := setFillColor s.g (st.colorPalette Ci) }
  let s :=
    if Ci = theColor0 then firstStripe p st.numberOfColors o Ci s
    else if Ci = theColor2 then lastStripe o s
    else middleStripe p st.numberOfColors o Ci s
  let s := { s with Zip := s.Zi }
  { s with g := paintFillArea s.g s.npf s.xp s.yp }

/-- Line 228: `for(Ci=...; Ci<=theColor2; Ci++)`, entered at `Ci`; `fuel` bounds the number
of iterations. -/
def stripeLoop (p : Painter) (st : TStyle) (o : Ordered) (theColor0 theColor2 : ℤ) :
    ℕ → ℤ → Stripe → Stripe
  | 0, _, s => s
  | fuel + 1, Ci, s =>
    if Ci ≤ theColor2 then
      stripeLoop p st o theColor0 theColor2 fuel (Ci + 1)
        (stripeBody p st o theColor0 theColor2 Ci s)
    else s

/-- Lines 203-204: the colour index `(Int_t)(((Z-fZmin)/(fZmax-fZmin))*(ncolors-1))`. -/
def theColor (p : Painter) (ncolors : ℤ) (Z : ℚ) : ℤ :=
  truncInt (((Z - p.fZmin) / (p.fZmax - p.fZmin)) * ((ncolors - 1 : ℤ) : ℚ))

/-- Lines 198-300: paint the colour levels of one triangle. -/
def paintColors (p : Painter) (st : TStyle) (x y : ℤ → ℚ) (o : Ordered) (g : Gfx) : Gfx :=
  let ncolors := st.numberOfColors
  let theColor0 := theColor p ncolors o.Z0
  let g := divBy g (p.fZmax - p.fZmin)
  let theColor2 := theColor p ncolors o.Z2
  let g := divBy g (p.fZmax - p.fZmin)
  let FC := g.fillColor
  let g :=
    if theColor0 = theColor2 then
      paintFillArea (setFillColor g (st.colorPalette theColor0)) 3 x y
    else
      (stripeLoop p st o theColor0 theColor2 (theColor2 - theColor0 + 1).toNat theColor0
        { xp := fun _ => 0, yp := fun _ => 0, Zi := 0, Zip := 0, npf := 0, g := g }).g
  setFillColor g FC

/-- Lines 306-321: the grid level `Zl`. -/
def gridStep (o : Ordered) (Zl : ℚ) (g : Gfx) : Gfx :=
  if Zl ≥ o.Z0 ∧ Zl ≤ o.Z2 then
    let R21 := (Zl - o.Z1) / (o.Z2 - o.Z1)
    let g := divBy g (o.Z2 - o.Z1)
    let R20 := (Zl - o.Z0) / (o.Z2 - o.Z0)
    let g := divBy g (o.Z2 - o.Z0)
    let R10 := (Zl - o.Z0) / (o.Z1 - o.Z0)
    let g := divBy g (o.Z1 - o.Z0)
    let xl : ℤ → ℚ := Function.update (fun _ => 0) 0 (R20 * (o.X2 - o.X0) + o.X0)
    let yl : ℤ → ℚ := Function.update (fun _ => 0) 0 (R20 * (o.Y2 - o.Y0) + o.Y0)
    if Zl ≥ o.Z1 ∧ Zl ≤ o.Z2 then
      paintPolyLine g 2 (Function.update xl 1 (R21 * (o.X2 - o.X1) + o.X1))
        (Function.update yl 1 (R21 * (o.Y2 - o.Y1) + o.Y1))
    else
      paintPolyLine g 2 (Function.update xl 1 (R10 * (o.X1 - o.X0) + o.X0))
        (Function.update yl 1 (R10 * (o.Y1 - o.Y0) + o.Y0))
  else g

/-- Line 305: `for(i=...; i<nblev; i++)`, entered at `i`; `fuel` bounds the number of
iterations. -/
def gridLoop (o : Ordered) (nblev : ℤ) (glev : ℤ → ℚ) : ℕ → ℤ → Gfx → Gfx
  | 0, _, g => g
  | fuel + 1, i, g =>
    if i < nblev then gridLoop o nblev glev fuel (i + 1) (gridStep o (glev i) g) else g

/-- Lines 302-324: paint the grid levels of one triangle. -/
def paintGrid (o : Ordered) (nblev : ℤ) (glev : ℤ → ℚ) (g : Gfx) : Gfx :=
  let g := setLineStyle g 3
  let g := gridLoop o nblev glev nblev.toNat 0 g
  setLineStyle g 1

/-- `TGraphPainter::PaintLevels(T,x,y,nblev,glev)`: paints one triangle, the colour levels
if `nblev <= 0` and the grid otherwise. -/
def PaintLevels (p : Painter) (st : TStyle) (T : ℤ → ℤ) (x y : ℤ → ℚ) (nblev : ℤ)
    (glev : ℤ → ℚ) (g : Gfx) : Gfx :=
  let o := orderZ p T x y
  if nblev ≤ 0 then paintColors p st x y o g else paintGrid o nblev glev g

/-! ### The painter as a whole: triangles, markers, contours -/

/-- The view of the pad (`TView`) as far as it is read: `GetLongitude()`, the Z entries of
`GetRmin()` and `GetRmax()`, and `WCtoNDC`. -/
structure TView where
  longitude : ℚ
  rmin2 : ℚ
  rmax2 : ℚ
  wcToNdc : ℚ → ℚ → ℚ → Pt

/-- What the painter reads from outside the class: the view of the pad (`none` for a null
pointer), the log flags of `Hoption`, functions of `TMath`, the number of divisions of the Z
axis, `THLimitsFinder::Optimize` (giving `BinLow`, `BinHigh`, `nbins`, `BinWidth`), the
contents of freshly allocated arrays, and for the contours `gCurrentHist->GetContour()`,
`gStyle->GetNumberContours()`, `GetContourLevelPad(k)` and the objects of
`fDelaunay->GetContourList(c)` (`some pts` for a `TGraph` with the points `pts`, `none` for
any other object). -/
structure Env where
  view : Option TView
  logx : Bool
  logy : Bool
  logz : Bool
  cos : ℚ → ℚ
  sin : ℚ → ℚ
  pi : ℚ
  log10 : ℚ → ℚ
  ndivisions : ℤ
  optimize : ℚ → ℚ → ℤ → ℚ × ℚ × ℤ × ℚ
  heapX : ℤ → ℚ
  heapY : ℤ → ℚ
  histContour : ℤ
  numberContours : ℤ
  contourLevelPad : ℤ → ℚ
  contourList : ℚ → List (Option (List Pt))

/-- What `Paint` reads of `gCurrentHist`: for the X and the Y axis the low edge of the first
bin, the upper edge of the bin of `0.01` bin widths (used with a log scale) and the upper edge
of the last bin; `GetMaximum()` and `GetMinimum()`. -/
structure Hist where
  xLow : ℚ
  xFix : ℚ
  xUp : ℚ
  yLow : ℚ
  yFix : ℚ
  yUp : ℚ
  maximum : ℚ
  minimum : ℚ

/-- What `fDelaunay` returns once the triangles are found: `GetNdt()`, `GetXN()`, `GetYN()`,
the bounds `GetXNmin()` ... `GetYNmax()` and the vertex lists `GetPTried()`, `GetNTried()`,
`GetMTried()`. -/
structure Delaunay where
  ndt : ℤ
  xn : ℤ → ℚ
  yn : ℤ → ℚ
  xnMin : ℚ
  xnMax : ℚ
  ynMin : ℚ
  ynMax : ℚ
  pTried : ℤ → ℤ
  nTried : ℤ → ℤ
  mTried : ℤ → ℤ

/-- The painter with the members read outside `PaintLevels`: the points and the display
ranges. -/
structure GraphPainter extends Painter where
  fNpoints : ℤ
  fX : ℤ → ℚ
  fY : ℤ → ℚ
  fXmin : ℚ
  fXmax : ℚ
  fYmin : ℚ
  fYmax : ℚ

/-- The option string as far as it is read: the results of `opt.Contains(...)` on the
lower-cased option for `"tri"`, `"tri0"`, `"tri1"`, `"tri2"`, `"p"`, `"p0"`, `"w"` and
`"cont"`. -/
structure Opt where
  tri : Bool
  tri0 : Bool
  tri1 : Bool
  tri2 : Bool
  p : Bool
  p0 : Bool
  w : Bool
  cont : Bool

/-- Modelled from the spec: the default arguments of `PaintLevels`, declared in
`TGraphPainter.h`, which is not among the sources.  The call `PaintLevels(T,x,y)` paints the
colour levels (`"TRI1"`, `"TRI2"`: painted with color levels), that is `nblev = 0`. -/
def defaultNblev : ℤ := 0

/-- Modelled from the spec: the default level list of `PaintLevels`, a null pointer; it is
never read when `nblev = 0`. -/
def defaultGlev : ℤ → ℚ := fun _ => 0

/-- Modelled from the spec: `TMath::Sort(n, a, index, down)`, which is not among the sources.
The indices `0 .. n-1` ordered by their value in `a`, decreasing if `down` and increasing
otherwise; ties keep their input order (§4.3: "ties preserve relative input order (stable
sort)"). -/
def tmathSort (n : ℤ) (a : ℤ → ℚ) (down : Bool) : List ℤ :=
  if down then
    ((List.range n.toNat).map fun i : ℕ => (i : ℤ)).insertionSort fun i j => a j ≤ a i
  else
    ((List.range n.toNat).map fun i : ℕ => (i : ℤ)).insertionSort fun i j => a i ≤ a j

/-- The call `fGraph2D->SetFillStyle(s); fGraph2D->TAttFill::Modify();`. -/
def setFillStyle (g : Gfx) (s : ℤ) : Gfx := { g with fillStyle := s }

/-- The calls `SetMarkerStyle(s); SetMarkerColor(c); TAttMarker::Modify();` of `fGraph2D`. -/
def setMarker (g : Gfx) (s c : ℤ) : Gfx := { g with markerStyle := s, markerColor := c }

/-- The call `gPad->PaintPolyMarker(n,x,y)`. -/
def paintPolyMarker (g : Gfx) (n : ℕ) (x y : ℤ → ℚ) : Gfx :=
  { g with out := g.out ++ [Draw.polyMarker g.markerStyle g.markerColor (points n x y)] }

/-- Lines 388-397: `for (i=...; i<n; i++)` of `PaintPolyMarker0`, entered at `i`; `MC` is the
marker colour saved before the loop. -/
def marker0Loop (n : ℤ) (x y : ℤ → ℚ) (MC : ℤ) : ℕ → ℤ → Gfx → Gfx
  | 0, _, g => g
  | fuel + 1, i, g =>
    if i < n then
      let g := setMarker g 20 0
      let g := paintPolyMarker g 1 (fun j => x (i + j)) (fun j => y (i + j))
      let g := setMarker g 24 MC
      let g := paintPolyMarker g 1 (fun j => x (i + j)) (fun j => y (i + j))
      marker0Loop n x y MC fuel (i + 1) g
    else g

/-- `TGraphPainter::PaintPolyMarker0(n,x,y)`: a circle at each vertex, on a dot of colour 0.
(`SetMarkerSize(GetMarkerSize())` changes nothing.) -/
def PaintPolyMarker0 (n : ℤ) (x y : ℤ → ℚ) (g : Gfx) : Gfx :=
  marker0Loop n x y g.markerColor n.toNat 0 g

/-- Lines 353-363 and 509-519: the point number `k` clamped into the display ranges, with the
log scales applied, in normalised device coordinates. -/
def toNDC (gp : GraphPainter) (env : Env) (view : TView) (k : ℤ) : Pt :=
  let t0 := max (gp.fX k) gp.fXmin
  let t1 := max (gp.fY k) gp.fYmin
  let t2 := max (gp.fZ k) gp.fZmin
  let t2 := min t2 gp.fZmax
  let t0 := if env.logx then env.log10 t0 else t0
  let t1 := if env.logy then env.log10 t1 else t1
  let t2 := if env.logz then env.log10 t2 else t2
  view.wcToNdc t0 t1 t2

/-- Lines 430-450: the grid levels `(nblev, glev)` of the plain `"TRI"` mode, aligned on the
main tick marks of the Z axis.  Without `Optimize` the code divides by `nbins`
(`BinWidth = (BinHigh-BinLow)/nbins`, line 445), which is zero when `GetNdivisions()%100` is:
the denominator is recorded in the graphics state. -/
def gridLevels (env : Env) (view : TView) (g : Gfx) : (ℤ × (ℤ → ℚ)) × Gfx :=
  let ndivz := Int.tmod env.ndivisions 100
  if ndivz > 0 then
    let r := env.optimize view.rmin2 view.rmax2 ndivz
    ((r.2.2.1 + 1, fun i => r.1 + (i : ℚ) * r.2.2.2), g)
  else
    let nbins := |ndivz|
    let BinWidth := (view.rmax2 - view.rmin2) / (nbins : ℚ)
    ((nbins + 1, fun i => view.rmin2 + (i : ℚ) * BinWidth), divBy g (nbins : ℚ))

/-- The arrays `dist` and the flag `o` while the distances are computed. -/
structure Dist where
  dist : ℤ → ℚ
  o : Bool

/-- Lines 475-490: the distance of the triangle `IT` to the back planes. -/
def distStep (del : Delaunay) (cp sp : ℚ) (IT : ℤ) (s : Dist) : Dist :=
  let P := del.pTried IT
  let N := del.nTried IT
  let M := del.mTried IT
  let xd := (del.xn P + del.xn N + del.xn M) / 3
  let yd := (del.yn P + del.yn N + del.yn M) / 3
  if cp ≥ 0 ∧ sp ≥ 0 then
    { s with dist := Function.update s.dist IT (-(del.xnMax - xd + del.ynMax - yd)) }
  else if cp ≤ 0 ∧ sp ≥ 0 then
    { dist := Function.update s.dist IT (-(del.xnMax - xd + yd - del.ynMin)), o := true }
  else if cp ≤ 0 ∧ sp ≤ 0 then
    { s with dist := Function.update s.dist IT (-(xd - del.xnMin + yd - del.ynMin)) }
  else
    { dist := Function.update s.dist IT (-(xd - del.xnMin + del.ynMax - yd)), o := true }

/-- Line 474: `for (IT=...; IT<fNdt; IT++)`, entered at `IT`. -/
def distLoop (del : Delaunay) (cp sp : ℚ) : ℕ → ℤ → Dist → Dist
  | 0, _, s => s
  | fuel + 1, IT, s =>
    if IT < del.ndt then distLoop del cp sp fuel (IT + 1) (distStep del cp sp IT s) else s

/-- The arrays `x`, `y` while the vertices of a triangle are projected; `ok` is false once a
`goto endloop` has been taken. -/
structure Verts where
  ok : Bool
  x : ℤ → ℚ
  y : ℤ → ℚ

/-- Lines 507-521: the vertex `t` of the triangle `T`. -/
def vertexStep (gp : GraphPainter) (env : Env) (view : TView) (T : ℤ → ℤ) (t : ℤ)
    (v : Verts) : Verts :=
  if v.ok = false then v
  else if gp.fX (T t - 1) < gp.fXmin ∨ gp.fX (T t - 1) > gp.fXmax then { v with ok := false }
  else if gp.fY (T t - 1) < gp.fYmin ∨ gp.fY (T t - 1) > gp.fYmax then { v with ok := false }
  else
    { v with
      x := Function.update v.x t (toNDC gp env view (T t - 1)).1
      y := Function.update v.y t (toNDC gp env view (T t - 1)).2 }

/-- The arrays `x`, `y` and the graphics state while the triangles are painted. -/
structure Tri where
  x : ℤ → ℚ
  y : ℤ → ℚ
  g : Gfx

/-- Lines 503-505: the vertex numbers `T[0]`, `T[1]`, `T[2]` of the triangle number `k`. -/
def triangleT (del : Delaunay) (k : ℤ) : ℤ → ℤ :=
  fun t => if t = 0 then del.pTried k else if t = 1 then del.nTried k else del.mTried k

/-- Lines 525-541: the calls that paint one triangle, once its vertices are projected into
`x`, `y`.  (`SetMarkerStyle(GetMarkerStyle())` and its like change nothing.) -/
def drawTriangle (gp : GraphPainter) (st : TStyle) (opt : Opt) (nblev : ℤ) (glev : ℤ → ℚ)
    (T : ℤ → ℤ) (x y : ℤ → ℚ) (g : Gfx) : Gfx :=
  let g :=
    if opt.tri1 || opt.tri2 then PaintLevels gp.toPainter st T x y defaultNblev defaultGlev g
    else g
  let g :=
    if !opt.tri1 && !opt.tri2 && !opt.w then
      PaintLevels gp.toPainter st T x y nblev glev (paintFillArea g 3 x y)
    else g
  let g := if !opt.tri2 then paintPolyLine g 4 x y else g
  if opt.p then
    if opt.p0 then PaintPolyMarker0 3 x y g else paintPolyMarker g 3 x y
  else g

/-- Lines 503-543: the body of the painting loop for the triangle `order[IT]`. -/
def triStep (gp : GraphPainter) (env : Env) (view : TView) (del : Delaunay) (st : TStyle)
    (opt : Opt) (nblev : ℤ) (glev : ℤ → ℚ) (order : ℤ → ℤ) (IT : ℤ) (s : Tri) : Tri :=
  let T := triangleT del (order IT)
  let v := vertexStep gp env view T 2 (vertexStep gp env view T 1
    (vertexStep gp env view T 0 { ok := true, x := s.x, y := s.y }))
  if v.ok = false then { s with x := v.x, y := v.y }
  else
    let x := Function.update v.x 3 (v.x 0)
    let y := Function.update v.y 3 (v.y 0)
    { x := x, y := y, g := drawTriangle gp st opt nblev glev T x y s.g }

/-- Line 502: `for (IT=...; IT<fNdt; IT++)`, entered at `IT`. -/
def triLoop (gp : GraphPainter) (env : Env) (view : TView) (del : Delaunay) (st : TStyle)
    (opt : Opt) (nblev : ℤ) (glev : ℤ → ℚ) (order : ℤ → ℤ) : ℕ → ℤ → Tri → Tri
  | 0, _, s => s
  | fuel + 1, IT, s =>
    if IT < del.ndt then
      triLoop gp env view del st opt nblev glev order fuel (IT + 1)
        (triStep gp env view del st opt nblev glev order IT s)
    else s

/-- Lines 467-492: the painting order, an array of triangle numbers: the distances are
computed according to the longitude of the view and sorted. -/
def paintOrder (env : Env) (view : TView) (del : Delaunay) : List ℤ :=
  let cp := env.cos (view.longitude * env.pi / 180)
  let sp := env.sin (view.longitude * env.pi / 180)
  let d := distLoop del cp sp del.ndt.toNat 0 { dist := fun _ => 0, o := false }
  tmathSort del.ndt d.dist d.o

/-- `TGraphPainter::PaintTriangles(option)`: paints the 2D graph as triangles.  Without a view
it reports an error and returns. -/
def PaintTriangles (gp : GraphPainter) (env : Env) (del : Delaunay) (st : TStyle) (opt : Opt)
    (g : Gfx) : Gfx :=
  match env.view with
  | none => g
  | some view =>
    let lg : (ℤ × (ℤ → ℚ)) × Gfx :=
      if !opt.tri1 && !opt.tri2 && !opt.w then gridLevels env view g else ((0, fun _ => 0), g)
    let lev := lg.1
    let g := lg.2
    let ord := paintOrder env view del
    let order : ℤ → ℤ := fun i => ord.getD i.toNat 0
    let g := setFillColor g g.fillColor
    let FS := g.fillStyle
    let g := setFillStyle g 1001
    let LS := g.lineStyle
    let s := triLoop gp env view del st opt lev.1 lev.2 order del.ndt.toNat 0
      { x := fun _ => 0, y := fun _ => 0, g := g }
    let g := setFillStyle s.g FS
    setLineStyle g LS

/-- The arrays `xm`, `ym` and the counter `npd` while the markers are collected. -/
structure Marks where
  npd : ℤ
  xm : ℤ → ℚ
  ym : ℤ → ℚ

/-- Lines 350-365: the point number `IT`. -/
def markStep (gp : GraphPainter) (env : Env) (view : TView) (IT : ℤ) (m : Marks) : Marks :=
  if gp.fX IT < gp.fXmin ∨ gp.fX IT > gp.fXmax then m
  else if gp.fY IT < gp.fYmin ∨ gp.fY IT > gp.fYmax then m
  else
    { npd := m.npd + 1
      xm := Function.update m.xm IT (toNDC gp env view IT).1
      ym := Function.update m.ym IT (toNDC gp env view IT).2 }

/-- Line 349: `for (Int_t IT=...; IT<fNpoints; IT++)`, entered at `IT`. -/
def markLoop (gp : GraphPainter) (env : Env) (view : TView) : ℕ → ℤ → Marks → Marks
  | 0, _, m => m
  | fuel + 1, IT, m =>
    if IT < gp.fNpoints then markLoop gp env view fuel (IT + 1) (markStep gp env view IT m)
    else m

/-- `TGraphPainter::PaintPolyMarker(option)`: paints the 2D graph as markers.  Without a view
it reports an error and returns.  The arrays `xm`, `ym` come from `new` and hold whatever the
heap holds. -/
def PaintPolyMarker (gp : GraphPainter) (env : Env) (opt : Opt) (g : Gfx) : Gfx :=
  match env.view with
  | none => g
  | some view =>
    let m := markLoop gp env view gp.fNpoints.toNat 0
      { npd := 0, xm := env.heapX, ym := env.heapY }
    if opt.p0 then PaintPolyMarker0 m.npd m.xm m.ym g
    else paintPolyMarker g m.npd.toNat m.xm m.ym

/-- What has been painted: the calls to the pad, and for the contours the graphs painted with
`g->Paint("l")`, each with the line colour given to it. -/
structure Canvas where
  gfx : Gfx
  graphs : List (ℤ × List Pt)

/-- Line 154: the palette index of the contour level `k`,
`Int_t((k+0.99)*Float_t(ncolors)/Float_t(ndivz))`. -/
def contourColor (ncolors ndivz k : ℤ) : ℤ :=
  truncInt (((k : ℚ) + 99 / 100) * (ncolors : ℚ) / (ndivz : ℚ))

/-- Lines 148-158: the contour level `k`: every `TGraph` of the contour list gets the palette
colour of the level and is painted. -/
def contourStep (env : Env) (st : TStyle) (ndivz k : ℤ) (c : Canvas) : Canvas :=
  (env.contourList (env.contourLevelPad k)).foldl
    (fun c obj =>
      match obj with
      | some pts =>
        { gfx := divBy c.gfx (ndivz : ℚ)
          graphs := c.graphs ++
            [(st.colorPalette (contourColor st.numberOfColors ndivz k), pts)] }
      | none => c)
    c

/-- Line 147: `for (Int_t k=...; k<ndivz; k++)`, entered at `k`. -/
def contourLoop (env : Env) (st : TStyle) (ndivz : ℤ) : ℕ → ℤ → Canvas → Canvas
  | 0, _, c => c
  | fuel + 1, k, c =>
    if k < ndivz then contourLoop env st ndivz fuel (k + 1) (contourStep env st ndivz k c)
    else c

/-- `TGraphPainter::PaintContour(option)`: paints the 2D graph as a contour plot. -/
def PaintContour (env : Env) (st : TStyle) (c : Canvas) : Canvas :=
  let ndivz := if env.histContour = 0 then env.numberContours else env.histContour
  contourLoop env st ndivz ndivz.toNat 0 c

/-- `TGraphPainter::Paint(option)`: the display ranges are taken from the current histogram,
then the triangles, the markers and the contours are painted as the option asks. -/
def Paint (gp : GraphPainter) (env : Env) (hist : Hist) (del : Delaunay) (st : TStyle)
    (opt : Opt) (c : Canvas) : Canvas :=
  let triangles := opt.tri || opt.tri1 || opt.tri2
  let triangles := if opt.tri0 then false else triangles
  let markers := opt.p && !triangles
  let contour := opt.cont
  let fXmin := hist.xLow
  let fXmin := if env.logx = true ∧ fXmin ≤ 0 then hist.xFix else fXmin
  let fYmin := hist.yLow
  let fYmin := if env.logy = true ∧ fYmin ≤ 0 then hist.yFix else fYmin
  let fZmin := hist.minimum
  let fZmin := if env.logz = true ∧ fZmin ≤ 0 then min 1 (1 / 1000 * hist.maximum) else fZmin
  let gp : GraphPainter :=
    { gp with
      fXmin := fXmin, fXmax := hist.xUp, fYmin := fYmin, fYmax := hist.yUp,
      fZmax := hist.maximum, fZmin := fZmin }
  let c := if triangles then { c with gfx := PaintTriangles gp env del st opt c.gfx } else c
  let c := if markers then { c with gfx := PaintPolyMarker gp env opt c.gfx } else c
  if contour then PaintContour env st c else c

/-! ### TMVA::CrossEvaluation: the results of the folds -/

/-- The data members of `TMVA::CrossEvaluation` that `MergeFoldResults` reads: the number of
folds, and the outputs and the class labels stored for each fold by `StoreFoldResults`.  The
types `α` and `β` are those of the elements of `EventOutputs_t` and `EventTypes_t`. -/
structure CrossEvaluation (α β : Type) where
  fNumFolds : ℕ
  fOutputsPerFold : List (List α)
  fClassesPerFold : List (List β)

/-- A `ResultsClassification` as far as it is touched: the vectors behind `GetValueVector()`
and `GetValueVectorTypes()`. -/
structure ResultsClassification (α β : Type) where
  valueVector : List α
  valueVectorTypes : List β

/-- The results the data set holds for the method:
`GetResults(methodName, Types::kTraining, analysisType)` and
`GetResults(methodName, Types::kTesting, analysisType)`, two objects. -/
structure DataSet (α β : Type) where
  training : ResultsClassification α β
  testing : ResultsClassification α β

/-- The locals `outputs` and `classes` of `MergeFoldResults`. -/
structure Merged (α β : Type) where
  outputs : List α
  classes : List β

/-- Lines 296-299: `for(UInt_t iFold = ...; iFold < fNumFolds; ++iFold)`, entered at `iFold`:
the outputs and the classes of the fold are inserted at the end of `outputs` and `classes`.
`at(iFold)` throws if no result is stored for the fold. -/
def mergeLoop {α β : Type} (ce : CrossEvaluation α β) : ℕ → ℕ → Merged α β → Option (Merged α β)
  | 0, _, m => some m
  | fuel + 1, iFold, m =>
    if iFold < ce.fNumFolds then
      match ce.fOutputsPerFold[iFold]? with
      | none => none
      | some o =>
        match ce.fClassesPerFold[iFold]? with
        | none => none
        | some c =>
          mergeLoop ce fuel (iFold + 1) { outputs := m.outputs ++ o, classes := m.classes ++ c }
    else some m

/-- Lines 308-309 and 312-313: `outputs` and `classes` are inserted at `begin()` of the two
vectors of the results. -/
def insertFront {α β : Type} (r : ResultsClassification α β) (m : Merged α β) :
    ResultsClassification α β :=
  { valueVector := m.outputs ++ r.valueVector
    valueVectorTypes := m.classes ++ r.valueVectorTypes }

/-- `TMVA::CrossEvaluation::MergeFoldResults(smethod)`: the results of the folds are put
together and injected into the training and the testing results of the method. -/
def MergeFoldResults {α β : Type} (ce : CrossEvaluation α β) (ds : DataSet α β) :
    Option (DataSet α β) :=
  match mergeLoop ce ce.fNumFolds 0 { outputs := [], classes := [] } with
  | none => none
  | some m => some { training := insertFront ds.training m, testing := insertFront ds.testing m }

/-! ### Notions used to state the properties -/

/-- The position (0, 1 or 2) of the original vertex `k` in the ordered triple `(V0,V1,V2)`. -/
def place (o : Ordered) (k : ℤ) : ℕ := if k = o.I0 then 0 else if k = o.I1 then 1 else 2

/-- The colour band of a Z value as the specification words it (§4.4, step 2):
`floor((Z - zMin)/(zMax - zMin) · (numColors - 1))`, clamped into `[0, numColors-1]`. -/
def bandSpec (zMin zMax : ℚ) (numColors : ℤ) (Z : ℚ) : ℤ :=
  max 0 (min (numColors - 1) ⌊(Z - zMin) / (zMax - zMin) * ((numColors - 1 : ℤ) : ℚ)⌋)

/-- The two end points that `gridStep` hands to `PaintPolyLine` for the level `Zl`. -/
def gridSegment (o : Ordered) (Zl : ℚ) : List Pt :=
  let R21 := (Zl - o.Z1) / (o.Z2 - o.Z1)
  let R20 := (Zl - o.Z0) / (o.Z2 - o.Z0)
  let R10 := (Zl - o.Z0) / (o.Z1 - o.Z0)
  [(R20 * (o.X2 - o.X0) + o.X0, R20 * (o.Y2 - o.Y0) + o.Y0),
    if Zl ≥ o.Z1 ∧ Zl ≤ o.Z2 then (R21 * (o.X2 - o.X1) + o.X1, R21 * (o.Y2 - o.Y1) + o.Y1)
    else (R10 * (o.X1 - o.X0) + o.X0, R10 * (o.Y1 - o.Y0) + o.Y0)]

/-- The term `a.x * b.y - b.x * a.y` of the shoelace formula. -/
def cross (a b : Pt) : ℚ := a.1 * b.2 - b.1 * a.2

/-- The shoelace sum of the edges of the polyline `l`, closed by the edge back to `first`. -/
def shoelaceFrom (first : Pt) : List Pt → ℚ
  | [] => 0
  | [a] => cross a first
  | a :: b :: l => cross a b + shoelaceFrom first (b :: l)

/-- Twice the signed area of the closed polygon `l` (shoelace formula). -/
def shoelace2 : List Pt → ℚ
  | [] => 0
  | a :: l => shoelaceFrom a (a :: l)

/-- The area of the closed polygon `l`. -/
def polyArea (l : List Pt) : ℚ := |shoelace2 l| / 2

/-- The area painted by one call: the area of the polygon of a fill, nothing for a line or
a marker. -/
def Draw.area : Draw → ℚ
  | Draw.fillArea _ pts => polyArea pts
  | Draw.polyLine _ _ => 0
  | Draw.polyMarker _ _ _ => 0

/-- The number of points of a call. -/
def Draw.npoints : Draw → ℕ
  | Draw.fillArea _ pts => pts.length
  | Draw.polyLine _ pts => pts.length
  | Draw.polyMarker _ _ pts => pts.length

/-- The ordered vertex `V0 = (X0, Y0)`. -/
def V0 (o : Ordered) : Pt := (o.X0, o.Y0)

/-- The ordered vertex `V1 = (X1, Y1)`. -/
def V1 (o : Ordered) : Pt := (o.X1, o.Y1)

/-- The ordered vertex `V2 = (X2, Y2)`. -/
def V2 (o : Ordered) : Pt := (o.X2, o.Y2)

/-- The point of the long edge `(V0, V2)` the code computes for the level `z`
(ratio `Rl`, lines 235-237 and 269-271). -/
def longPt (o : Ordered) (z : ℚ) : Pt :=
  ((z - o.Z0) / (o.Z2 - o.Z0) * (o.X2 - o.X0) + o.X0,
    (z - o.Z0) / (o.Z2 - o.Z0) * (o.Y2 - o.Y0) + o.Y0)

/-- The point of the short edge `(V0, V1)` the code computes for the level `z`
(ratio `Rs`, lines 246-248 and 284-286). -/
def lowPt (o : Ordered) (z : ℚ) : Pt :=
  ((z - o.Z0) / (o.Z1 - o.Z0) * (o.X1 - o.X0) + o.X0,
    (z - o.Z0) / (o.Z1 - o.Z0) * (o.Y1 - o.Y0) + o.Y0)

/-- The point of the short edge `(V1, V2)` the code computes for the level `z`
(ratio `Rs`, lines 239-241 and 288-290). -/
def highPt (o : Ordered) (z : ℚ) : Pt :=
  ((z - o.Z1) / (o.Z2 - o.Z1) * (o.X2 - o.X1) + o.X1,
    (z - o.Z1) / (o.Z2 - o.Z1) * (o.Y2 - o.Y1) + o.Y1)

/-- The point of the short edges for the level `z`: on `(V0, V1)` below `Z1`, on `(V1, V2)`
from `Z1` on. -/
def shortPt (o : Ordered) (z : ℚ) : Pt := if z < o.Z1 then lowPt o z else highPt o z

/-- Twice the signed area of the triangle taken in the vertex order `(V0, V2, V1)`. -/
def tri2 (o : Ordered) : ℚ :=
  (o.X2 - o.X0) * (o.Y1 - o.Y0) - (o.X1 - o.X0) * (o.Y2 - o.Y0)

/-- The fraction of the triangle below the level `z`, for a level below `Z1`. -/
def fracLow (o : Ordered) (z : ℚ) : ℚ :=
  (z - o.Z0) / (o.Z2 - o.Z0) * ((z - o.Z0) / (o.Z1 - o.Z0))

/-- The fraction of the triangle below the level `z`, for a level from `Z1` on. -/
def fracHigh (o : Ordered) (z : ℚ) : ℚ :=
  1 - (1 - (z - o.Z0) / (o.Z2 - o.Z0)) * (1 - (z - o.Z1) / (o.Z2 - o.Z1))

/-- The fraction of the triangle below the level `z`. -/
def fracBelow (o : Ordered) (z : ℚ) : ℚ := if z < o.Z1 then fracLow o z else fracHigh o z

/-- The state between two iterations of the stripe loop, when the last stripe painted ends at
the level `z`: `Zi` and `Zip` are `z`, `(xp[1], yp[1])` is the point of the long edge at `z`
and `(xp[2], yp[2])` the point of the short edges at `z`. -/
def StripeInv (o : Ordered) (s : Stripe) (z : ℚ) : Prop :=
  s.Zi = z ∧ s.Zip = z ∧ (s.xp 1, s.yp 1) = longPt o z ∧ (s.xp 2, s.yp 2) = shortPt o z

/-- What the loop needs of the band boundaries: those below the colour of Z2 lie in
`(Z0, Z2]`, and one that reaches `Z1` finds `Z1 < Z2`. -/
def LevelsInside (p : Painter) (nc : ℤ) (o : Ordered) (c0 c2 : ℤ) : Prop :=
  ∀ k, c0 ≤ k → k < c2 →
    o.Z0 < levelZ p nc k ∧ levelZ p nc k ≤ o.Z2 ∧ (o.Z1 ≤ levelZ p nc k → o.Z1 < o.Z2)

/-- Twice the signed area painted by one call: the shoelace sum of the polygon of a fill,
nothing for a line or a marker. -/
def Draw.shoelace : Draw → ℚ
  | Draw.fillArea _ pts => shoelace2 pts
  | Draw.polyLine _ _ => 0
  | Draw.polyMarker _ _ _ => 0

/-- The sum of the areas of the polygons of a list of calls. -/
def paintedArea (l : List Draw) : ℚ := (l.map Draw.area).sum

/-- The sum of the shoelace sums (twice the signed areas) of the polygons of a list of calls. -/
def paintedShoelace (l : List Draw) : ℚ := (l.map Draw.shoelace).sum

/-- The case of the lines 480-490 that is taken for the cosine `cp` and the sine `sp` of the
longitude, numbered 1 to 4 in the order of the code. -/
def quadrantCase (cp sp : ℚ) : ℕ :=
  if cp ≥ 0 ∧ sp ≥ 0 then 1 else if cp ≤ 0 ∧ sp ≥ 0 then 2 else if cp ≤ 0 ∧ sp ≤ 0 then 3 else 4

/-- The centre `(xd, yd)` of the triangle `IT` in the plane of the triangulation
(lines 475-479). -/
def centre (del : Delaunay) (IT : ℤ) : ℚ × ℚ :=
  ((del.xn (del.pTried IT) + del.xn (del.nTried IT) + del.xn (del.mTried IT)) / 3,
    (del.yn (del.pTried IT) + del.yn (del.nTried IT) + del.yn (del.mTried IT)) / 3)

/-- The value stored in `dist[IT]` in each of the four cases. -/
def caseKey (del : Delaunay) (IT : ℤ) : ℕ → ℚ
  | 1 => -(del.xnMax - (centre del IT).1 + del.ynMax - (centre del IT).2)
  | 2 => -(del.xnMax - (centre del IT).1 + (centre del IT).2 - del.ynMin)
  | 3 => -((centre del IT).1 - del.xnMin + (centre del IT).2 - del.ynMin)
  | _ => -((centre del IT).1 - del.xnMin + del.ynMax - (centre del IT).2)

/-- The cases in which `o` is set, so that `TMath::Sort` sorts in decreasing order. -/
def caseDown (k : ℕ) : Bool := k == 2 || k == 4

/-- The point number `i` (counted from 0) lies outside the display range in X or in Y. -/
def outsideRange (gp : GraphPainter) (i : ℤ) : Bool :=
  decide ((gp.fX i < gp.fXmin ∨ gp.fX i > gp.fXmax) ∨ (gp.fY i < gp.fYmin ∨ gp.fY i > gp.fYmax))

/-- The triangle number `k` has a vertex outside the display range. -/
def clipped (gp : GraphPainter) (del : Delaunay) (k : ℤ) : Bool :=
  outsideRange gp (del.pTried k - 1) || outsideRange gp (del.nTried k - 1) ||
    outsideRange gp (del.mTried k - 1)

/-- The array `x` of the triangle number `k` once its vertices are projected: `x[0]`, `x[1]`,
`x[2]` and `x[3] = x[0]`. -/
def projX (gp : GraphPainter) (env : Env) (view : TView) (del : Delaunay) (k : ℤ) : ℤ → ℚ :=
  fun t => (toNDC gp env view (triangleT del k (if t = 3 then 0 else t) - 1)).1

/-- The array `y` of the triangle number `k` once its vertices are projected. -/
def projY (gp : GraphPainter) (env : Env) (view : TView) (del : Delaunay) (k : ℤ) : ℤ → ℚ :=
  fun t => (toNDC gp env view (triangleT del k (if t = 3 then 0 else t) - 1)).2

/-- The body of the painting loop for the triangle number `k`, as a function on the graphics
state alone. -/
def paintTriangle (gp : GraphPainter) (env : Env) (view : TView) (del : Delaunay)
    (st : TStyle) (opt : Opt) (nblev : ℤ) (glev : ℤ → ℚ) (k : ℤ) (g : Gfx) : Gfx :=
  (triStep gp env view del st opt nblev glev (fun _ => k) 0
    { x := fun _ => 0, y := fun _ => 0, g := g }).g

/-- The point `(xp[2], yp[2])` as the stripe of colour `k` leaves it, `k` below the colour of
Z2: a point of one of the two short edges at the upper bound of the stripe. -/
def shortAfter (p : Painter) (nc : ℤ) (o : Ordered) (c0 k : ℤ) : Pt :=
  if k = c0 then
    if levelZ p nc k ≥ o.Z1 ∨ o.Z0 = o.Z1 then highPt o (levelZ p nc k)
    else lowPt o (levelZ p nc k)
  else shortPt o (levelZ p nc k)

/-- The polygon of the stripe of colour `k`, for the colours `c0` of Z0 and `c2` of Z2, in
terms of the band boundaries `levelZ p nc (k - 1)` below and `levelZ p nc k` above. -/
def stripePoly (p : Painter) (nc : ℤ) (o : Ordered) (c0 c2 k : ℤ) : List Pt :=
  if k = c0 then
    if levelZ p nc k ≥ o.Z1 ∨ o.Z0 = o.Z1 then
      [V0 o, longPt o (levelZ p nc k), highPt o (levelZ p nc k), V1 o]
    else [V0 o, longPt o (levelZ p nc k), lowPt o (levelZ p nc k)]
  else if k = c2 then
    if levelZ p nc (k - 1) < o.Z1 ∨ o.Z2 = o.Z1 then
      [longPt o (levelZ p nc (k - 1)), V2 o, V1 o, shortAfter p nc o c0 (k - 1)]
    else [longPt o (levelZ p nc (k - 1)), V2 o, shortAfter p nc o c0 (k - 1)]
  else
    if levelZ p nc k ≥ o.Z1 ∧ levelZ p nc (k - 1) ≤ o.Z1 then
      [longPt o (levelZ p nc (k - 1)), longPt o (levelZ p nc k), shortPt o (levelZ p nc k),
        V1 o, shortAfter p nc o c0 (k - 1)]
    else
      [longPt o (levelZ p nc (k - 1)), longPt o (levelZ p nc k), shortPt o (levelZ p nc k),
        shortAfter p nc o c0 (k - 1)]

/-- The point `P` is `A + r · (B - A)` for a ratio `r` in `[0, 1]`. -/
def onSegment (A B P : Pt) : Prop :=
  ∃ r : ℚ, 0 ≤ r ∧ r ≤ 1 ∧ P = (r * (B.1 - A.1) + A.1, r * (B.2 - A.2) + A.2)

/-- The point `P` lies on one of the three edges of the ordered triangle. -/
def onEdge (o : Ordered) (P : Pt) : Prop :=
  onSegment (V0 o) (V2 o) P ∨ onSegment (V0 o) (V1 o) P ∨ onSegment (V1 o) (V2 o) P

/-! ### Concrete inputs -/

/-- The array `{a, b, c}`. -/
def arr3 (a b c : ℚ) : ℤ → ℚ := fun i => if i = 0 then a else if i = 1 then b else c

/-- The triangle `T = {1, 2, 3}` (point numbers start at 1). -/
def idx3 : ℤ → ℤ := fun i => i + 1

/-- A graphics state in which nothing has been drawn yet. -/
def gfx0 : Gfx :=
  { fillColor := 0, fillStyle := 1001, lineColor := 1, lineStyle := 1, markerStyle := 1,
    markerColor := 1, out := [], divs := [] }

/-- A view that looks along the Y axis (longitude 0) and projects `(x, y, z)` on `(x, y)`. -/
def view0 : TView := { longitude := 0, rmin2 := 0, rmax2 := 10, wcToNdc := fun a b _ => (a, b) }

/-- A pad with the view `view0` and linear axes; the Z axis has the ticks 0, 5, 10, the
histogram two contour levels, each with one line from `(0,0)` to `(1,1)`, and the heap holds
77 and 88. -/
def env0 : Env :=
  { view := some view0, logx := false, logy := false, logz := false,
    cos := fun _ => 1, sin := fun _ => 0, pi := 3, log10 := id,
    ndivisions := 2, optimize := fun _ _ _ => (0, 10, 2, 5),
    heapX := fun _ => 77, heapY := fun _ => 88,
    histContour := 0, numberContours := 2, contourLevelPad := fun k => (k : ℚ),
    contourList := fun _ => [some [(0, 0), (1, 1)]] }

/-- The pad `env0` without a view. -/
def env1 : Env := { env0 with view := none }

/-- The three points `(0,0,0)`, `(1,0,5)`, `(0,1,10)` with the display ranges `[0,1]` in X and
Y and `[0,10]` in Z. -/
def gp0 : GraphPainter :=
  { fZ := arr3 0 5 10, fZmin := 0, fZmax := 10, fNpoints := 3, fX := arr3 0 1 0,
    fY := arr3 0 0 1, fXmin := 0, fXmax := 1, fYmin := 0, fYmax := 1 }

/-- The points of `gp0` with the first one moved to `x = xMax + 1`. -/
def gp1 : GraphPainter := { gp0 with fX := arr3 2 1 0 }

/-- One triangle, with the vertices 1, 2, 3. -/
def del0 : Delaunay :=
  { ndt := 1, xn := fun _ => 0, yn := fun _ => 0, xnMin := 0, xnMax := 1, ynMin := 0,
    ynMax := 1, pTried := fun _ => 1, nTried := fun _ => 2, mTried := fun _ => 3 }

/-- A palette of five colours, the colour `i` having the number `i`. -/
def st0 : TStyle := { numberOfColors := 5, colorPalette := id }

/-- A histogram with the axes `[0,1]` in X and Y and the values from 0 to 10. -/
def hist0 : Hist :=
  { xLow := 0, xFix := 0, xUp := 1, yLow := 0, yFix := 0, yUp := 1, maximum := 10,
    minimum := 0 }

/-- The option `"tri1"`. -/
def optTri1 : Opt :=
  { tri := true, tri0 := false, tri1 := true, tri2 := false, p := false, p0 := false,
    w := false, cont := false }

/-- The option `"tri2"`. -/
def optTri2 : Opt :=
  { tri := true, tri0 := false, tri1 := false, tri2 := true, p := false, p0 := false,
    w := false, cont := false }

/-- The option `"p"`. -/
def optP : Opt :=
  { tri := false, tri0 := false, tri1 := false, tri2 := false, p := true, p0 := false,
    w := false, cont := false }

/-- The option `"cont"`. -/
def optCont : Opt :=
  { tri := false, tri0 := false, tri1 := false, tri2 := false, p := false, p0 := false,
    w := false, cont := true }

/-! ## Properties -/

/-! ### The ordering step -/

theorem orderZ_I0 (p : Painter) (T : ℤ → ℤ) (x y : ℤ → ℚ) :
    (orderZ p T x y).I0 =
      if p.fZ (T 2 - 1) ≤ p.fZ (T 0 - 1) ∧ p.fZ (T 2 - 1) ≤ p.fZ (T 1 - 1) then 2
      else if p.fZ (T 1 - 1) ≤ p.fZ (T 0 - 1) then 1 else 0 := by
  simp only [orderZ, orderStep]
  split_ifs <;> simp_all <;> linarith

theorem orderZ_I2 (p : Painter) (T : ℤ → ℤ) (x y : ℤ → ℚ) :
    (orderZ p T x y).I2 =
      if p.fZ (T 0 - 1) < p.fZ (T 2 - 1) ∧ p.fZ (T 1 - 1) < p.fZ (T 2 - 1) then 2
      else if p.fZ (T 0 - 1) < p.fZ (T 1 - 1) then 1 else 0 := by
  simp only [orderZ, orderStep]
  split_ifs <;> simp_all <;> linarith

theorem orderZ_I1 (p : Painter) (T : ℤ → ℤ) (x y : ℤ → ℚ) :
    (orderZ p T x y).I1 = 3 - (orderZ p T x y).I2 - (orderZ p T x y).I0 := rfl

theorem orderZ_props (p : Painter) (T : ℤ → ℤ) (x y : ℤ → ℚ) :
    [(orderZ p T x y).I0, (orderZ p T x y).I1, (orderZ p T x y).I2].Perm [0, 1, 2] ∧
    ((orderZ p T x y).X0 = x (orderZ p T x y).I0 ∧ (orderZ p T x y).Y0 = y (orderZ p T x y).I0 ∧
      (orderZ p T x y).Z0 = p.fZ (T (orderZ p T x y).I0 - 1)) ∧
    ((orderZ p T x y).X1 = x (orderZ p T x y).I1 ∧ (orderZ p T x y).Y1 = y (orderZ p T x y).I1 ∧
      (orderZ p T x y).Z1 = p.fZ (T (orderZ p T x y).I1 - 1)) ∧
    ((orderZ p T x y).X2 = x (orderZ p T x y).I2 ∧ (orderZ p T x y).Y2 = y (orderZ p T x y).I2 ∧
      (orderZ p T x y).Z2 = p.fZ (T (orderZ p T x y).I2 - 1)) ∧
    (orderZ p T x y).Z0 ≤ (orderZ p T x y).Z1 ∧ (orderZ p T x y).Z1 ≤ (orderZ p T x y).Z2 := by
  simp only [orderZ, orderStep]
  split_ifs <;> simp_all <;>
    first
    | decide
    | linarith
    | exact ⟨by decide, by linarith⟩
    | exact ⟨by linarith, by linarith⟩

/-- C8. After the ordering step of `PaintLevels` the indices `(I0, I1, I2)` are a permutation
of `(0, 1, 2)`, each `(Xi, Yi, Zi)` is the projected point and the Z value of the original
vertex `Ii`, and `Z0 ≤ Z1 ≤ Z2`. -/
theorem orderZ_sorted_permutation (p : Painter) (T : ℤ → ℤ) (x y : ℤ → ℚ) :
    [(orderZ p T x y).I0, (orderZ p T x y).I1, (orderZ p T x y).I2].Perm [0, 1, 2] ∧
    ((orderZ p T x y).X0 = x (orderZ p T x y).I0 ∧ (orderZ p T x y).Y0 = y (orderZ p T x y).I0 ∧
      (orderZ p T x y).Z0 = p.fZ (T (orderZ p T x y).I0 - 1)) ∧
    ((orderZ p T x y).X1 = x (orderZ p T x y).I1 ∧ (orderZ p T x y).Y1 = y (orderZ p T x y).I1 ∧
      (orderZ p T x y).Z1 = p.fZ (T (orderZ p T x y).I1 - 1)) ∧
    ((orderZ p T x y).X2 = x (orderZ p T x y).I2 ∧ (orderZ p T x y).Y2 = y (orderZ p T x y).I2 ∧
      (orderZ p T x y).Z2 = p.fZ (T (orderZ p T x y).I2 - 1)) ∧
    (orderZ p T x y).Z0 ≤ (orderZ p T x y).Z1 ∧ (orderZ p T x y).Z1 ≤ (orderZ p T x y).Z2 :=
  orderZ_props p T x y

/-- C9, the claim refuted. The reordering is not stable: for the Z values `(1, 1, 5)` the
vertices 0 and 1 have equal Z, yet vertex 1 is placed first and vertex 0 second. -/
theorem orderZ_not_stable :
    (⟨arr3 1 1 5, 0, 10⟩ : Painter).fZ (idx3 0 - 1) =
        (⟨arr3 1 1 5, 0, 10⟩ : Painter).fZ (idx3 1 - 1) ∧
      ¬ place (orderZ ⟨arr3 1 1 5, 0, 10⟩ idx3 (arr3 0 1 0) (arr3 0 0 1)) 0 <
        place (orderZ ⟨arr3 1 1 5, 0, 10⟩ idx3 (arr3 0 1 0) (arr3 0 0 1)) 1 := by
  simp [orderZ, orderStep, place, arr3, idx3]

/-- C9, as amended. Ties are broken the other way round: whenever two vertices have equal Z,
the one with the larger original index is placed before the other in `(V0, V1, V2)`. -/
theorem orderZ_ties_reversed (p : Painter) (T : ℤ → ℤ) (x y : ℤ → ℚ) (i j : ℤ) (hi : 0 ≤ i)
    (hij : i < j) (hj : j ≤ 2) (hz : p.fZ (T i - 1) = p.fZ (T j - 1)) :
    place (orderZ p T x y) j < place (orderZ p T x y) i := by
  have hc : (i = 0 ∧ j = 1) ∨ (i = 0 ∧ j = 2) ∨ (i = 1 ∧ j = 2) := by omega
  simp only [place, orderZ_I1, orderZ_I0, orderZ_I2]
  rcases hc with ⟨rfl, rfl⟩ | ⟨rfl, rfl⟩ | ⟨rfl, rfl⟩
  · simp only [← hz]
    rcases lt_trichotomy (p.fZ (T 0 - 1)) (p.fZ (T 2 - 1)) with h | h | h
    · simp [h, h.le, h.not_lt, h.not_le]
    · simp [← h]
    · simp [h, h.le, h.not_lt, h.not_le]
  · simp only [← hz]
    rcases lt_trichotomy (p.fZ (T 0 - 1)) (p.fZ (T 1 - 1)) with h | h | h
    · simp [h, h.le, h.not_lt, h.not_le]
    · simp [← h]
    · simp [h, h.le, h.not_lt, h.not_le]
  · simp only [← hz]
    rcases lt_trichotomy (p.fZ (T 0 - 1)) (p.fZ (T 1 - 1)) with h | h | h
    · simp [h, h.le, h.not_lt, h.not_le]
    · simp [← h]
    · simp [h, h.le, h.not_lt, h.not_le]

/-- The tie-breaking rule at the Z values `(1, 1, 5)`: vertex 1 precedes vertex 0. -/
theorem orderZ_ties_reversed_witness :
    ((0 : ℤ) ≤ 0 ∧ (0 : ℤ) < 1 ∧ (1 : ℤ) ≤ 2 ∧
      (⟨arr3 1 1 5, 0, 10⟩ : Painter).fZ (idx3 0 - 1) =
        (⟨arr3 1 1 5, 0, 10⟩ : Painter).fZ (idx3 1 - 1)) ∧
      place (orderZ ⟨arr3 1 1 5, 0, 10⟩ idx3 (arr3 0 1 0) (arr3 0 0 1)) 1 <
        place (orderZ ⟨arr3 1 1 5, 0, 10⟩ idx3 (arr3 0 1 0) (arr3 0 0 1)) 0 :=
  ⟨⟨by decide, by decide, by decide, by simp [arr3, idx3]⟩,
    orderZ_ties_reversed ⟨arr3 1 1 5, 0, 10⟩ idx3 (arr3 0 1 0) (arr3 0 0 1) 0 1 (by decide)
      (by decide) (by decide) (by simp [arr3, idx3])⟩

/-! ### The fuel of the two loops is enough -/

theorem stripeLoop_fuel (p : Painter) (st : TStyle) (o : Ordered) (c0 c2 : ℤ) (extra : ℕ) :
    ∀ (fuel : ℕ) (Ci : ℤ) (s : Stripe), fuel = (c2 - Ci + 1).toNat →
      stripeLoop p st o c0 c2 (fuel + extra) Ci s = stripeLoop p st o c0 c2 fuel Ci s := by
  intro fuel
  induction fuel with
  | zero =>
    intro Ci s hf
    have hgt : ¬ Ci ≤ c2 := by omega
    cases extra with
    | zero => rfl
    | succ e => simp [stripeLoop, hgt]
  | succ n ih =>
    intro Ci s hf
    have hle : Ci ≤ c2 := by omega
    rw [Nat.add_right_comm]
    simp only [stripeLoop, if_pos hle]
    exact ih (Ci + 1) _ (by omega)

theorem gridLoop_fuel (o : Ordered) (nblev : ℤ) (glev : ℤ → ℚ) (extra : ℕ) :
    ∀ (fuel : ℕ) (i : ℤ) (g : Gfx), fuel = (nblev - i).toNat →
      gridLoop o nblev glev (fuel + extra) i g = gridLoop o nblev glev fuel i g := by
  intro fuel
  induction fuel with
  | zero =>
    intro i g hf
    have hge : ¬ i < nblev := by omega
    cases extra with
    | zero => rfl
    | succ e => simp [gridLoop, hge]
  | succ n ih =>
    intro i g hf
    have hlt : i < nblev := by omega
    rw [Nat.add_right_comm]
    simp only [gridLoop, if_pos hlt]
    exact ih (i + 1) _ (by omega)

/-! ### What the stripe loop hands to the pad -/

theorem firstStripe_g (p : Painter) (nc : ℤ) (o : Ordered) (Ci : ℤ) (s : Stripe) :
    (firstStripe p nc o Ci s).g.out = s.g.out ∧
      (firstStripe p nc o Ci s).g.fillColor = s.g.fillColor := by
  simp only [firstStripe]
  split_ifs <;> exact ⟨rfl, rfl⟩

theorem lastStripe_g (o : Ordered) (s : Stripe) : (lastStripe o s).g = s.g := by
  simp only [lastStripe]
  split_ifs <;> rfl

theorem middleStripe_g (p : Painter) (nc : ℤ) (o : Ordered) (Ci : ℤ) (s : Stripe) :
    (middleStripe p nc o Ci s).g.out = s.g.out ∧
      (middleStripe p nc o Ci s).g.fillColor = s.g.fillColor := by
  simp only [middleStripe]
  split_ifs <;> exact ⟨rfl, rfl⟩

theorem stripeBody_out (p : Painter) (st : TStyle) (o : Ordered) (c0 c2 Ci : ℤ) (s : Stripe) :
    (stripeBody p st o c0 c2 Ci s).g.out =
      s.g.out ++ [Draw.fillArea (st.colorPalette Ci)
        (points (stripeBody p st o c0 c2 Ci s).npf (stripeBody p st o c0 c2 Ci s).xp
          (stripeBody p st o c0 c2 Ci s).yp)] := by
  simp only [stripeBody]
  split_ifs <;> simp [paintFillArea, firstStripe_g, lastStripe_g, middleStripe_g, setFillColor]

theorem stripeLoop_out (p : Painter) (st : TStyle) (o : Ordered) (c0 c2 : ℤ) :
    ∀ (fuel : ℕ) (Ci : ℤ) (s : Stripe), fuel = (c2 - Ci + 1).toNat →
      ∃ pts : ℕ → List Pt, (stripeLoop p st o c0 c2 fuel Ci s).g.out =
        s.g.out ++ (List.range fuel).map fun i : ℕ =>
          Draw.fillArea (st.colorPalette (Ci + (i : ℤ))) (pts i) := by
  intro fuel
  induction fuel with
  | zero => intro Ci s _; exact ⟨fun _ => [], by simp [stripeLoop]⟩
  | succ n ih =>
    intro Ci s hf
    have hle : Ci ≤ c2 := by omega
    have hq := stripeBody_out p st o c0 c2 Ci s
    obtain ⟨pts, hpts⟩ := ih (Ci + 1) (stripeBody p st o c0 c2 Ci s) (by omega)
    refine ⟨fun i => if i = 0 then points (stripeBody p st o c0 c2 Ci s).npf
      (stripeBody p st o c0 c2 Ci s).xp (stripeBody p st o c0 c2 Ci s).yp else pts (i - 1), ?_⟩
    simp only [stripeLoop, hle, if_true, hpts, hq, List.range_succ_eq_map, List.map_cons,
      List.map_map, List.append_assoc, List.singleton_append]
    simp [Function.comp_def, add_assoc, add_comm]
    intro a _
    congr 1
    ring

theorem points_three (x y : ℤ → ℚ) : points 3 x y = [(x 0, y 0), (x 1, y 1), (x 2, y 2)] := by
  simp [points, List.range_succ]

theorem orderZ_flat (p : Painter) (T : ℤ → ℤ) (x y : ℤ → ℚ)
    (h : p.fZ (T 0 - 1) = p.fZ (T 1 - 1) ∧ p.fZ (T 1 - 1) = p.fZ (T 2 - 1)) :
    (orderZ p T x y).Z0 = (orderZ p T x y).Z2 := by
  obtain ⟨h1, h2⟩ := h
  simp only [orderZ, orderStep, ← h2, ← h1]
  simp

/-- If the colour index the code computes for Z0 equals the one it computes for Z2, and in
particular if the triangle is flat, `PaintLevels` in colour mode hands exactly one polygon to
the pad: the three vertices it was given, in the order given, filled with the palette colour
of the index of Z0. -/
theorem PaintLevels_single_colour (p : Painter) (st : TStyle) (T : ℤ → ℤ) (x y : ℤ → ℚ)
    (nblev : ℤ) (glev : ℤ → ℚ) (g : Gfx) (hn : nblev ≤ 0)
    (h : (p.fZ (T 0 - 1) = p.fZ (T 1 - 1) ∧ p.fZ (T 1 - 1) = p.fZ (T 2 - 1)) ∨
      theColor p st.numberOfColors (orderZ p T x y).Z0 =
        theColor p st.numberOfColors (orderZ p T x y).Z2) :
    (PaintLevels p st T x y nblev glev g).out =
      g.out ++ [Draw.fillArea
        (st.colorPalette (theColor p st.numberOfColors (orderZ p T x y).Z0))
        [(x 0, y 0), (x 1, y 1), (x 2, y 2)]] := by
  have hc : theColor p st.numberOfColors (orderZ p T x y).Z0 =
      theColor p st.numberOfColors (orderZ p T x y).Z2 := by
    rcases h with h | h
    · rw [orderZ_flat p T x y h]
    · exact h
  simp [PaintLevels, paintColors, hn, hc, paintFillArea, setFillColor, divBy, points_three]

/-- The flat triangle `Z = (3, 3, 3)` with five colours on `[0, 10]`. -/
theorem PaintLevels_single_colour_witness :
    ((0 : ℤ) ≤ 0 ∧
      (⟨arr3 3 3 3, 0, 10⟩ : Painter).fZ (idx3 0 - 1) =
        (⟨arr3 3 3 3, 0, 10⟩ : Painter).fZ (idx3 1 - 1) ∧
      (⟨arr3 3 3 3, 0, 10⟩ : Painter).fZ (idx3 1 - 1) =
        (⟨arr3 3 3 3, 0, 10⟩ : Painter).fZ (idx3 2 - 1)) ∧
    (PaintLevels ⟨arr3 3 3 3, 0, 10⟩ ⟨5, id⟩ idx3 (arr3 0 1 0) (arr3 0 0 1) 0 (fun _ => 0)
        gfx0).out =
      gfx0.out ++ [Draw.fillArea
        (id (theColor ⟨arr3 3 3 3, 0, 10⟩ 5
          (orderZ ⟨arr3 3 3 3, 0, 10⟩ idx3 (arr3 0 1 0) (arr3 0 0 1)).Z0))
        [(arr3 0 1 0 0, arr3 0 0 1 0), (arr3 0 1 0 1, arr3 0 0 1 1),
          (arr3 0 1 0 2, arr3 0 0 1 2)]] :=
  ⟨⟨by decide, by simp [arr3, idx3], by simp [arr3, idx3]⟩,
    PaintLevels_single_colour ⟨arr3 3 3 3, 0, 10⟩ ⟨5, id⟩ idx3 (arr3 0 1 0) (arr3 0 0 1) 0
      (fun _ => 0) gfx0 (by decide) (Or.inl ⟨by simp [arr3, idx3], by simp [arr3, idx3]⟩)⟩

theorem paintColors_out_of_lt (p : Painter) (st : TStyle) (x y : ℤ → ℚ) (o : Ordered) (g : Gfx)
    (hlt : theColor p st.numberOfColors o.Z0 < theColor p st.numberOfColors o.Z2) :
    ∃ pts : ℕ → List Pt, (paintColors p st x y o g).out =
      g.out ++ (List.range (theColor p st.numberOfColors o.Z2 -
          theColor p st.numberOfColors o.Z0 + 1).toNat).map fun i : ℕ =>
        Draw.fillArea (st.colorPalette (theColor p st.numberOfColors o.Z0 + (i : ℤ))) (pts i) := by
  obtain ⟨pts, hpts⟩ := stripeLoop_out p st o (theColor p st.numberOfColors o.Z0)
    (theColor p st.numberOfColors o.Z2) _ (theColor p st.numberOfColors o.Z0)
    { xp := fun _ => 0, yp := fun _ => 0, Zi := 0, Zip := 0, npf := 0,
      g := divBy (divBy g (p.fZmax - p.fZmin)) (p.fZmax - p.fZmin) } rfl
  refine ⟨pts, ?_⟩
  simp only [paintColors, if_neg (ne_of_lt hlt), setFillColor, hpts]
  simp [divBy]

/-- If the colour index `c0` the code computes for Z0 is below the colour index `c2` it
computes for Z2, `PaintLevels` in colour mode hands exactly `c2 - c0 + 1` fill polygons to the
pad, and the `i`-th of them (`i = 0, 1, ...`) is filled with the palette colour of the index
`c0 + i`. -/
theorem PaintLevels_colours_increasing (p : Painter) (st : TStyle) (T : ℤ → ℤ) (x y : ℤ → ℚ)
    (nblev : ℤ) (glev : ℤ → ℚ) (g : Gfx) (hn : nblev ≤ 0)
    (hlt : theColor p st.numberOfColors (orderZ p T x y).Z0 <
      theColor p st.numberOfColors (orderZ p T x y).Z2) :
    ∃ pts : ℕ → List Pt, (PaintLevels p st T x y nblev glev g).out =
      g.out ++ (List.range (theColor p st.numberOfColors (orderZ p T x y).Z2 -
          theColor p st.numberOfColors (orderZ p T x y).Z0 + 1).toNat).map fun i : ℕ =>
        Draw.fillArea (st.colorPalette
          (theColor p st.numberOfColors (orderZ p T x y).Z0 + (i : ℤ))) (pts i) := by
  simp only [PaintLevels, if_pos hn]
  exact paintColors_out_of_lt p st x y _ g hlt

/-! ### The grid levels -/

theorem gridStep_out (o : Ordered) (Zl : ℚ) (g : Gfx) :
    (gridStep o Zl g).out =
        g.out ++ (if o.Z0 ≤ Zl ∧ Zl ≤ o.Z2 then [Draw.polyLine g.lineStyle (gridSegment o Zl)]
          else []) ∧
      (gridStep o Zl g).lineStyle = g.lineStyle := by
  simp only [gridStep, gridSegment, ge_iff_le]
  split_ifs <;> simp [paintPolyLine, divBy, points, List.range_succ]

theorem gridLoop_out (o : Ordered) (nblev : ℤ) (glev : ℤ → ℚ) :
    ∀ (fuel : ℕ) (i : ℤ) (g : Gfx), fuel = (nblev - i).toNat →
      (gridLoop o nblev glev fuel i g).out =
        g.out ++ (((List.range fuel).map fun k : ℕ => glev (i + (k : ℤ))).filter
          fun L => decide (o.Z0 ≤ L ∧ L ≤ o.Z2)).map
            fun L => Draw.polyLine g.lineStyle (gridSegment o L) := by
  intro fuel
  induction fuel with
  | zero => intro i g _; simp [gridLoop]
  | succ n ih =>
    intro i g hf
    have hlt : i < nblev := by omega
    obtain ⟨h1, h2⟩ := gridStep_out o (glev i) g
    have hmap : List.map ((fun k : ℕ => glev (i + (k : ℤ))) ∘ Nat.succ) (List.range n) =
        List.map (fun k : ℕ => glev (i + 1 + (k : ℤ))) (List.range n) := by
      apply List.map_congr_left
      intro a _
      simp only [Function.comp, Nat.succ_eq_add_one, Nat.cast_add, Nat.cast_one]
      congr 1
      ring
    simp only [gridLoop, if_pos hlt, ih (i + 1) (gridStep o (glev i) g) (by omega), h1, h2,
      List.range_succ_eq_map, List.map_cons, List.map_map, hmap, Nat.cast_zero, add_zero,
      List.filter_cons]
    by_cases hin : o.Z0 ≤ glev i ∧ glev i ≤ o.Z2
    · simp [hin]
    · simp [hin]

/-- C10. In grid mode (`nblev > 0`) `PaintLevels` hands to the pad one 2-point line for each
entry `L` of the level list with `Z0 ≤ L ≤ Z2`, in list order, and nothing for the other
entries; the number of lines is the number of entries inside `[Z0, Z2]`. -/
theorem PaintLevels_grid_segments (p : Painter) (st : TStyle) (T : ℤ → ℤ) (x y : ℤ → ℚ)
    (nblev : ℤ) (glev : ℤ → ℚ) (g : Gfx) (hn : 0 < nblev) :
    (PaintLevels p st T x y nblev glev g).out =
        g.out ++ (((List.range nblev.toNat).map fun k : ℕ => glev (k : ℤ)).filter
          fun L => decide ((orderZ p T x y).Z0 ≤ L ∧ L ≤ (orderZ p T x y).Z2)).map
            (fun L => Draw.polyLine 3 (gridSegment (orderZ p T x y) L)) ∧
      (∀ L, (gridSegment (orderZ p T x y) L).length = 2) ∧
      ((PaintLevels p st T x y nblev glev g).out.length = g.out.length +
        ((List.range nblev.toNat).map fun k : ℕ => glev (k : ℤ)).countP
          fun L => decide ((orderZ p T x y).Z0 ≤ L ∧ L ≤ (orderZ p T x y).Z2)) := by
  have hout : (PaintLevels p st T x y nblev glev g).out =
      g.out ++ (((List.range nblev.toNat).map fun k : ℕ => glev (k : ℤ)).filter
        fun L => decide ((orderZ p T x y).Z0 ≤ L ∧ L ≤ (orderZ p T x y).Z2)).map
          (fun L => Draw.polyLine 3 (gridSegment (orderZ p T x y) L)) := by
    have h := gridLoop_out (orderZ p T x y) nblev glev nblev.toNat 0 (setLineStyle g 3) (by simp)
    simp only [PaintLevels, if_neg (not_le.mpr hn), paintGrid]
    show (gridLoop (orderZ p T x y) nblev glev nblev.toNat 0 (setLineStyle g 3)).out = _
    rw [h]
    simp [setLineStyle]
  refine ⟨hout, fun L => by simp [gridSegment], ?_⟩
  rw [hout, List.length_append, List.length_map, List.countP_eq_length_filter]

/-- Four levels `0, 3, 6, 9` over the triangle `Z = (0, 5, 10)`. -/
theorem PaintLevels_grid_segments_witness :
    (0 : ℤ) < 4 ∧
    (PaintLevels ⟨arr3 0 5 10, 0, 10⟩ ⟨5, id⟩ idx3 (arr3 0 1 0) (arr3 0 0 1) 4
        (fun i => 3 * i) gfx0).out.length = gfx0.out.length +
      ((List.range (4 : ℤ).toNat).map fun k : ℕ => (fun i : ℤ => (3 * i : ℚ)) (k : ℤ)).countP
        fun L => decide
          ((orderZ ⟨arr3 0 5 10, 0, 10⟩ idx3 (arr3 0 1 0) (arr3 0 0 1)).Z0 ≤ L ∧
            L ≤ (orderZ ⟨arr3 0 5 10, 0, 10⟩ idx3 (arr3 0 1 0) (arr3 0 0 1)).Z2) :=
  ⟨by decide, (PaintLevels_grid_segments ⟨arr3 0 5 10, 0, 10⟩ ⟨5, id⟩ idx3 (arr3 0 1 0)
    (arr3 0 0 1) 4 (fun i => 3 * i) gfx0 (by decide)).2.2⟩

/-! ### The colour index -/

theorem truncInt_of_nonneg {q : ℚ} (h : 0 ≤ q) : truncInt q = ⌊q⌋ := by
  simp [truncInt, h]

theorem truncInt_intCast (n : ℤ) : truncInt (n : ℚ) = n := by
  unfold truncInt
  split_ifs
  · exact Int.floor_intCast n
  · exact Int.ceil_intCast n

theorem theColor_of_intCast (p : Painter) (nc : ℤ) (Z : ℚ) (n : ℤ)
    (h : (Z - p.fZmin) / (p.fZmax - p.fZmin) * ((nc - 1 : ℤ) : ℚ) = (n : ℚ)) :
    theColor p nc Z = n := by
  rw [theColor, h, truncInt_intCast]

theorem truncInt_le_of_nonneg {q : ℚ} (h : 0 ≤ q) : ((truncInt q : ℤ) : ℚ) ≤ q := by
  rw [truncInt_of_nonneg h]
  exact Int.floor_le q

theorem lt_truncInt_add_one (q : ℚ) : q < ((truncInt q : ℤ) : ℚ) + 1 := by
  unfold truncInt
  split_ifs
  · exact Int.lt_floor_add_one q
  · exact lt_of_le_of_lt (Int.le_ceil q) (lt_add_one _)

theorem truncInt_mono {a b : ℚ} (h : a ≤ b) : truncInt a ≤ truncInt b := by
  unfold truncInt
  split_ifs with ha hb hb
  · exact Int.floor_mono h
  · exact absurd (le_trans ha h) hb
  · exact le_trans (Int.ceil_le.mpr (by push_cast; exact (not_le.mp ha).le)) (Int.floor_nonneg.mpr hb)
  · exact Int.ceil_mono h

/-- C5, the claim refuted. With `zMin = 0`, `zMax = 10` and 5 colours the index computed for
`Z = -10` is `-4`: it is neither the clamped band `0` nor inside `[0, 4]`; the index
computed for `Z = 20` is `8`, above `4`. -/
theorem theColor_not_clamped :
    (⟨arr3 0 0 0, 0, 10⟩ : Painter).fZmin < (⟨arr3 0 0 0, 0, 10⟩ : Painter).fZmax ∧
      theColor ⟨arr3 0 0 0, 0, 10⟩ 5 (-10) = -4 ∧
      bandSpec 0 10 5 (-10) = 0 ∧
      ¬ (0 ≤ theColor ⟨arr3 0 0 0, 0, 10⟩ 5 (-10)) ∧
      theColor ⟨arr3 0 0 0, 0, 10⟩ 5 20 = 8 ∧
      ¬ (theColor ⟨arr3 0 0 0, 0, 10⟩ 5 20 ≤ 5 - 1) := by
  have h : theColor ⟨arr3 0 0 0, 0, 10⟩ 5 (-10) = -4 := by
    have e : ((-10 - 0 : ℚ) / (10 - 0)) * (((5 - 1 : ℤ)) : ℚ) = ((-4 : ℤ) : ℚ) := by norm_num
    show truncInt (((-10 - 0 : ℚ) / (10 - 0)) * (((5 - 1 : ℤ)) : ℚ)) = -4
    rw [e, truncInt_intCast]
  have h' : theColor ⟨arr3 0 0 0, 0, 10⟩ 5 20 = 8 :=
    theColor_of_intCast _ _ _ _ (by norm_num)
  refine ⟨by norm_num, h, ?_, by rw [h]; decide, h', by rw [h']; decide⟩
  norm_num [bandSpec]

/-- C5, as amended. For `zMin < zMax`, `numColors ≥ 1` and a Z value inside `[zMin, zMax]`
the colour index is `floor((Z - zMin)/(zMax - zMin) · (numColors - 1))`, which is also its
clamped value, and it lies in `[0, numColors - 1]`.  (Outside `[zMin, zMax]` the conversion
truncates toward zero and nothing clamps the result.) -/
theorem theColor_in_range (p : Painter) (numColors : ℤ) (Z : ℚ) (hr : p.fZmin < p.fZmax)
    (hn : 1 ≤ numColors) (hlo : p.fZmin ≤ Z) (hhi : Z ≤ p.fZmax) :
    theColor p numColors Z =
        ⌊(Z - p.fZmin) / (p.fZmax - p.fZmin) * ((numColors - 1 : ℤ) : ℚ)⌋ ∧
      theColor p numColors Z = bandSpec p.fZmin p.fZmax numColors Z ∧
      0 ≤ theColor p numColors Z ∧ theColor p numColors Z ≤ numColors - 1 := by
  have hd : 0 < p.fZmax - p.fZmin := sub_pos.mpr hr
  have hn' : (0 : ℚ) ≤ ((numColors - 1 : ℤ) : ℚ) := by exact_mod_cast (by omega : 0 ≤ numColors - 1)
  have hq0 : 0 ≤ (Z - p.fZmin) / (p.fZmax - p.fZmin) := div_nonneg (sub_nonneg.mpr hlo) hd.le
  have hq1 : (Z - p.fZmin) / (p.fZmax - p.fZmin) ≤ 1 := by
    rw [div_le_one hd]
    linarith
  have hv0 : 0 ≤ (Z - p.fZmin) / (p.fZmax - p.fZmin) * ((numColors - 1 : ℤ) : ℚ) :=
    mul_nonneg hq0 hn'
  have hv1 : (Z - p.fZmin) / (p.fZmax - p.fZmin) * ((numColors - 1 : ℤ) : ℚ) ≤
      ((numColors - 1 : ℤ) : ℚ) := by
    calc (Z - p.fZmin) / (p.fZmax - p.fZmin) * ((numColors - 1 : ℤ) : ℚ)
        ≤ 1 * ((numColors - 1 : ℤ) : ℚ) := mul_le_mul_of_nonneg_right hq1 hn'
      _ = ((numColors - 1 : ℤ) : ℚ) := one_mul _
  have hfl : theColor p numColors Z =
      ⌊(Z - p.fZmin) / (p.fZmax - p.fZmin) * ((numColors - 1 : ℤ) : ℚ)⌋ := by
    unfold theColor
    exact truncInt_of_nonneg hv0
  have h0 : 0 ≤ ⌊(Z - p.fZmin) / (p.fZmax - p.fZmin) * ((numColors - 1 : ℤ) : ℚ)⌋ :=
    Int.floor_nonneg.mpr hv0
  have h1 : ⌊(Z - p.fZmin) / (p.fZmax - p.fZmin) * ((numColors - 1 : ℤ) : ℚ)⌋ ≤ numColors - 1 := by
    have := Int.floor_mono hv1
    rwa [Int.floor_intCast] at this
  refine ⟨hfl, ?_, hfl ▸ h0, hfl ▸ h1⟩
  rw [hfl, bandSpec, min_eq_right h1, max_eq_right h0]

/-- The colour index of `Z = 5` with 5 colours on `[0, 10]`. -/
theorem theColor_in_range_witness :
    ((⟨arr3 0 0 0, 0, 10⟩ : Painter).fZmin < (⟨arr3 0 0 0, 0, 10⟩ : Painter).fZmax ∧
      (1 : ℤ) ≤ 5 ∧ (⟨arr3 0 0 0, 0, 10⟩ : Painter).fZmin ≤ 5 ∧
      (5 : ℚ) ≤ (⟨arr3 0 0 0, 0, 10⟩ : Painter).fZmax) ∧
    (0 ≤ theColor ⟨arr3 0 0 0, 0, 10⟩ 5 5 ∧ theColor ⟨arr3 0 0 0, 0, 10⟩ 5 5 ≤ 5 - 1) :=
  ⟨⟨by norm_num, by decide, by norm_num, by norm_num⟩,
    (theColor_in_range ⟨arr3 0 0 0, 0, 10⟩ 5 5 (by norm_num) (by decide) (by norm_num)
      (by norm_num)).2.2⟩

/-! ### The polygons of the stripes and their shoelace sums -/

theorem shoelace_first_low (o : Ordered) (z : ℚ) :
    shoelace2 [V0 o, longPt o z, lowPt o z] = fracLow o z * tri2 o := by
  simp only [shoelace2, shoelaceFrom, cross, V0, longPt, lowPt, fracLow, tri2]
  ring

theorem shoelace_first_high (o : Ordered) (z : ℚ) :
    shoelace2 [V0 o, longPt o z, highPt o z, V1 o] = fracHigh o z * tri2 o := by
  simp only [shoelace2, shoelaceFrom, cross, V0, V1, longPt, highPt, fracHigh, tri2]
  ring

theorem shoelace_mid_low (o : Ordered) (zp z : ℚ) :
    shoelace2 [longPt o zp, longPt o z, lowPt o z, lowPt o zp] =
      (fracLow o z - fracLow o zp) * tri2 o := by
  simp only [shoelace2, shoelaceFrom, cross, longPt, lowPt, fracLow, tri2]
  ring

theorem shoelace_mid_cross (o : Ordered) (zp z : ℚ) :
    shoelace2 [longPt o zp, longPt o z, highPt o z, V1 o, lowPt o zp] =
      (fracHigh o z - fracLow o zp) * tri2 o := by
  simp only [shoelace2, shoelaceFrom, cross, V1, longPt, lowPt, highPt, fracLow, fracHigh, tri2]
  ring

theorem shoelace_mid_high5 (o : Ordered) (zp z : ℚ) :
    shoelace2 [longPt o zp, longPt o z, highPt o z, V1 o, highPt o zp] =
      (fracHigh o z - fracHigh o zp) * tri2 o := by
  simp only [shoelace2, shoelaceFrom, cross, V1, longPt, highPt, fracHigh, tri2]
  ring

theorem shoelace_mid_high (o : Ordered) (zp z : ℚ) :
    shoelace2 [longPt o zp, longPt o z, highPt o z, highPt o zp] =
      (fracHigh o z - fracHigh o zp) * tri2 o := by
  simp only [shoelace2, shoelaceFrom, cross, longPt, highPt, fracHigh, tri2]
  ring

theorem shoelace_last_low (o : Ordered) (zp : ℚ) :
    shoelace2 [longPt o zp, V2 o, V1 o, lowPt o zp] = (1 - fracLow o zp) * tri2 o := by
  simp only [shoelace2, shoelaceFrom, cross, V1, V2, longPt, lowPt, fracLow, tri2]
  ring

theorem shoelace_last_high (o : Ordered) (zp : ℚ) :
    shoelace2 [longPt o zp, V2 o, highPt o zp] = (1 - fracHigh o zp) * tri2 o := by
  simp only [shoelace2, shoelaceFrom, cross, V2, longPt, highPt, fracHigh, tri2]
  ring

theorem points_four (x y : ℤ → ℚ) :
    points 4 x y = [(x 0, y 0), (x 1, y 1), (x 2, y 2), (x 3, y 3)] := by
  simp [points, List.range_succ]

theorem points_five (x y : ℤ → ℚ) :
    points 5 x y = [(x 0, y 0), (x 1, y 1), (x 2, y 2), (x 3, y 3), (x 4, y 4)] := by
  simp [points, List.range_succ]

theorem firstStripe_spec (p : Painter) (nc : ℤ) (o : Ordered) (Ci : ℤ) (s : Stripe) :
    (firstStripe p nc o Ci s).Zi = levelZ p nc Ci ∧
    ((firstStripe p nc o Ci s).xp 1, (firstStripe p nc o Ci s).yp 1) =
      longPt o (levelZ p nc Ci) ∧
    ((firstStripe p nc o Ci s).xp 2, (firstStripe p nc o Ci s).yp 2) =
      (if levelZ p nc Ci ≥ o.Z1 ∨ o.Z0 = o.Z1 then highPt o (levelZ p nc Ci)
        else lowPt o (levelZ p nc Ci)) ∧
    points (firstStripe p nc o Ci s).npf (firstStripe p nc o Ci s).xp
        (firstStripe p nc o Ci s).yp =
      (if levelZ p nc Ci ≥ o.Z1 ∨ o.Z0 = o.Z1 then
        [V0 o, longPt o (levelZ p nc Ci), highPt o (levelZ p nc Ci), V1 o]
      else [V0 o, longPt o (levelZ p nc Ci), lowPt o (levelZ p nc Ci)]) := by
  simp only [firstStripe]
  split_ifs with h
  · simp [points_four, points_three, V0, V1, longPt, highPt]
  · simp [points_four, points_three, V0, V1, longPt, lowPt]

theorem lastStripe_spec (o : Ordered) (s : Stripe) :
    points (lastStripe o s).npf (lastStripe o s).xp (lastStripe o s).yp =
      (if s.Zi < o.Z1 ∨ o.Z2 = o.Z1 then [(s.xp 1, s.yp 1), V2 o, V1 o, (s.xp 2, s.yp 2)]
      else [(s.xp 1, s.yp 1), V2 o, (s.xp 2, s.yp 2)]) := by
  simp only [lastStripe]
  split_ifs with h
  · simp [points_four, points_three, V2, V1]
  · simp [points_four, points_three, V2, V1]

theorem middleStripe_spec (p : Painter) (nc : ℤ) (o : Ordered) (Ci : ℤ) (s : Stripe) :
    (middleStripe p nc o Ci s).Zi = levelZ p nc Ci ∧
    ((middleStripe p nc o Ci s).xp 1, (middleStripe p nc o Ci s).yp 1) =
      longPt o (levelZ p nc Ci) ∧
    ((middleStripe p nc o Ci s).xp 2, (middleStripe p nc o Ci s).yp 2) =
      shortPt o (levelZ p nc Ci) ∧
    points (middleStripe p nc o Ci s).npf (middleStripe p nc o Ci s).xp
        (middleStripe p nc o Ci s).yp =
      (if levelZ p nc Ci ≥ o.Z1 ∧ s.Zip ≤ o.Z1 then
        [(s.xp 1, s.yp 1), longPt o (levelZ p nc Ci), shortPt o (levelZ p nc Ci), V1 o,
          (s.xp 2, s.yp 2)]
      else [(s.xp 1, s.yp 1), longPt o (levelZ p nc Ci), shortPt o (levelZ p nc Ci),
        (s.xp 2, s.yp 2)]) := by
  simp only [middleStripe, shortPt]
  split_ifs with h1 h2 h2
  · exact absurd h1 (not_lt.mpr h2.1)
  · simp [points_four, points_five, V1, longPt, lowPt]
  · simp [points_four, points_five, V1, longPt, highPt]
  · simp [points_four, points_five, V1, longPt, highPt]

/-! ### One iteration of the stripe loop -/

theorem stripeBody_first_eq (p : Painter) (st : TStyle) (o : Ordered) (c0 c2 : ℤ) (s : Stripe) :
    (stripeBody p st o c0 c2 c0 s).Zi = (firstStripe p st.numberOfColors o c0 s).Zi ∧
    (stripeBody p st o c0 c2 c0 s).Zip = (firstStripe p st.numberOfColors o c0 s).Zi ∧
    (stripeBody p st o c0 c2 c0 s).xp = (firstStripe p st.numberOfColors o c0 s).xp ∧
    (stripeBody p st o c0 c2 c0 s).yp = (firstStripe p st.numberOfColors o c0 s).yp ∧
    (stripeBody p st o c0 c2 c0 s).npf = (firstStripe p st.numberOfColors o c0 s).npf := by
  simp only [stripeBody, if_true, firstStripe]
  split_ifs <;> exact ⟨rfl, rfl, rfl, rfl, rfl⟩

theorem stripeBody_last_eq (p : Painter) (st : TStyle) (o : Ordered) (c0 c2 : ℤ) (s : Stripe)
    (h : c2 ≠ c0) :
    (stripeBody p st o c0 c2 c2 s).Zi = (lastStripe o s).Zi ∧
    (stripeBody p st o c0 c2 c2 s).Zip = (lastStripe o s).Zi ∧
    (stripeBody p st o c0 c2 c2 s).xp = (lastStripe o s).xp ∧
    (stripeBody p st o c0 c2 c2 s).yp = (lastStripe o s).yp ∧
    (stripeBody p st o c0 c2 c2 s).npf = (lastStripe o s).npf := by
  simp only [stripeBody, if_neg h, if_true, lastStripe]
  split_ifs <;> exact ⟨rfl, rfl, rfl, rfl, rfl⟩

theorem stripeBody_middle_eq (p : Painter) (st : TStyle) (o : Ordered) (c0 c2 Ci : ℤ)
    (s : Stripe) (h0 : Ci ≠ c0) (h2 : Ci ≠ c2) :
    (stripeBody p st o c0 c2 Ci s).Zi = (middleStripe p st.numberOfColors o Ci s).Zi ∧
    (stripeBody p st o c0 c2 Ci s).Zip = (middleStripe p st.numberOfColors o Ci s).Zi ∧
    (stripeBody p st o c0 c2 Ci s).xp = (middleStripe p st.numberOfColors o Ci s).xp ∧
    (stripeBody p st o c0 c2 Ci s).yp = (middleStripe p st.numberOfColors o Ci s).yp ∧
    (stripeBody p st o c0 c2 Ci s).npf = (middleStripe p st.numberOfColors o Ci s).npf := by
  simp only [stripeBody, if_neg h0, if_neg h2, middleStripe]
  split_ifs <;> exact ⟨rfl, rfl, rfl, rfl, rfl⟩

theorem stripeBody_first (p : Painter) (st : TStyle) (o : Ordered) (c0 c2 : ℤ) (s : Stripe)
    (hz : o.Z0 < levelZ p st.numberOfColors c0) :
    StripeInv o (stripeBody p st o c0 c2 c0 s) (levelZ p st.numberOfColors c0) ∧
    ∃ poly, (stripeBody p st o c0 c2 c0 s).g.out =
        s.g.out ++ [Draw.fillArea (st.colorPalette c0) poly] ∧
      shoelace2 poly = fracBelow o (levelZ p st.numberOfColors c0) * tri2 o := by
  have hout := stripeBody_out p st o c0 c2 c0 s
  obtain ⟨e1, e2, e3, e4, e5⟩ := stripeBody_first_eq p st o c0 c2 s
  obtain ⟨h1, h2, h3, h4⟩ := firstStripe_spec p st.numberOfColors o c0 s
  have hcond : (levelZ p st.numberOfColors c0 ≥ o.Z1 ∨ o.Z0 = o.Z1) ↔
      ¬ levelZ p st.numberOfColors c0 < o.Z1 := by
    constructor
    · rintro (h | h)
      · exact not_lt.mpr h
      · rw [← h]; exact not_lt.mpr hz.le
    · intro h; exact Or.inl (not_lt.mp h)
  refine ⟨⟨e1.trans h1, e2.trans h1, by rw [e3, e4]; exact h2, ?_⟩, _, hout, ?_⟩
  · rw [e3, e4, h3, shortPt]
    by_cases hlt : levelZ p st.numberOfColors c0 < o.Z1
    · rw [if_neg (fun h => hcond.mp h hlt), if_pos hlt]
    · rw [if_pos (hcond.mpr hlt), if_neg hlt]
  · rw [e3, e4, e5, h4, fracBelow]
    by_cases hlt : levelZ p st.numberOfColors c0 < o.Z1
    · rw [if_neg (fun h => hcond.mp h hlt), if_pos hlt, shoelace_first_low]
    · rw [if_pos (hcond.mpr hlt), if_neg hlt, shoelace_first_high]

theorem stripeBody_middle (p : Painter) (st : TStyle) (o : Ordered) (c0 c2 Ci : ℤ) (s : Stripe)
    (zp : ℚ) (h0 : Ci ≠ c0) (h2 : Ci ≠ c2) (hinv : StripeInv o s zp)
    (hle : zp ≤ levelZ p st.numberOfColors Ci) :
    StripeInv o (stripeBody p st o c0 c2 Ci s) (levelZ p st.numberOfColors Ci) ∧
    ∃ poly, (stripeBody p st o c0 c2 Ci s).g.out =
        s.g.out ++ [Draw.fillArea (st.colorPalette Ci) poly] ∧
      shoelace2 poly =
        (fracBelow o (levelZ p st.numberOfColors Ci) - fracBelow o zp) * tri2 o := by
  have hout := stripeBody_out p st o c0 c2 Ci s
  obtain ⟨e1, e2, e3, e4, e5⟩ := stripeBody_middle_eq p st o c0 c2 Ci s h0 h2
  obtain ⟨h1, h2', h3, h4⟩ := middleStripe_spec p st.numberOfColors o Ci s
  obtain ⟨i1, i2, i3, i4⟩ := hinv
  refine ⟨⟨e1.trans h1, e2.trans h1, by rw [e3, e4]; exact h2', by rw [e3, e4]; exact h3⟩,
    _, hout, ?_⟩
  rw [e3, e4, e5, h4, i2, i3, i4]
  simp only [fracBelow, shortPt]
  by_cases hz : levelZ p st.numberOfColors Ci < o.Z1
  · have hzp : zp < o.Z1 := lt_of_le_of_lt hle hz
    have hc : ¬ (levelZ p st.numberOfColors Ci ≥ o.Z1 ∧ zp ≤ o.Z1) :=
      fun h => absurd hz (not_lt.mpr h.1)
    simp only [if_neg hc, if_pos hz, if_pos hzp, shoelace_mid_low]
  · by_cases hzp : zp < o.Z1
    · have hc : levelZ p st.numberOfColors Ci ≥ o.Z1 ∧ zp ≤ o.Z1 := ⟨not_lt.mp hz, hzp.le⟩
      simp only [if_pos hc, if_neg hz, if_pos hzp, shoelace_mid_cross]
    · by_cases hzp' : zp ≤ o.Z1
      · have hc : levelZ p st.numberOfColors Ci ≥ o.Z1 ∧ zp ≤ o.Z1 := ⟨not_lt.mp hz, hzp'⟩
        simp only [if_pos hc, if_neg hz, if_neg hzp, shoelace_mid_high5]
      · have hc : ¬ (levelZ p st.numberOfColors Ci ≥ o.Z1 ∧ zp ≤ o.Z1) := fun h => hzp' h.2
        simp only [if_neg hc, if_neg hz, if_neg hzp, shoelace_mid_high]

theorem stripeBody_last (p : Painter) (st : TStyle) (o : Ordered) (c0 c2 : ℤ) (s : Stripe)
    (zp : ℚ) (h : c2 ≠ c0) (hinv : StripeInv o s zp) (hnd : o.Z1 ≤ zp → o.Z1 < o.Z2) :
    ∃ poly, (stripeBody p st o c0 c2 c2 s).g.out =
        s.g.out ++ [Draw.fillArea (st.colorPalette c2) poly] ∧
      shoelace2 poly = (1 - fracBelow o zp) * tri2 o := by
  have hout := stripeBody_out p st o c0 c2 c2 s
  obtain ⟨-, -, e3, e4, e5⟩ := stripeBody_last_eq p st o c0 c2 s h
  have h4 := lastStripe_spec o s
  obtain ⟨i1, i2, i3, i4⟩ := hinv
  refine ⟨_, hout, ?_⟩
  rw [e3, e4, e5, h4, i1, i3, i4]
  simp only [fracBelow, shortPt]
  by_cases hzp : zp < o.Z1
  · have hc : zp < o.Z1 ∨ o.Z2 = o.Z1 := Or.inl hzp
    simp only [if_pos hc, if_pos hzp, shoelace_last_low]
  · have hne : ¬ (zp < o.Z1 ∨ o.Z2 = o.Z1) := by
      rintro (h' | h')
      · exact hzp h'
      · exact absurd h' (ne_of_gt (hnd (not_lt.mp hzp)))
    simp only [if_neg hne, if_neg hzp, shoelace_last_high]

/-! ### The fraction of the triangle below a level -/

theorem ratio_nonneg {lo hi z : ℚ} (h : lo ≤ hi) (hz : lo ≤ z) : 0 ≤ (z - lo) / (hi - lo) :=
  div_nonneg (sub_nonneg.mpr hz) (sub_nonneg.mpr h)

theorem ratio_le_one {lo hi z : ℚ} (h : lo ≤ hi) (hz : z ≤ hi) : (z - lo) / (hi - lo) ≤ 1 := by
  rcases eq_or_lt_of_le h with h' | h'
  · simp [h']
  · rw [div_le_one (sub_pos.mpr h')]
    linarith

theorem ratio_mono (lo : ℚ) {hi a b : ℚ} (h : lo ≤ hi) (hab : a ≤ b) :
    (a - lo) / (hi - lo) ≤ (b - lo) / (hi - lo) :=
  div_le_div_of_nonneg_right (by linarith) (sub_nonneg.mpr h)

theorem fracBelow_mono (o : Ordered) (h01 : o.Z0 ≤ o.Z1) (h12 : o.Z1 ≤ o.Z2) {a b : ℚ}
    (ha : o.Z0 ≤ a) (hab : a ≤ b) (hb : b ≤ o.Z2) : fracBelow o a ≤ fracBelow o b := by
  have h02 : o.Z0 ≤ o.Z2 := le_trans h01 h12
  have la0 := ratio_nonneg h02 ha
  have lb1 := ratio_le_one h02 hb
  have lab := ratio_mono o.Z0 h02 hab
  simp only [fracBelow, fracLow, fracHigh]
  by_cases hb1 : b < o.Z1
  · have ha1 : a < o.Z1 := lt_of_le_of_lt hab hb1
    simp only [if_pos hb1, if_pos ha1]
    exact mul_le_mul lab (ratio_mono o.Z0 h01 hab) (ratio_nonneg h01 ha) (le_trans la0 lab)
  · have hb1' : o.Z1 ≤ b := not_lt.mp hb1
    have rb0 := ratio_nonneg h12 hb1'
    have rb1 := ratio_le_one h12 hb
    by_cases ha1 : a < o.Z1
    · simp only [if_neg hb1, if_pos ha1]
      have sa1 := ratio_le_one h01 ha1.le
      have sa0 := ratio_nonneg h01 ha
      nlinarith [mul_nonneg la0 (sub_nonneg.mpr sa1),
        mul_nonneg (sub_nonneg.mpr lb1) rb0]
    · have ha1' : o.Z1 ≤ a := not_lt.mp ha1
      simp only [if_neg hb1, if_neg ha1]
      have ra0 := ratio_nonneg h12 ha1'
      have rab := ratio_mono o.Z1 h12 hab
      have la1 := ratio_le_one h02 (le_trans hab hb)
      nlinarith [mul_le_mul (sub_le_sub_left lab 1) (sub_le_sub_left rab 1)
        (sub_nonneg.mpr rb1) (sub_nonneg.mpr la1)]

theorem fracBelow_nonneg (o : Ordered) (h01 : o.Z0 ≤ o.Z1) (h12 : o.Z1 ≤ o.Z2) {z : ℚ}
    (hz : o.Z0 ≤ z) (hz2 : z ≤ o.Z2) : 0 ≤ fracBelow o z := by
  have h02 : o.Z0 ≤ o.Z2 := le_trans h01 h12
  have l0 := ratio_nonneg h02 hz
  have l1 := ratio_le_one h02 hz2
  simp only [fracBelow, fracLow, fracHigh]
  split_ifs with h
  · exact mul_nonneg l0 (ratio_nonneg h01 hz)
  · have r0 := ratio_nonneg h12 (not_lt.mp h)
    have r1 := ratio_le_one h12 hz2
    nlinarith [mul_nonneg (sub_nonneg.mpr l1) r0]

theorem fracBelow_le_one (o : Ordered) (h01 : o.Z0 ≤ o.Z1) (h12 : o.Z1 ≤ o.Z2) {z : ℚ}
    (hz : o.Z0 ≤ z) (hz2 : z ≤ o.Z2) : fracBelow o z ≤ 1 := by
  have h02 : o.Z0 ≤ o.Z2 := le_trans h01 h12
  have l0 := ratio_nonneg h02 hz
  have l1 := ratio_le_one h02 hz2
  simp only [fracBelow, fracLow, fracHigh]
  split_ifs with h
  · have s0 := ratio_nonneg h01 hz
    have s1 := ratio_le_one h01 h.le
    nlinarith [mul_nonneg l0 (sub_nonneg.mpr s1)]
  · have r1 := ratio_le_one h12 hz2
    nlinarith [mul_nonneg (sub_nonneg.mpr l1) (sub_nonneg.mpr r1)]

theorem polyArea_of_shoelace {poly : List Pt} {c t : ℚ} (h : shoelace2 poly = c * t)
    (hc : 0 ≤ c) : polyArea poly = c * |t| / 2 := by
  rw [polyArea, h, abs_mul, abs_of_nonneg hc]

theorem painted_append (l : List Draw) (c : ℤ) (poly : List Pt) :
    paintedShoelace (l ++ [Draw.fillArea c poly]) = paintedShoelace l + shoelace2 poly ∧
    paintedArea (l ++ [Draw.fillArea c poly]) = paintedArea l + polyArea poly := by
  simp [paintedShoelace, paintedArea, Draw.shoelace, Draw.area]

/-! ### The stripe loop as a whole -/

theorem stripeLoop_tail (p : Painter) (st : TStyle) (o : Ordered) (c0 c2 : ℤ)
    (h01 : o.Z0 ≤ o.Z1) (h12 : o.Z1 ≤ o.Z2)
    (hlev : LevelsInside p st.numberOfColors o c0 c2)
    (hmono : ∀ k, levelZ p st.numberOfColors k ≤ levelZ p st.numberOfColors (k + 1)) :
    ∀ (fuel : ℕ) (Ci : ℤ) (s : Stripe), c0 < Ci → Ci ≤ c2 → fuel = (c2 - Ci + 1).toNat →
      StripeInv o s (levelZ p st.numberOfColors (Ci - 1)) →
      paintedShoelace (stripeLoop p st o c0 c2 fuel Ci s).g.out =
          paintedShoelace s.g.out +
            (1 - fracBelow o (levelZ p st.numberOfColors (Ci - 1))) * tri2 o ∧
        paintedArea (stripeLoop p st o c0 c2 fuel Ci s).g.out =
          paintedArea s.g.out +
            (1 - fracBelow o (levelZ p st.numberOfColors (Ci - 1))) * |tri2 o| / 2 := by
  intro fuel
  induction fuel with
  | zero => intro Ci s _ h2 hf _; omega
  | succ n ih =>
    intro Ci s hlo hhi hf hinv
    obtain ⟨hp0, hp2, hpnd⟩ := hlev (Ci - 1) (by omega) (by omega)
    simp only [stripeLoop, if_pos hhi]
    rcases eq_or_lt_of_le hhi with heq | hlt
    · subst heq
      have hn : n = 0 := by omega
      subst hn
      obtain ⟨poly, hout, hsh⟩ := stripeBody_last p st o c0 Ci s _ (ne_of_gt hlo) hinv hpnd
      have hc : 0 ≤ 1 - fracBelow o (levelZ p st.numberOfColors (Ci - 1)) :=
        sub_nonneg.mpr (fracBelow_le_one o h01 h12 hp0.le hp2)
      simp only [stripeLoop, hout, (painted_append _ _ _).1, (painted_append _ _ _).2, hsh,
        polyArea_of_shoelace hsh hc]
      exact ⟨trivial, trivial⟩
    · obtain ⟨hz0, hz2, -⟩ := hlev Ci hlo.le hlt
      have hle : levelZ p st.numberOfColors (Ci - 1) ≤ levelZ p st.numberOfColors Ci := by
        have := hmono (Ci - 1)
        rwa [sub_add_cancel] at this
      obtain ⟨hinv', poly, hout, hsh⟩ := stripeBody_middle p st o c0 c2 Ci s _
        (ne_of_gt hlo) (ne_of_lt hlt) hinv hle
      have hc : 0 ≤ fracBelow o (levelZ p st.numberOfColors Ci) -
          fracBelow o (levelZ p st.numberOfColors (Ci - 1)) :=
        sub_nonneg.mpr (fracBelow_mono o h01 h12 hp0.le hle hz2)
      have hinvS : StripeInv o (stripeBody p st o c0 c2 Ci s)
          (levelZ p st.numberOfColors (Ci + 1 - 1)) := by
        rwa [add_sub_cancel_right]
      obtain ⟨ih1, ih2⟩ := ih (Ci + 1) (stripeBody p st o c0 c2 Ci s) (by omega) (by omega)
        (by omega) hinvS
      rw [ih1, ih2, hout, (painted_append _ _ _).1, (painted_append _ _ _).2, hsh,
        polyArea_of_shoelace hsh hc, add_sub_cancel_right]
      constructor <;> ring

theorem stripeLoop_total (p : Painter) (st : TStyle) (o : Ordered) (c0 c2 : ℤ)
    (h01 : o.Z0 ≤ o.Z1) (h12 : o.Z1 ≤ o.Z2) (hlt : c0 < c2)
    (hlev : LevelsInside p st.numberOfColors o c0 c2)
    (hmono : ∀ k, levelZ p st.numberOfColors k ≤ levelZ p st.numberOfColors (k + 1))
    (s : Stripe) :
    paintedShoelace (stripeLoop p st o c0 c2 (c2 - c0 + 1).toNat c0 s).g.out =
        paintedShoelace s.g.out + tri2 o ∧
      paintedArea (stripeLoop p st o c0 c2 (c2 - c0 + 1).toNat c0 s).g.out =
        paintedArea s.g.out + |tri2 o| / 2 := by
  have hf : (c2 - c0 + 1).toNat = (c2 - (c0 + 1) + 1).toNat + 1 := by omega
  obtain ⟨hz0, hz2, -⟩ := hlev c0 le_rfl hlt
  obtain ⟨hinv, poly, hout, hsh⟩ := stripeBody_first p st o c0 c2 s hz0
  have hc : 0 ≤ fracBelow o (levelZ p st.numberOfColors c0) :=
    fracBelow_nonneg o h01 h12 hz0.le hz2
  have hinv' : StripeInv o (stripeBody p st o c0 c2 c0 s)
      (levelZ p st.numberOfColors (c0 + 1 - 1)) := by
    rwa [add_sub_cancel_right]
  obtain ⟨t1, t2⟩ := stripeLoop_tail p st o c0 c2 h01 h12 hlev hmono _ (c0 + 1)
    (stripeBody p st o c0 c2 c0 s) (by omega) (by omega) rfl hinv'
  rw [hf]
  simp only [stripeLoop, if_pos hlt.le]
  rw [t1, t2, hout, (painted_append _ _ _).1, (painted_append _ _ _).2, hsh,
    polyArea_of_shoelace hsh hc, add_sub_cancel_right]
  constructor <;> ring

/-! ### The band boundaries -/

theorem levelZ_sub (p : Painter) (nc : ℤ) (hr : p.fZmin < p.fZmax) (hn : 2 ≤ nc) (Z : ℚ)
    (k : ℤ) :
    levelZ p nc k - Z =
      (((k : ℚ) + 1) - (Z - p.fZmin) / (p.fZmax - p.fZmin) * ((nc - 1 : ℤ) : ℚ)) *
        ((p.fZmax - p.fZmin) / ((nc - 1 : ℤ) : ℚ)) := by
  have hd : p.fZmax - p.fZmin ≠ 0 := ne_of_gt (sub_pos.mpr hr)
  have hm : ((nc - 1 : ℤ) : ℚ) ≠ 0 := by
    have : (0 : ℚ) < ((nc - 1 : ℤ) : ℚ) := by exact_mod_cast (by omega : 0 < nc - 1)
    exact ne_of_gt this
  unfold levelZ
  generalize ((nc - 1 : ℤ) : ℚ) = m at hm ⊢
  push_cast
  field_simp
  ring

theorem step_pos (p : Painter) (nc : ℤ) (hr : p.fZmin < p.fZmax) (hn : 2 ≤ nc) :
    0 < (p.fZmax - p.fZmin) / ((nc - 1 : ℤ) : ℚ) := by
  have : (0 : ℚ) < ((nc - 1 : ℤ) : ℚ) := by exact_mod_cast (by omega : 0 < nc - 1)
  exact div_pos (sub_pos.mpr hr) this

theorem levelZ_step (p : Painter) (nc : ℤ) (hr : p.fZmin < p.fZmax) (hn : 2 ≤ nc) (k : ℤ) :
    levelZ p nc k ≤ levelZ p nc (k + 1) := by
  have h := step_pos p nc hr hn
  have e : levelZ p nc (k + 1) - levelZ p nc k =
      (p.fZmax - p.fZmin) / ((nc - 1 : ℤ) : ℚ) := by
    unfold levelZ
    push_cast
    ring
  linarith

theorem levelsInside_of (p : Painter) (nc : ℤ) (o : Ordered) (hr : p.fZmin < p.fZmax)
    (hn : 2 ≤ nc) (h12 : o.Z1 ≤ o.Z2) (hmin : p.fZmin ≤ o.Z2)
    (hnd : o.Z1 < o.Z2 ∨ ∀ k : ℤ, o.Z2 ≠ levelZ p nc k) :
    LevelsInside p nc o (theColor p nc o.Z0) (theColor p nc o.Z2) := by
  intro k hk0 hk2
  have hs := step_pos p nc hr hn
  have hm : (0 : ℚ) ≤ ((nc - 1 : ℤ) : ℚ) := by exact_mod_cast (by omega : 0 ≤ nc - 1)
  have hlo : o.Z0 < levelZ p nc k := by
    have h1 := lt_truncInt_add_one ((o.Z0 - p.fZmin) / (p.fZmax - p.fZmin) * ((nc - 1 : ℤ) : ℚ))
    have h2 : ((theColor p nc o.Z0 : ℤ) : ℚ) ≤ (k : ℚ) := by exact_mod_cast hk0
    have h3 := levelZ_sub p nc hr hn o.Z0 k
    have h4 : 0 < ((k : ℚ) + 1) -
        (o.Z0 - p.fZmin) / (p.fZmax - p.fZmin) * ((nc - 1 : ℤ) : ℚ) := by
      unfold theColor at h2
      linarith
    have := mul_pos h4 hs
    linarith
  have hhi : levelZ p nc k ≤ o.Z2 := by
    have hv : 0 ≤ (o.Z2 - p.fZmin) / (p.fZmax - p.fZmin) * ((nc - 1 : ℤ) : ℚ) :=
      mul_nonneg (div_nonneg (sub_nonneg.mpr hmin) (sub_pos.mpr hr).le) hm
    have h1 := truncInt_le_of_nonneg hv
    have h2 : (k : ℚ) + 1 ≤ ((theColor p nc o.Z2 : ℤ) : ℚ) := by exact_mod_cast hk2
    have h3 := levelZ_sub p nc hr hn o.Z2 k
    have h4 : ((k : ℚ) + 1) -
        (o.Z2 - p.fZmin) / (p.fZmax - p.fZmin) * ((nc - 1 : ℤ) : ℚ) ≤ 0 := by
      unfold theColor at h2
      linarith
    have := mul_nonpos_of_nonpos_of_nonneg h4 hs.le
    linarith
  refine ⟨hlo, hhi, fun h1 => ?_⟩
  rcases hnd with h | h
  · exact h
  · rcases eq_or_lt_of_le h12 with he | hl
    · exact absurd (le_antisymm (he ▸ h1) hhi) (fun e => h k (e ▸ rfl))
    · exact hl

theorem theColor_mono (p : Painter) (nc : ℤ) (hr : p.fZmin < p.fZmax) (hn : 1 ≤ nc) {a b : ℚ}
    (h : a ≤ b) : theColor p nc a ≤ theColor p nc b := by
  have hm : (0 : ℚ) ≤ ((nc - 1 : ℤ) : ℚ) := by exact_mod_cast (by omega : 0 ≤ nc - 1)
  unfold theColor
  apply truncInt_mono
  apply mul_le_mul_of_nonneg_right _ hm
  exact div_le_div_of_nonneg_right (by linarith) (sub_pos.mpr hr).le

theorem tri2_orderZ (p : Painter) (T : ℤ → ℤ) (x y : ℤ → ℚ) :
    |tri2 (orderZ p T x y)| = |shoelace2 [(x 0, y 0), (x 1, y 1), (x 2, y 2)]| := by
  obtain ⟨hp, ⟨hx0, hy0, -⟩, ⟨hx1, hy1, -⟩, ⟨hx2, hy2, -⟩, -⟩ := orderZ_props p T x y
  simp only [tri2, hx0, hy0, hx1, hy1, hx2, hy2, shoelace2, shoelaceFrom, cross]
  generalize (orderZ p T x y).I0 = i0 at hp ⊢
  generalize (orderZ p T x y).I1 = i1 at hp ⊢
  generalize (orderZ p T x y).I2 = i2 at hp ⊢
  have m0 : i0 ∈ [(0 : ℤ), 1, 2] := hp.mem_iff.mp (by simp)
  have m1 : i1 ∈ [(0 : ℤ), 1, 2] := hp.mem_iff.mp (by simp)
  have m2 : i2 ∈ [(0 : ℤ), 1, 2] := hp.mem_iff.mp (by simp)
  have nd : [i0, i1, i2].Nodup := hp.nodup_iff.mpr (by decide)
  simp only [List.mem_cons, List.mem_singleton, List.not_mem_nil, or_false] at m0 m1 m2
  rcases m0 with rfl | rfl | rfl <;> rcases m1 with rfl | rfl | rfl <;>
    rcases m2 with rfl | rfl | rfl <;>
    first
    | (exfalso; revert nd; decide)
    | (rw [abs_eq_abs]; first | (left; ring1) | (right; ring1))

/-! ### The denominators of the divisions -/

theorem firstStripe_divs (p : Painter) (nc : ℤ) (o : Ordered) (Ci : ℤ) (s : Stripe) :
    (firstStripe p nc o Ci s).g.divs = s.g.divs ++ [((nc - 1 : ℤ) : ℚ), o.Z2 - o.Z0,
      if levelZ p nc Ci ≥ o.Z1 ∨ o.Z0 = o.Z1 then o.Z2 - o.Z1 else o.Z1 - o.Z0] := by
  simp only [firstStripe]
  split_ifs <;> simp [divBy]

theorem middleStripe_divs (p : Painter) (nc : ℤ) (o : Ordered) (Ci : ℤ) (s : Stripe) :
    (middleStripe p nc o Ci s).g.divs = s.g.divs ++ [((nc - 1 : ℤ) : ℚ), o.Z2 - o.Z0,
      if levelZ p nc Ci < o.Z1 then o.Z1 - o.Z0 else o.Z2 - o.Z1] := by
  simp only [middleStripe]
  split_ifs <;> simp [divBy]

theorem stripeBody_divs (p : Painter) (st : TStyle) (o : Ordered) (c0 c2 Ci : ℤ) (s : Stripe) :
    (stripeBody p st o c0 c2 Ci s).g.divs =
      if Ci = c0 then (firstStripe p st.numberOfColors o Ci s).g.divs
      else if Ci = c2 then s.g.divs
      else (middleStripe p st.numberOfColors o Ci s).g.divs := by
  simp only [stripeBody]
  split_ifs <;>
    simp [paintFillArea, firstStripe_divs, middleStripe_divs, lastStripe_g, setFillColor]

theorem stripeBody_divs_ne_zero (p : Painter) (st : TStyle) (o : Ordered) (c0 c2 Ci : ℤ)
    (s : Stripe) (hm : ((st.numberOfColors - 1 : ℤ) : ℚ) ≠ 0) (h02 : o.Z0 < o.Z2) (hlt : c0 < c2)
    (hz : Ci ≠ c2 → o.Z0 < levelZ p st.numberOfColors Ci ∧
      (o.Z1 ≤ levelZ p st.numberOfColors Ci → o.Z1 < o.Z2)) :
    ∀ d ∈ (stripeBody p st o c0 c2 Ci s).g.divs, d ∈ s.g.divs ∨ d ≠ 0 := by
  intro d hd
  rw [stripeBody_divs] at hd
  have h02' : o.Z2 - o.Z0 ≠ 0 := ne_of_gt (sub_pos.mpr h02)
  split_ifs at hd with h0 h2
  · obtain ⟨hz0, hnd⟩ := hz (by omega)
    rw [firstStripe_divs] at hd
    simp only [List.mem_append, List.mem_cons, List.mem_singleton, List.not_mem_nil,
      or_false] at hd
    rcases hd with hd | rfl | rfl | rfl
    · exact Or.inl hd
    · exact Or.inr hm
    · exact Or.inr h02'
    · right
      split_ifs with hc
      · have h1 : o.Z1 ≤ levelZ p st.numberOfColors Ci := by
          rcases hc with hc | hc
          · exact hc
          · rw [← hc]; exact hz0.le
        exact ne_of_gt (sub_pos.mpr (hnd h1))
      · exact sub_ne_zero.mpr (fun e => hc (Or.inr e.symm))
  · exact Or.inl hd
  · obtain ⟨hz0, hnd⟩ := hz h2
    rw [middleStripe_divs] at hd
    simp only [List.mem_append, List.mem_cons, List.mem_singleton, List.not_mem_nil,
      or_false] at hd
    rcases hd with hd | rfl | rfl | rfl
    · exact Or.inl hd
    · exact Or.inr hm
    · exact Or.inr h02'
    · right
      split_ifs with hc
      · exact ne_of_gt (sub_pos.mpr (lt_trans hz0 hc))
      · exact ne_of_gt (sub_pos.mpr (hnd (not_lt.mp hc)))

theorem stripeLoop_divs_ne_zero (p : Painter) (st : TStyle) (o : Ordered) (c0 c2 : ℤ)
    (hm : ((st.numberOfColors - 1 : ℤ) : ℚ) ≠ 0) (h02 : o.Z0 < o.Z2) (hlt : c0 < c2)
    (hlev : LevelsInside p st.numberOfColors o c0 c2) :
    ∀ (fuel : ℕ) (Ci : ℤ) (s : Stripe), c0 ≤ Ci →
      ∀ d ∈ (stripeLoop p st o c0 c2 fuel Ci s).g.divs, d ∈ s.g.divs ∨ d ≠ 0 := by
  intro fuel
  induction fuel with
  | zero => intro Ci s _ d hd; exact Or.inl hd
  | succ n ih =>
    intro Ci s hlo d hd
    simp only [stripeLoop] at hd
    split_ifs at hd with hhi
    · rcases ih (Ci + 1) _ (by omega) d hd with h | h
      · refine stripeBody_divs_ne_zero p st o c0 c2 Ci s hm h02 hlt (fun hne => ?_) d h
        obtain ⟨a, -, b⟩ := hlev Ci hlo (by omega)
        exact ⟨a, b⟩
      · exact Or.inr h
    · exact Or.inl hd

/-! ### Conservation of the area -/

theorem paintColors_out (p : Painter) (st : TStyle) (x y : ℤ → ℚ) (o : Ordered) (g : Gfx) :
    (paintColors p st x y o g).out =
      if theColor p st.numberOfColors o.Z0 = theColor p st.numberOfColors o.Z2 then
        g.out ++ [Draw.fillArea (st.colorPalette (theColor p st.numberOfColors o.Z0))
          (points 3 x y)]
      else
        (stripeLoop p st o (theColor p st.numberOfColors o.Z0)
          (theColor p st.numberOfColors o.Z2)
          (theColor p st.numberOfColors o.Z2 - theColor p st.numberOfColors o.Z0 + 1).toNat
          (theColor p st.numberOfColors o.Z0)
          { xp := fun _ => 0, yp := fun _ => 0, Zi := 0, Zip := 0, npf := 0,
            g := divBy (divBy g (p.fZmax - p.fZmin)) (p.fZmax - p.fZmin) }).g.out := by
  simp only [paintColors]
  split_ifs <;> simp [setFillColor, paintFillArea, divBy]

theorem paintColors_divs (p : Painter) (st : TStyle) (x y : ℤ → ℚ) (o : Ordered) (g : Gfx) :
    (paintColors p st x y o g).divs =
      if theColor p st.numberOfColors o.Z0 = theColor p st.numberOfColors o.Z2 then
        g.divs ++ [p.fZmax - p.fZmin, p.fZmax - p.fZmin]
      else
        (stripeLoop p st o (theColor p st.numberOfColors o.Z0)
          (theColor p st.numberOfColors o.Z2)
          (theColor p st.numberOfColors o.Z2 - theColor p st.numberOfColors o.Z0 + 1).toNat
          (theColor p st.numberOfColors o.Z0)
          { xp := fun _ => 0, yp := fun _ => 0, Zi := 0, Zip := 0, npf := 0,
            g := divBy (divBy g (p.fZmax - p.fZmin)) (p.fZmax - p.fZmin) }).g.divs := by
  simp only [paintColors]
  split_ifs <;> simp [setFillColor, paintFillArea, divBy]

theorem paintColors_conserves (p : Painter) (st : TStyle) (T : ℤ → ℤ) (x y : ℤ → ℚ) (g : Gfx)
    (hr : p.fZmin < p.fZmax) (hnc : 2 ≤ st.numberOfColors)
    (hmin : p.fZmin ≤ (orderZ p T x y).Z2)
    (hnd : (orderZ p T x y).Z1 < (orderZ p T x y).Z2 ∨
      ∀ k : ℤ, (orderZ p T x y).Z2 ≠ levelZ p st.numberOfColors k) :
    (paintedShoelace (paintColors p st x y (orderZ p T x y) g).out = paintedShoelace g.out +
        (if theColor p st.numberOfColors (orderZ p T x y).Z0 =
            theColor p st.numberOfColors (orderZ p T x y).Z2
          then shoelace2 [(x 0, y 0), (x 1, y 1), (x 2, y 2)] else tri2 (orderZ p T x y))) ∧
    paintedArea (paintColors p st x y (orderZ p T x y) g).out =
      paintedArea g.out + polyArea [(x 0, y 0), (x 1, y 1), (x 2, y 2)] ∧
    ∀ d ∈ (paintColors p st x y (orderZ p T x y) g).divs, d ∈ g.divs ∨ d ≠ 0 := by
  obtain ⟨-, -, -, -, h01, h12⟩ := orderZ_props p T x y
  have hd : p.fZmax - p.fZmin ≠ 0 := ne_of_gt (sub_pos.mpr hr)
  have hle := theColor_mono p st.numberOfColors hr (by omega) (le_trans h01 h12)
  rw [paintColors_out, paintColors_divs]
  by_cases heq : theColor p st.numberOfColors (orderZ p T x y).Z0 =
      theColor p st.numberOfColors (orderZ p T x y).Z2
  · simp only [if_pos heq, points_three, (painted_append _ _ _).1, (painted_append _ _ _).2]
    refine ⟨trivial, trivial, fun d hd' => ?_⟩
    simp only [List.mem_append, List.mem_cons, List.mem_singleton, List.not_mem_nil,
      or_false] at hd'
    rcases hd' with h | rfl | rfl
    · exact Or.inl h
    · exact Or.inr hd
    · exact Or.inr hd
  · have hlt := lt_of_le_of_ne hle heq
    have h02 : (orderZ p T x y).Z0 < (orderZ p T x y).Z2 := by
      rcases eq_or_lt_of_le (le_trans h01 h12) with h | h
      · exact absurd (by rw [h]) heq
      · exact h
    have hlev := levelsInside_of p st.numberOfColors (orderZ p T x y) hr hnc h12 hmin hnd
    have hm : ((st.numberOfColors - 1 : ℤ) : ℚ) ≠ 0 := by
      have : (0 : ℚ) < ((st.numberOfColors - 1 : ℤ) : ℚ) := by
        exact_mod_cast (by omega : 0 < st.numberOfColors - 1)
      exact ne_of_gt this
    obtain ⟨t1, t2⟩ := stripeLoop_total p st (orderZ p T x y) _ _ h01 h12 hlt hlev
      (levelZ_step p st.numberOfColors hr hnc)
      { xp := fun _ => 0, yp := fun _ => 0, Zi := 0, Zip := 0, npf := 0,
        g := divBy (divBy g (p.fZmax - p.fZmin)) (p.fZmax - p.fZmin) }
    simp only [if_neg heq]
    refine ⟨t1, ?_, fun d hd' => ?_⟩
    · rw [t2, polyArea, ← tri2_orderZ p T x y]
      rfl
    · rcases stripeLoop_divs_ne_zero p st (orderZ p T x y) _ _ hm h02 hlt hlev _ _ _ le_rfl d hd'
        with h | h
      · simp only [divBy, List.mem_append, List.mem_singleton] at h
        rcases h with (h | rfl) | rfl
        · exact Or.inl h
        · exact Or.inr hd
        · exact Or.inr hd
      · exact Or.inr h

/-! ### Evaluation at concrete triangles -/

theorem orderZ_0_5_10 (x y : ℤ → ℚ) (p : Painter) (T : ℤ → ℤ) (h0 : p.fZ (T 0 - 1) = 0)
    (h1 : p.fZ (T 1 - 1) = 5) (h2 : p.fZ (T 2 - 1) = 10) :
    orderZ p T x y =
      { I0 := 0, I1 := 1, I2 := 2, X0 := x 0, Y0 := y 0, Z0 := 0, X1 := x 1, Y1 := y 1, Z1 := 5,
        X2 := x 2, Y2 := y 2, Z2 := 10 } := by
  norm_num [orderZ, orderStep, h0, h1, h2]

/-- C6, the failing input. For the Z values `(0, 10, 10)` with `zMin = 0`, `zMax = 10` and two
colours, `PaintLevels` divides by `fZmax - fZmin = 10` (twice), by `ncolors - 1 = 1`, by
`Z2 - Z0 = 10` and then by `Z2 - Z1 = 0`: the band boundary `Zi = 10` reaches `Z1 = Z2`. -/
theorem PaintLevels_zero_denominator :
    (PaintLevels ⟨arr3 0 10 10, 0, 10⟩ ⟨2, id⟩ idx3 (arr3 0 1 0) (arr3 0 0 1) 0 (fun _ => 0)
      gfx0).divs = [10, 10, 1, 10, 0] := by
  have c0 : theColor ⟨arr3 0 10 10, 0, 10⟩ 2 0 = 0 :=
    theColor_of_intCast _ _ _ _ (by norm_num)
  have c2 : theColor ⟨arr3 0 10 10, 0, 10⟩ 2 10 = 1 :=
    theColor_of_intCast _ _ _ _ (by norm_num)
  have ho : orderZ ⟨arr3 0 10 10, 0, 10⟩ idx3 (arr3 0 1 0) (arr3 0 0 1) =
      { I0 := 0, I1 := 2, I2 := 1, X0 := 0, Y0 := 0, Z0 := 0, X1 := 0, Y1 := 1, Z1 := 10,
        X2 := 1, Y2 := 0, Z2 := 10 } := by
    norm_num [orderZ, orderStep, arr3, idx3]
  simp only [PaintLevels, paintColors, ho, c0, c2]
  norm_num [stripeLoop, stripeBody, firstStripe, lastStripe, levelZ, divBy, setFillColor,
    paintFillArea, gfx0]

/-- C7, the claim refuted. With `numColors = 0` (and `zMin = 0 < zMax = 10`) the triangle with
the Z values `(0, 5, 10)` gets the colour indices `0` and `-1`, the stripe loop is not
entered and nothing is painted. -/
theorem PaintLevels_no_colour_paints_nothing :
    (⟨0, id⟩ : TStyle).numberOfColors ≤ 1 ∧
    (PaintLevels ⟨arr3 0 5 10, 0, 10⟩ ⟨0, id⟩ idx3 (arr3 0 1 0) (arr3 0 0 1) 0 (fun _ => 0)
      gfx0).out = [] := by
  have c0 : theColor ⟨arr3 0 5 10, 0, 10⟩ 0 0 = 0 :=
    theColor_of_intCast _ _ _ _ (by norm_num)
  have c2 : theColor ⟨arr3 0 5 10, 0, 10⟩ 0 10 = -1 :=
    theColor_of_intCast _ _ _ _ (by norm_num)
  have ho := orderZ_0_5_10 (arr3 0 1 0) (arr3 0 0 1) ⟨arr3 0 5 10, 0, 10⟩ idx3
    (by simp [arr3, idx3]) (by simp [arr3, idx3]) (by simp [arr3, idx3])
  refine ⟨by decide, ?_⟩
  simp only [PaintLevels, paintColors, ho, c0, c2]
  norm_num [stripeLoop, divBy, setFillColor, gfx0]

/-- C7, as amended. With exactly one colour and `zMax ≠ zMin`, `PaintLevels` in colour mode
paints exactly one polygon, the triangle it was given, in the palette colour of index 0; the
only divisions are the two by `fZmax - fZmin`, which is not zero. -/
theorem PaintLevels_one_colour (p : Painter) (st : TStyle) (T : ℤ → ℤ) (x y : ℤ → ℚ)
    (nblev : ℤ) (glev : ℤ → ℚ) (g : Gfx) (hn : nblev ≤ 0) (hnc : st.numberOfColors = 1)
    (hz : p.fZmax ≠ p.fZmin) :
    (PaintLevels p st T x y nblev glev g).out =
        g.out ++ [Draw.fillArea (st.colorPalette 0) [(x 0, y 0), (x 1, y 1), (x 2, y 2)]] ∧
      (PaintLevels p st T x y nblev glev g).divs =
        g.divs ++ [p.fZmax - p.fZmin, p.fZmax - p.fZmin] ∧
      p.fZmax - p.fZmin ≠ 0 := by
  have hc : ∀ Z, theColor p st.numberOfColors Z = 0 := by
    intro Z
    exact theColor_of_intCast _ _ _ _ (by rw [hnc]; norm_num)
  simp only [PaintLevels, if_pos hn, paintColors_out, paintColors_divs, hc, if_true,
    points_three]
  exact ⟨trivial, trivial, sub_ne_zero.mpr hz⟩

/-- One colour on `[0, 10]`, the triangle with the Z values `(0, 5, 10)`. -/
theorem PaintLevels_one_colour_witness :
    ((0 : ℤ) ≤ 0 ∧ (⟨1, id⟩ : TStyle).numberOfColors = 1 ∧
      (⟨arr3 0 5 10, 0, 10⟩ : Painter).fZmax ≠ (⟨arr3 0 5 10, 0, 10⟩ : Painter).fZmin) ∧
    (PaintLevels ⟨arr3 0 5 10, 0, 10⟩ ⟨1, id⟩ idx3 (arr3 0 1 0) (arr3 0 0 1) 0 (fun _ => 0)
        gfx0).out =
      gfx0.out ++ [Draw.fillArea (id 0) [(arr3 0 1 0 0, arr3 0 0 1 0),
        (arr3 0 1 0 1, arr3 0 0 1 1), (arr3 0 1 0 2, arr3 0 0 1 2)]] :=
  ⟨⟨by decide, rfl, by norm_num⟩,
    (PaintLevels_one_colour ⟨arr3 0 5 10, 0, 10⟩ ⟨1, id⟩ idx3 (arr3 0 1 0) (arr3 0 0 1) 0
      (fun _ => 0) gfx0 (by decide) rfl (by norm_num)).1⟩

/-! ### The number of points of a stripe -/

theorem points_length (n : ℕ) (x y : ℤ → ℚ) : (points n x y).length = n := by
  unfold points
  rw [List.length_map, List.length_range]

theorem stripeBody_npf (p : Painter) (st : TStyle) (o : Ordered) (c0 c2 Ci : ℤ) (s : Stripe) :
    (stripeBody p st o c0 c2 Ci s).npf =
      if Ci = c0 then
        (if levelZ p st.numberOfColors Ci ≥ o.Z1 ∨ o.Z0 = o.Z1 then 4 else 3)
      else if Ci = c2 then (if s.Zi < o.Z1 ∨ o.Z2 = o.Z1 then 4 else 3)
      else (if levelZ p st.numberOfColors Ci ≥ o.Z1 ∧ s.Zip ≤ o.Z1 then 5 else 4) := by
  simp only [stripeBody, firstStripe, lastStripe, middleStripe]
  split_ifs <;> rfl

theorem stripeBody_Zi (p : Painter) (st : TStyle) (o : Ordered) (c0 c2 Ci : ℤ) (s : Stripe) :
    (stripeBody p st o c0 c2 Ci s).Zi =
        (if Ci = c0 then levelZ p st.numberOfColors Ci
          else if Ci = c2 then s.Zi else levelZ p st.numberOfColors Ci) ∧
      (stripeBody p st o c0 c2 Ci s).Zip = (stripeBody p st o c0 c2 Ci s).Zi := by
  refine ⟨?_, rfl⟩
  simp only [stripeBody, firstStripe, lastStripe, middleStripe]
  split_ifs <;> rfl

theorem scenario_0_5_10 (p : Painter) (st : TStyle) (T : ℤ → ℤ) (x y : ℤ → ℚ)
    (nblev : ℤ) (glev : ℤ → ℚ) (g : Gfx) (hn : nblev ≤ 0) (h0 : p.fZ (T 0 - 1) = 0)
    (h1 : p.fZ (T 1 - 1) = 5) (h2 : p.fZ (T 2 - 1) = 10) (hmin : p.fZmin = 0)
    (hmax : p.fZmax = 10) (hnc : st.numberOfColors = 5) :
    ∃ q0 q1 q2 q3 q4 : List Pt,
      (PaintLevels p st T x y nblev glev g).out =
        g.out ++ [Draw.fillArea (st.colorPalette 0) q0, Draw.fillArea (st.colorPalette 1) q1,
          Draw.fillArea (st.colorPalette 2) q2, Draw.fillArea (st.colorPalette 3) q3,
          Draw.fillArea (st.colorPalette 4) q4] ∧
      q0.length = 3 ∧ q1.length = 5 ∧ q2.length = 5 ∧ q3.length = 4 ∧ q4.length = 3 := by
  have ho := orderZ_0_5_10 x y p T h0 h1 h2
  have c0 : theColor p st.numberOfColors 0 = 0 :=
    theColor_of_intCast _ _ _ _ (by rw [hmin, hmax, hnc]; norm_num)
  have c2 : theColor p st.numberOfColors 10 = 4 :=
    theColor_of_intCast _ _ _ _ (by rw [hmin, hmax, hnc]; norm_num)
  have l0 : levelZ p st.numberOfColors 0 = 5 / 2 := by rw [levelZ, hmin, hmax, hnc]; norm_num
  have l1 : levelZ p st.numberOfColors 1 = 5 := by rw [levelZ, hmin, hmax, hnc]; norm_num
  have l2 : levelZ p st.numberOfColors 2 = 15 / 2 := by rw [levelZ, hmin, hmax, hnc]; norm_num
  have l3 : levelZ p st.numberOfColors 3 = 10 := by rw [levelZ, hmin, hmax, hnc]; norm_num
  simp only [PaintLevels, if_pos hn, paintColors_out, ho, c0, c2]
  norm_num only [stripeLoop, Int.toNat_ofNat, if_false, if_true]
  generalize hs0 : (Stripe.mk (fun _ => 0) (fun _ => 0) 0 0 0
    (divBy (divBy g (p.fZmax - p.fZmin)) (p.fZmax - p.fZmin))) = s0
  have hg0 : s0.g.out = g.out := by rw [← hs0]; rfl
  generalize ho' : (Ordered.mk 0 1 2 (x 0) (y 0) 0 (x 1) (y 1) 5 (x 2) (y 2) 10) = o
  have z0 : o.Z0 = 0 := by rw [← ho']
  have z1 : o.Z1 = 5 := by rw [← ho']
  have z2 : o.Z2 = 10 := by rw [← ho']
  generalize hs1 : stripeBody p st o 0 4 0 s0 = s1
  generalize hs2 : stripeBody p st o 0 4 1 s1 = s2
  generalize hs3 : stripeBody p st o 0 4 2 s2 = s3
  generalize hs4 : stripeBody p st o 0 4 3 s3 = s4
  generalize hs5 : stripeBody p st o 0 4 4 s4 = s5
  have o1 := stripeBody_out p st o 0 4 0 s0
  have o2 := stripeBody_out p st o 0 4 1 s1
  have o3 := stripeBody_out p st o 0 4 2 s2
  have o4 := stripeBody_out p st o 0 4 3 s3
  have o5 := stripeBody_out p st o 0 4 4 s4
  have n1 := stripeBody_npf p st o 0 4 0 s0
  have n2 := stripeBody_npf p st o 0 4 1 s1
  have n3 := stripeBody_npf p st o 0 4 2 s2
  have n4 := stripeBody_npf p st o 0 4 3 s3
  have n5 := stripeBody_npf p st o 0 4 4 s4
  have k1 := stripeBody_Zi p st o 0 4 0 s0
  have k2 := stripeBody_Zi p st o 0 4 1 s1
  have k3 := stripeBody_Zi p st o 0 4 2 s2
  have k4 := stripeBody_Zi p st o 0 4 3 s3
  rw [hs1] at o1 n1 k1
  rw [hs2] at o2 n2 k2
  rw [hs3] at o3 n3 k3
  rw [hs4] at o4 n4 k4
  rw [hs5] at o5 n5
  norm_num [l0, l1, l2, l3, z0, z1, z2] at k1 k2 k3 k4
  norm_num [l0, l1, l2, l3, z0, z1, z2, k1.1, k1.2, k2.1, k2.2, k3.1, k3.2, k4.1, k4.2]
    at n1 n2 n3 n4 n5
  refine ⟨points s1.npf s1.xp s1.yp, points s2.npf s2.xp s2.yp, points s3.npf s3.xp s3.yp,
    points s4.npf s4.xp s4.yp, points s5.npf s5.xp s5.yp, ?_, ?_, ?_, ?_, ?_, ?_⟩
  · rw [o5, o4, o3, o2, o1, hg0]
    simp
  · rw [points_length, n1]
  · rw [points_length, n2]
  · rw [points_length, n3]
  · rw [points_length, n4]
  · rw [points_length, n5]

theorem paintedArea_append (l l' : List Draw) :
    paintedArea (l ++ l') = paintedArea l + paintedArea l' := by
  simp [paintedArea]

/-- C4, the claim refuted. For the triangle `(0,0), (1,0), (0,1)` with the Z values
`(0, 5, 10)`, `zMin = 0`, `zMax = 10` and five colours, the polygons painted have
`3, 5, 5, 4, 3` points, not `3, 4, 4, 4, 3`: the boundaries `5` and `7.5` of the bands 1 and 2
satisfy `Zi ≥ Z1` and `Zip ≤ Z1` with `Z1 = 5`, the test of the five-point stripe. -/
theorem PaintLevels_scenario_vertex_counts :
    (PaintLevels ⟨arr3 0 5 10, 0, 10⟩ ⟨5, id⟩ idx3 (arr3 0 1 0) (arr3 0 0 1) 0 (fun _ => 0)
        gfx0).out.map Draw.npoints = [3, 5, 5, 4, 3] ∧
    (PaintLevels ⟨arr3 0 5 10, 0, 10⟩ ⟨5, id⟩ idx3 (arr3 0 1 0) (arr3 0 0 1) 0 (fun _ => 0)
        gfx0).out.map Draw.npoints ≠ [3, 4, 4, 4, 3] := by
  obtain ⟨q0, q1, q2, q3, q4, hout, h0, h1, h2, h3, h4⟩ :=
    scenario_0_5_10 ⟨arr3 0 5 10, 0, 10⟩ ⟨5, id⟩ idx3 (arr3 0 1 0) (arr3 0 0 1) 0 (fun _ => 0)
      gfx0 (by decide) (by simp [arr3, idx3]) (by simp [arr3, idx3]) (by simp [arr3, idx3])
      rfl rfl rfl
  have h : (PaintLevels ⟨arr3 0 5 10, 0, 10⟩ ⟨5, id⟩ idx3 (arr3 0 1 0) (arr3 0 0 1) 0
      (fun _ => 0) gfx0).out.map Draw.npoints = [3, 5, 5, 4, 3] := by
    rw [hout]
    simp [gfx0, Draw.npoints, h0, h1, h2, h3, h4]
  refine ⟨h, ?_⟩
  rw [h]
  decide

/-- C4, as amended. For a triangle whose vertex Z values are `(0, 5, 10)`, with `zMin = 0`,
`zMax = 10` and five colours, `PaintLevels` in colour mode paints exactly five polygons, in
the palette colours of the indices `0, 1, 2, 3, 4` in that order, with `3, 5, 5, 4, 3` points,
and their areas sum to the area of the triangle. -/
theorem PaintLevels_scenario (p : Painter) (st : TStyle) (T : ℤ → ℤ) (x y : ℤ → ℚ)
    (nblev : ℤ) (glev : ℤ → ℚ) (g : Gfx) (hn : nblev ≤ 0) (h0 : p.fZ (T 0 - 1) = 0)
    (h1 : p.fZ (T 1 - 1) = 5) (h2 : p.fZ (T 2 - 1) = 10) (hmin : p.fZmin = 0)
    (hmax : p.fZmax = 10) (hnc : st.numberOfColors = 5) :
    ∃ q0 q1 q2 q3 q4 : List Pt,
      (PaintLevels p st T x y nblev glev g).out =
        g.out ++ [Draw.fillArea (st.colorPalette 0) q0, Draw.fillArea (st.colorPalette 1) q1,
          Draw.fillArea (st.colorPalette 2) q2, Draw.fillArea (st.colorPalette 3) q3,
          Draw.fillArea (st.colorPalette 4) q4] ∧
      (q0.length = 3 ∧ q1.length = 5 ∧ q2.length = 5 ∧ q3.length = 4 ∧ q4.length = 3) ∧
      polyArea q0 + polyArea q1 + polyArea q2 + polyArea q3 + polyArea q4 =
        polyArea [(x 0, y 0), (x 1, y 1), (x 2, y 2)] := by
  obtain ⟨q0, q1, q2, q3, q4, hout, hl⟩ :=
    scenario_0_5_10 p st T x y nblev glev g hn h0 h1 h2 hmin hmax hnc
  refine ⟨q0, q1, q2, q3, q4, hout, hl, ?_⟩
  have ho := orderZ_0_5_10 x y p T h0 h1 h2
  have ha := (paintColors_conserves p st T x y g (by rw [hmin, hmax]; norm_num)
    (by rw [hnc]; decide) (by rw [ho, hmin]; norm_num) (Or.inl (by rw [ho]; norm_num))).2.1
  have hout' : (paintColors p st x y (orderZ p T x y) g).out =
      (PaintLevels p st T x y nblev glev g).out := by
    simp only [PaintLevels, if_pos hn]
  rw [hout', hout, paintedArea_append] at ha
  have hs : paintedArea [Draw.fillArea (st.colorPalette 0) q0,
      Draw.fillArea (st.colorPalette 1) q1, Draw.fillArea (st.colorPalette 2) q2,
      Draw.fillArea (st.colorPalette 3) q3, Draw.fillArea (st.colorPalette 4) q4] =
      polyArea q0 + polyArea q1 + polyArea q2 + polyArea q3 + polyArea q4 := by
    simp only [paintedArea, List.map_cons, List.map_nil, List.sum_cons, List.sum_nil, Draw.area]
    ring
  linarith

/-- The triangle `(0,0), (1,0), (0,1)` with the Z values `(0, 5, 10)`. -/
theorem PaintLevels_scenario_witness :
    ((0 : ℤ) ≤ 0 ∧ (⟨arr3 0 5 10, 0, 10⟩ : Painter).fZ (idx3 0 - 1) = 0 ∧
      (⟨arr3 0 5 10, 0, 10⟩ : Painter).fZ (idx3 1 - 1) = 5 ∧
      (⟨arr3 0 5 10, 0, 10⟩ : Painter).fZ (idx3 2 - 1) = 10 ∧
      (⟨arr3 0 5 10, 0, 10⟩ : Painter).fZmin = 0 ∧
      (⟨arr3 0 5 10, 0, 10⟩ : Painter).fZmax = 10 ∧
      (⟨5, id⟩ : TStyle).numberOfColors = 5) ∧
    ∃ q0 q1 q2 q3 q4 : List Pt,
      (PaintLevels ⟨arr3 0 5 10, 0, 10⟩ ⟨5, id⟩ idx3 (arr3 0 1 0) (arr3 0 0 1) 0 (fun _ => 0)
          gfx0).out =
        gfx0.out ++ [Draw.fillArea (id 0) q0, Draw.fillArea (id 1) q1,
          Draw.fillArea (id 2) q2, Draw.fillArea (id 3) q3, Draw.fillArea (id 4) q4] ∧
      (q0.length = 3 ∧ q1.length = 5 ∧ q2.length = 5 ∧ q3.length = 4 ∧ q4.length = 3) ∧
      polyArea q0 + polyArea q1 + polyArea q2 + polyArea q3 + polyArea q4 =
        polyArea [(arr3 0 1 0 0, arr3 0 0 1 0), (arr3 0 1 0 1, arr3 0 0 1 1),
          (arr3 0 1 0 2, arr3 0 0 1 2)] :=
  ⟨⟨by decide, by simp [arr3, idx3], by simp [arr3, idx3], by simp [arr3, idx3], rfl, rfl, rfl⟩,
    PaintLevels_scenario ⟨arr3 0 5 10, 0, 10⟩ ⟨5, id⟩ idx3 (arr3 0 1 0) (arr3 0 0 1) 0
      (fun _ => 0) gfx0 (by decide) (by simp [arr3, idx3]) (by simp [arr3, idx3])
      (by simp [arr3, idx3]) rfl rfl rfl⟩

/-! ### The colours of the stripes, at a concrete triangle -/

/-- The triangle with the Z values `(0, 5, 10)`, five colours on `[0, 10]`: the colour indices
are 0 and 4. -/
theorem PaintLevels_colours_increasing_witness :
    ((0 : ℤ) ≤ 0 ∧
      theColor ⟨arr3 0 5 10, 0, 10⟩ (⟨5, id⟩ : TStyle).numberOfColors
          (orderZ ⟨arr3 0 5 10, 0, 10⟩ idx3 (arr3 0 1 0) (arr3 0 0 1)).Z0 <
        theColor ⟨arr3 0 5 10, 0, 10⟩ (⟨5, id⟩ : TStyle).numberOfColors
          (orderZ ⟨arr3 0 5 10, 0, 10⟩ idx3 (arr3 0 1 0) (arr3 0 0 1)).Z2) ∧
    ∃ pts : ℕ → List Pt,
      (PaintLevels ⟨arr3 0 5 10, 0, 10⟩ ⟨5, id⟩ idx3 (arr3 0 1 0) (arr3 0 0 1) 0 (fun _ => 0)
          gfx0).out =
        gfx0.out ++ (List.range (theColor ⟨arr3 0 5 10, 0, 10⟩ (⟨5, id⟩ : TStyle).numberOfColors
              (orderZ ⟨arr3 0 5 10, 0, 10⟩ idx3 (arr3 0 1 0) (arr3 0 0 1)).Z2 -
            theColor ⟨arr3 0 5 10, 0, 10⟩ (⟨5, id⟩ : TStyle).numberOfColors
              (orderZ ⟨arr3 0 5 10, 0, 10⟩ idx3 (arr3 0 1 0) (arr3 0 0 1)).Z0 + 1).toNat).map
          fun i : ℕ => Draw.fillArea ((⟨5, id⟩ : TStyle).colorPalette
            (theColor ⟨arr3 0 5 10, 0, 10⟩ (⟨5, id⟩ : TStyle).numberOfColors
              (orderZ ⟨arr3 0 5 10, 0, 10⟩ idx3 (arr3 0 1 0) (arr3 0 0 1)).Z0 + (i : ℤ)))
            (pts i) :=
  have ho := orderZ_0_5_10 (arr3 0 1 0) (arr3 0 0 1) ⟨arr3 0 5 10, 0, 10⟩ idx3
    (by simp [arr3, idx3]) (by simp [arr3, idx3]) (by simp [arr3, idx3])
  have c0 : theColor ⟨arr3 0 5 10, 0, 10⟩ 5 0 = 0 := theColor_of_intCast _ _ _ _ (by norm_num)
  have c2 : theColor ⟨arr3 0 5 10, 0, 10⟩ 5 10 = 4 := theColor_of_intCast _ _ _ _ (by norm_num)
  have hlt : theColor ⟨arr3 0 5 10, 0, 10⟩ (⟨5, id⟩ : TStyle).numberOfColors
        (orderZ ⟨arr3 0 5 10, 0, 10⟩ idx3 (arr3 0 1 0) (arr3 0 0 1)).Z0 <
      theColor ⟨arr3 0 5 10, 0, 10⟩ (⟨5, id⟩ : TStyle).numberOfColors
        (orderZ ⟨arr3 0 5 10, 0, 10⟩ idx3 (arr3 0 1 0) (arr3 0 0 1)).Z2 := by
    rw [ho]
    show theColor ⟨arr3 0 5 10, 0, 10⟩ 5 0 < theColor ⟨arr3 0 5 10, 0, 10⟩ 5 10
    rw [c0, c2]
    decide
  ⟨⟨by decide, hlt⟩,
    PaintLevels_colours_increasing ⟨arr3 0 5 10, 0, 10⟩ ⟨5, id⟩ idx3 (arr3 0 1 0) (arr3 0 0 1) 0
      (fun _ => 0) gfx0 (by decide) hlt⟩

/-! ### The end points of the grid segments -/

theorem gridSegment_on_edges (o : Ordered) (L : ℚ) (h01 : o.Z0 ≤ o.Z1) (h12 : o.Z1 ≤ o.Z2)
    (h0 : o.Z0 ≤ L) (h2 : L ≤ o.Z2) (h02 : o.Z0 < o.Z2) (hd : o.Z1 ≤ L → o.Z1 < o.Z2) :
    ∃ r s : ℚ, (0 ≤ r ∧ r ≤ 1) ∧ (0 ≤ s ∧ s ≤ 1) ∧
      gridSegment o L =
        [(r * (o.X2 - o.X0) + o.X0, r * (o.Y2 - o.Y0) + o.Y0),
          if o.Z1 ≤ L then (s * (o.X2 - o.X1) + o.X1, s * (o.Y2 - o.Y1) + o.Y1)
          else (s * (o.X1 - o.X0) + o.X0, s * (o.Y1 - o.Y0) + o.Y0)] ∧
      r * (o.Z2 - o.Z0) + o.Z0 = L ∧
      (if o.Z1 ≤ L then s * (o.Z2 - o.Z1) + o.Z1 = L else s * (o.Z1 - o.Z0) + o.Z0 = L) := by
  have e02 : o.Z2 - o.Z0 ≠ 0 := ne_of_gt (sub_pos.mpr h02)
  by_cases h1 : o.Z1 ≤ L
  · have e12 : o.Z2 - o.Z1 ≠ 0 := ne_of_gt (sub_pos.mpr (hd h1))
    refine ⟨(L - o.Z0) / (o.Z2 - o.Z0), (L - o.Z1) / (o.Z2 - o.Z1),
      ⟨ratio_nonneg h02.le h0, ratio_le_one h02.le h2⟩,
      ⟨ratio_nonneg h12 h1, ratio_le_one h12 h2⟩, ?_, ?_, ?_⟩
    · simp [gridSegment, h1, h2]
    · rw [div_mul_cancel₀ _ e02]; ring
    · rw [if_pos h1, div_mul_cancel₀ _ e12]; ring
  · have h1' : L < o.Z1 := not_le.mp h1
    have e01 : o.Z1 - o.Z0 ≠ 0 := ne_of_gt (sub_pos.mpr (lt_of_le_of_lt h0 h1'))
    refine ⟨(L - o.Z0) / (o.Z2 - o.Z0), (L - o.Z0) / (o.Z1 - o.Z0),
      ⟨ratio_nonneg h02.le h0, ratio_le_one h02.le h2⟩,
      ⟨ratio_nonneg h01 h0, ratio_le_one h01 h1'.le⟩, ?_, ?_, ?_⟩
    · simp [gridSegment, h1]
    · rw [div_mul_cancel₀ _ e02]; ring
    · rw [if_neg h1, div_mul_cancel₀ _ e01]; ring

/-- C11, the failing input. For the Z values `(0, 10, 10)` and the single grid level `10`,
`PaintLevels` paints one segment; its second end point is taken on the edge `(V1, V2)` since
`Z1 ≤ 10 ≤ Z2`, with the ratio `R21 = (Zl-Z1)/(Z2-Z1)`, and `Z2 - Z1 = 0`: the denominators of
`R21`, `R20`, `R10` are `0, 10, 10`. -/
theorem PaintLevels_grid_zero_denominator :
    ((PaintLevels ⟨arr3 0 10 10, 0, 10⟩ ⟨2, id⟩ idx3 (arr3 0 1 0) (arr3 0 0 1) 1 (fun _ => 10)
        gfx0).out.length = 1 ∧
      (PaintLevels ⟨arr3 0 10 10, 0, 10⟩ ⟨2, id⟩ idx3 (arr3 0 1 0) (arr3 0 0 1) 1 (fun _ => 10)
        gfx0).divs = [0, 10, 10]) ∧
    (orderZ ⟨arr3 0 10 10, 0, 10⟩ idx3 (arr3 0 1 0) (arr3 0 0 1)).Z1 ≤ 10 ∧
    (10 : ℚ) ≤ (orderZ ⟨arr3 0 10 10, 0, 10⟩ idx3 (arr3 0 1 0) (arr3 0 0 1)).Z2 ∧
    (orderZ ⟨arr3 0 10 10, 0, 10⟩ idx3 (arr3 0 1 0) (arr3 0 0 1)).Z2 -
      (orderZ ⟨arr3 0 10 10, 0, 10⟩ idx3 (arr3 0 1 0) (arr3 0 0 1)).Z1 = 0 := by
  have ho : orderZ ⟨arr3 0 10 10, 0, 10⟩ idx3 (arr3 0 1 0) (arr3 0 0 1) =
      { I0 := 0, I1 := 2, I2 := 1, X0 := 0, Y0 := 0, Z0 := 0, X1 := 0, Y1 := 1, Z1 := 10,
        X2 := 1, Y2 := 0, Z2 := 10 } := by
    norm_num [orderZ, orderStep, arr3, idx3]
  rw [ho]
  refine ⟨?_, by norm_num, by norm_num, by norm_num⟩
  simp only [PaintLevels, paintGrid, ho]
  norm_num [gridLoop, gridStep, divBy, setLineStyle, paintPolyLine, gfx0]

/-! ### Level lists that are empty or not ascending -/

theorem paintColors_only_fills (p : Painter) (st : TStyle) (x y : ℤ → ℚ) (o : Ordered)
    (g : Gfx) :
    ∃ fills : List Draw, (paintColors p st x y o g).out = g.out ++ fills ∧
      ∀ d ∈ fills, ∃ c pts, d = Draw.fillArea c pts := by
  rw [paintColors_out]
  split_ifs with h
  · exact ⟨_, rfl, fun d hd => by simp at hd; exact ⟨_, _, hd⟩⟩
  · obtain ⟨pts, hpts⟩ := stripeLoop_out p st o (theColor p st.numberOfColors o.Z0)
      (theColor p st.numberOfColors o.Z2) _ (theColor p st.numberOfColors o.Z0)
      { xp := fun _ => 0, yp := fun _ => 0, Zi := 0, Zip := 0, npf := 0,
        g := divBy (divBy g (p.fZmax - p.fZmin)) (p.fZmax - p.fZmin) } rfl
    refine ⟨_, hpts, fun d hd => ?_⟩
    simp only [List.mem_map] at hd
    obtain ⟨i, -, rfl⟩ := hd
    exact ⟨_, _, rfl⟩

theorem paintGrid_out (o : Ordered) (nblev : ℤ) (glev : ℤ → ℚ) (g : Gfx) :
    (paintGrid o nblev glev g).out =
      g.out ++ (((List.range nblev.toNat).map fun k : ℕ => glev (k : ℤ)).filter
        fun L => decide (o.Z0 ≤ L ∧ L ≤ o.Z2)).map (fun L => Draw.polyLine 3 (gridSegment o L)) := by
  have h := gridLoop_out o nblev glev nblev.toNat 0 (setLineStyle g 3) (by simp)
  simp only [paintGrid]
  show (gridLoop o nblev glev nblev.toNat 0 (setLineStyle g 3)).out = _
  rw [h]
  simp [setLineStyle]

/-- C12, the claim refuted. The level list `(9, 3)` is not ascending, and for the triangle
with the Z values `(0, 5, 10)` `PaintLevels` paints two segments, one for each level. -/
theorem PaintLevels_descending_levels :
    ¬ ((fun i : ℤ => if i = 0 then (9 : ℚ) else 3) 0 ≤ (fun i : ℤ => if i = 0 then (9 : ℚ) else 3) 1) ∧
    (PaintLevels ⟨arr3 0 5 10, 0, 10⟩ ⟨5, id⟩ idx3 (arr3 0 1 0) (arr3 0 0 1) 2
        (fun i => if i = 0 then 9 else 3) gfx0).out =
      [Draw.polyLine 3 [(0, 9 / 10), (1 / 5, 4 / 5)], Draw.polyLine 3 [(0, 3 / 10), (3 / 5, 0)]] := by
  have ho := orderZ_0_5_10 (arr3 0 1 0) (arr3 0 0 1) ⟨arr3 0 5 10, 0, 10⟩ idx3
    (by simp [arr3, idx3]) (by simp [arr3, idx3]) (by simp [arr3, idx3])
  refine ⟨by norm_num, ?_⟩
  simp only [PaintLevels, paintGrid, ho]
  norm_num [gridLoop, gridStep, divBy, setLineStyle, paintPolyLine, gfx0, points, List.range_succ,
    arr3]
  simp

/-- C12, as amended. With an empty level list (`nblev ≤ 0`) `PaintLevels` paints no segment:
it paints the colour levels, fill polygons only.  A level list that is not ascending is
treated like any other: the number of segments painted is the number of its entries inside
`[Z0, Z2]`. -/
theorem PaintLevels_any_level_list (p : Painter) (st : TStyle) (T : ℤ → ℤ) (x y : ℤ → ℚ)
    (nblev : ℤ) (glev : ℤ → ℚ) (g : Gfx) :
    (nblev ≤ 0 → ∃ fills : List Draw, (PaintLevels p st T x y nblev glev g).out = g.out ++ fills ∧
      ∀ d ∈ fills, ∃ c pts, d = Draw.fillArea c pts) ∧
    (0 < nblev → ∃ segs : List Draw, (PaintLevels p st T x y nblev glev g).out = g.out ++ segs ∧
      (∀ d ∈ segs, ∃ pts, d = Draw.polyLine 3 pts) ∧
      segs.length = ((List.range nblev.toNat).map fun k : ℕ => glev (k : ℤ)).countP
        fun L => decide ((orderZ p T x y).Z0 ≤ L ∧ L ≤ (orderZ p T x y).Z2)) := by
  constructor
  · intro hn
    simp only [PaintLevels, if_pos hn]
    exact paintColors_only_fills p st x y _ g
  · intro hn
    simp only [PaintLevels, if_neg (not_le.mpr hn)]
    refine ⟨_, paintGrid_out (orderZ p T x y) nblev glev g, ?_, ?_⟩
    · intro d hd
      simp only [List.mem_map] at hd
      obtain ⟨L, -, rfl⟩ := hd
      exact ⟨_, rfl⟩
    · rw [List.length_map, List.countP_eq_length_filter]

/-- No level at all: the colour levels are painted. -/
theorem PaintLevels_any_level_list_witness :
    (0 : ℤ) ≤ 0 ∧
    ∃ fills : List Draw,
      (PaintLevels ⟨arr3 0 5 10, 0, 10⟩ ⟨5, id⟩ idx3 (arr3 0 1 0) (arr3 0 0 1) 0 (fun _ => 0)
        gfx0).out = gfx0.out ++ fills ∧
      ∀ d ∈ fills, ∃ c pts, d = Draw.fillArea c pts :=
  ⟨by decide, (PaintLevels_any_level_list ⟨arr3 0 5 10, 0, 10⟩ ⟨5, id⟩ idx3 (arr3 0 1 0)
    (arr3 0 0 1) 0 (fun _ => 0) gfx0).1 (by decide)⟩

/-! ### The distances to the back planes -/

theorem quadrantCase_cases (cp sp : ℚ) :
    (quadrantCase cp sp = 1 ↔ cp ≥ 0 ∧ sp ≥ 0) ∧
    (quadrantCase cp sp = 2 ↔ cp < 0 ∧ sp ≥ 0) ∧
    (quadrantCase cp sp = 3 ↔ cp ≤ 0 ∧ sp < 0) ∧
    (quadrantCase cp sp = 4 ↔ cp > 0 ∧ sp < 0) := by
  unfold quadrantCase
  by_cases a : cp ≥ 0 <;> by_cases b : sp ≥ 0 <;> by_cases c : cp ≤ 0 <;>
    by_cases d : sp ≤ 0 <;> simp [a, b, c, d] <;>
    first
    | linarith
    | (push_neg at a b c d; exact ⟨by linarith, by linarith⟩)

theorem distStep_eq (del : Delaunay) (cp sp : ℚ) (IT : ℤ) (s : Dist) :
    distStep del cp sp IT s =
      { dist := Function.update s.dist IT (caseKey del IT (quadrantCase cp sp))
        o := s.o || caseDown (quadrantCase cp sp) } := by
  simp only [distStep, quadrantCase, centre]
  split_ifs <;> simp [caseKey, caseDown, centre]

theorem distLoop_eq (del : Delaunay) (cp sp : ℚ) :
    ∀ (fuel : ℕ) (i : ℤ) (s : Dist), fuel = (del.ndt - i).toNat →
      (∀ k, (distLoop del cp sp fuel i s).dist k =
        if i ≤ k ∧ k < del.ndt then caseKey del k (quadrantCase cp sp) else s.dist k) ∧
      (distLoop del cp sp fuel i s).o =
        (s.o || (decide (i < del.ndt) && caseDown (quadrantCase cp sp))) := by
  intro fuel
  induction fuel with
  | zero =>
    intro i s hf
    have h : ¬ i < del.ndt := by omega
    refine ⟨fun k => ?_, by simp [distLoop, h]⟩
    have : ¬ (i ≤ k ∧ k < del.ndt) := fun hh => h (lt_of_le_of_lt hh.1 hh.2)
    simp [distLoop, this]
  | succ n ih =>
    intro i s hf
    have h : i < del.ndt := by omega
    obtain ⟨h1, h2⟩ := ih (i + 1) (distStep del cp sp i s) (by omega)
    simp only [distLoop, if_pos h]
    refine ⟨fun k => ?_, ?_⟩
    · rw [h1 k, distStep_eq]
      by_cases hk : i + 1 ≤ k ∧ k < del.ndt
      · have : i ≤ k ∧ k < del.ndt := ⟨by omega, hk.2⟩
        rw [if_pos hk, if_pos this]
      · rw [if_neg hk]
        by_cases hik : k = i
        · subst hik
          simp [h]
        · have : ¬ (i ≤ k ∧ k < del.ndt) := fun hh => hk ⟨by omega, hh.2⟩
          simp [this, Function.update_noteq hik]
    · rw [h2, distStep_eq]
      simp only [h, decide_True, Bool.true_and]
      by_cases h' : i + 1 < del.ndt <;> simp [h']

/-- C14. The case is chosen by the order of the tests: `distStep` stores the key of exactly
one of the four cases, case 1 exactly when `c ≥ 0` and `s ≥ 0`, case 2 exactly when `c < 0` and
`s ≥ 0`, case 3 exactly when `c ≤ 0` and `s < 0`, and case 4 exactly when `c > 0` and `s < 0`;
so `c = 0` with `s ≥ 0` is case 1, `c = 0` with `s < 0` is case 3, and `s = 0` with `c < 0`
is case 2. -/
theorem quadrant_first_match_wins (del : Delaunay) (cp sp : ℚ) (IT : ℤ) (s : Dist) :
    (distStep del cp sp IT s =
      { dist := Function.update s.dist IT (caseKey del IT (quadrantCase cp sp))
        o := s.o || caseDown (quadrantCase cp sp) }) ∧
    (quadrantCase cp sp = 1 ∨ quadrantCase cp sp = 2 ∨ quadrantCase cp sp = 3 ∨
      quadrantCase cp sp = 4) ∧
    ((quadrantCase cp sp = 1 ↔ cp ≥ 0 ∧ sp ≥ 0) ∧
      (quadrantCase cp sp = 2 ↔ cp < 0 ∧ sp ≥ 0) ∧
      (quadrantCase cp sp = 3 ↔ cp ≤ 0 ∧ sp < 0) ∧
      (quadrantCase cp sp = 4 ↔ cp > 0 ∧ sp < 0)) ∧
    ((cp = 0 ∧ sp ≥ 0 → quadrantCase cp sp = 1) ∧
      (cp = 0 ∧ sp < 0 → quadrantCase cp sp = 3) ∧
      (sp = 0 ∧ cp < 0 → quadrantCase cp sp = 2)) := by
  obtain ⟨h1, h2, h3, h4⟩ := quadrantCase_cases cp sp
  refine ⟨distStep_eq del cp sp IT s, ?_, ⟨h1, h2, h3, h4⟩, ?_, ?_, ?_⟩
  · unfold quadrantCase
    split_ifs <;> simp
  · rintro ⟨hc, hs⟩
    exact h1.mpr ⟨hc.ge, hs⟩
  · rintro ⟨hc, hs⟩
    exact h3.mpr ⟨hc.le, hs⟩
  · rintro ⟨hs, hc⟩
    exact h2.mpr ⟨hc, hs.ge⟩

/-- The boundary `c = 0`, `s = 1`: case 1. -/
theorem quadrant_first_match_wins_witness :
    ((0 : ℚ) = 0 ∧ (1 : ℚ) ≥ 0) ∧ quadrantCase 0 1 = 1 :=
  ⟨⟨rfl, by norm_num⟩,
    (quadrant_first_match_wins ⟨0, fun _ => 0, fun _ => 0, 0, 0, 0, 0, fun _ => 0, fun _ => 0,
      fun _ => 0⟩ 0 1 0 ⟨fun _ => 0, false⟩).2.2.2.1 ⟨rfl, by norm_num⟩⟩

/-- With `c = 0` and `s = 1` both `c ≥ 0, s ≥ 0` and `c ≤ 0, s ≥ 0` hold, and the first of
the two is the case taken: for a triangle with the centre `(0, 0)` in the plane
`[0,1] × [0,1]` the key stored is `-((xnMax-xd)+(ynMax-yd)) = -2`, sorted in increasing order
(the key `-((xnMax-xd)+(yd-ynMin))` would be `-1`). -/
theorem sort_key_at_boundary :
    ((0 : ℚ) ≤ 0 ∧ (1 : ℚ) ≥ 0) ∧
    (distLoop ⟨1, fun _ => 0, fun _ => 0, 0, 1, 0, 1, fun _ => 1, fun _ => 2, fun _ => 3⟩ 0 1
      (1 : ℤ).toNat 0 ⟨fun _ => 0, false⟩).dist 0 = -2 ∧
    -(((1 : ℚ) - 0) + (0 - 0)) = -1 ∧
    (distLoop ⟨1, fun _ => 0, fun _ => 0, 0, 1, 0, 1, fun _ => 1, fun _ => 2, fun _ => 3⟩ 0 1
      (1 : ℤ).toNat 0 ⟨fun _ => 0, false⟩).o = false := by
  refine ⟨⟨le_refl _, by norm_num⟩, ?_, by norm_num, ?_⟩
  · norm_num [distLoop, distStep]
  · norm_num [distLoop, distStep]

/-- C13. In `PaintTriangles`, with `c` and `s` the cosine and the sine of the longitude and
`(xd, yd)` the mean of the three vertices of a triangle in the plane of the triangulation, the
key stored in `dist` for every triangle is `-((xnMax-xd)+(ynMax-yd))`, to be sorted in
increasing order (`o` false), when `c ≥ 0` and `s ≥ 0`; `-((xnMax-xd)+(yd-ynMin))`,
decreasing (`o` true), when `c ≤ 0` and `s ≥ 0`; `-((xd-xnMin)+(yd-ynMin))`, increasing,
when `c ≤ 0` and `s ≤ 0`; and `-((xd-xnMin)+(ynMax-yd))`, decreasing, when `c > 0` and
`s < 0`.  The four cases are read in this order and the first that holds is taken, so that
the second is left with `c < 0` and the third with `s < 0`. -/
theorem sort_keys_by_quadrant (del : Delaunay) (cp sp : ℚ) (IT : ℤ) (h0 : 0 ≤ IT)
    (h1 : IT < del.ndt) :
    (cp ≥ 0 ∧ sp ≥ 0 →
      (distLoop del cp sp del.ndt.toNat 0 ⟨fun _ => 0, false⟩).dist IT =
          -((del.xnMax - (centre del IT).1) + (del.ynMax - (centre del IT).2)) ∧
        (distLoop del cp sp del.ndt.toNat 0 ⟨fun _ => 0, false⟩).o = false) ∧
    (cp < 0 ∧ sp ≥ 0 →
      (distLoop del cp sp del.ndt.toNat 0 ⟨fun _ => 0, false⟩).dist IT =
          -((del.xnMax - (centre del IT).1) + ((centre del IT).2 - del.ynMin)) ∧
        (distLoop del cp sp del.ndt.toNat 0 ⟨fun _ => 0, false⟩).o = true) ∧
    (cp ≤ 0 ∧ sp < 0 →
      (distLoop del cp sp del.ndt.toNat 0 ⟨fun _ => 0, false⟩).dist IT =
          -(((centre del IT).1 - del.xnMin) + ((centre del IT).2 - del.ynMin)) ∧
        (distLoop del cp sp del.ndt.toNat 0 ⟨fun _ => 0, false⟩).o = false) ∧
    (cp > 0 ∧ sp < 0 →
      (distLoop del cp sp del.ndt.toNat 0 ⟨fun _ => 0, false⟩).dist IT =
          -(((centre del IT).1 - del.xnMin) + (del.ynMax - (centre del IT).2)) ∧
        (distLoop del cp sp del.ndt.toNat 0 ⟨fun _ => 0, false⟩).o = true) := by
  obtain ⟨hd, ho⟩ := distLoop_eq del cp sp del.ndt.toNat 0 ⟨fun _ => 0, false⟩ (by simp)
  obtain ⟨c1, c2, c3, c4⟩ := quadrantCase_cases cp sp
  have hk : (distLoop del cp sp del.ndt.toNat 0 ⟨fun _ => 0, false⟩).dist IT =
      caseKey del IT (quadrantCase cp sp) := by
    rw [hd IT, if_pos ⟨h0, h1⟩]
  have hlt : (0 : ℤ) < del.ndt := lt_of_le_of_lt h0 h1
  rw [hk, ho]
  refine ⟨fun h => ?_, fun h => ?_, fun h => ?_, fun h => ?_⟩
  · rw [c1.mpr h]; refine ⟨?_, by simp [caseDown]⟩; simp only [caseKey]; ring
  · rw [c2.mpr h]; refine ⟨?_, by simp [caseDown, hlt]⟩; simp only [caseKey]; ring
  · rw [c3.mpr h]; refine ⟨?_, by simp [caseDown]⟩; simp only [caseKey]; ring
  · rw [c4.mpr h]; refine ⟨?_, by simp [caseDown, hlt]⟩; simp only [caseKey]; ring

/-- One triangle, `c = -1` and `s = 0`: the second key, in decreasing order. -/
theorem sort_keys_by_quadrant_witness :
    ((0 : ℤ) ≤ 0 ∧ (0 : ℤ) <
      (⟨1, fun _ => 0, fun _ => 0, 0, 1, 0, 1, fun _ => 1, fun _ => 2, fun _ => 3⟩ :
        Delaunay).ndt ∧ ((-1 : ℚ) < 0 ∧ (0 : ℚ) ≥ 0)) ∧
    (distLoop ⟨1, fun _ => 0, fun _ => 0, 0, 1, 0, 1, fun _ => 1, fun _ => 2, fun _ => 3⟩ (-1) 0
      (⟨1, fun _ => 0, fun _ => 0, 0, 1, 0, 1, fun _ => 1, fun _ => 2, fun _ => 3⟩ :
        Delaunay).ndt.toNat 0 ⟨fun _ => 0, false⟩).o = true :=
  ⟨⟨le_refl _, by decide, by norm_num, by norm_num⟩,
    ((sort_keys_by_quadrant ⟨1, fun _ => 0, fun _ => 0, 0, 1, 0, 1, fun _ => 1, fun _ => 2,
      fun _ => 3⟩ (-1) 0 0 (le_refl _) (by decide)).2.1 ⟨by norm_num, by norm_num⟩).2⟩

/-! ### The painting order -/

theorem tmathSort_perm (n : ℤ) (a : ℤ → ℚ) (down : Bool) :
    (tmathSort n a down).Perm ((List.range n.toNat).map fun i : ℕ => (i : ℤ)) := by
  unfold tmathSort
  split_ifs
  · exact List.perm_insertionSort _ _
  · exact List.perm_insertionSort _ _

theorem tmathSort_length (n : ℤ) (a : ℤ → ℚ) (down : Bool) :
    (tmathSort n a down).length = n.toNat := by
  rw [(tmathSort_perm n a down).length_eq, List.length_map, List.length_range]

theorem tmathSort_mem (n : ℤ) (a : ℤ → ℚ) (down : Bool) (k : ℤ) :
    k ∈ tmathSort n a down ↔ 0 ≤ k ∧ k < n := by
  rw [(tmathSort_perm n a down).mem_iff, List.mem_map]
  constructor
  · rintro ⟨i, hi, rfl⟩
    rw [List.mem_range] at hi
    omega
  · rintro ⟨h0, h1⟩
    exact ⟨k.toNat, List.mem_range.mpr (by omega), by omega⟩

theorem tmathSort_increasing (n : ℤ) (a : ℤ → ℚ) :
    (tmathSort n a false).Sorted fun i j => a i ≤ a j := by
  haveI : IsTotal ℤ (fun i j => a i ≤ a j) := ⟨fun i j => le_total (a i) (a j)⟩
  haveI : IsTrans ℤ (fun i j => a i ≤ a j) := ⟨fun i j k h1 h2 => le_trans h1 h2⟩
  simp only [tmathSort, Bool.false_eq_true, if_false]
  exact List.sorted_insertionSort _ _

theorem sorted_indexOf_lt {l : List ℤ} {a : ℤ → ℚ} (hs : l.Sorted fun i j => a i ≤ a j)
    {A B : ℤ} (hA : A ∈ l) (hB : B ∈ l) (h : a B < a A) : l.indexOf B < l.indexOf A := by
  by_contra hcon
  have hle : l.indexOf A ≤ l.indexOf B := not_lt.mp hcon
  have hiA : l.indexOf A < l.length := List.indexOf_lt_length.mpr hA
  have hiB : l.indexOf B < l.length := List.indexOf_lt_length.mpr hB
  have gA : l[l.indexOf A] = A := List.getElem_indexOf hiA
  have gB : l[l.indexOf B] = B := List.getElem_indexOf hiB
  rcases eq_or_lt_of_le hle with he | hlt
  · have : A = B := by
      rw [← gA, ← gB]
      simp only [he]
    rw [this] at h
    exact lt_irrefl _ h
  · have hr := (List.pairwise_iff_getElem.mp hs) _ _ hiA hiB hlt
    rw [gA, gB] at hr
    exact absurd h (not_lt.mpr hr)

theorem triLoop_eq_foldl (gp : GraphPainter) (env : Env) (view : TView) (del : Delaunay)
    (st : TStyle) (opt : Opt) (nblev : ℤ) (glev : ℤ → ℚ) (ord : List ℤ)
    (hlen : ord.length = del.ndt.toNat) :
    ∀ (fuel : ℕ) (IT : ℤ) (s : Tri), fuel = (del.ndt - IT).toNat → 0 ≤ IT →
      triLoop gp env view del st opt nblev glev (fun i => ord.getD i.toNat 0) fuel IT s =
        (ord.drop IT.toNat).foldl
          (fun s k => triStep gp env view del st opt nblev glev (fun _ => k) 0 s) s := by
  intro fuel
  induction fuel with
  | zero =>
    intro IT s hf h0
    have : ord.length ≤ IT.toNat := by omega
    rw [List.drop_of_length_le this]
    rfl
  | succ n ih =>
    intro IT s hf h0
    have hlt : IT < del.ndt := by omega
    have hi : IT.toNat < ord.length := by omega
    have hnext : (IT + 1).toNat = IT.toNat + 1 := by omega
    simp only [triLoop, if_pos hlt]
    rw [ih (IT + 1) _ (by omega) (by omega), hnext, List.drop_eq_getElem_cons hi,
      List.foldl_cons]
    have hget : ord.getD IT.toNat 0 = ord[IT.toNat] := List.getD_eq_getElem _ _ hi
    have hstep : triStep gp env view del st opt nblev glev (fun i => ord.getD i.toNat 0) IT s =
        triStep gp env view del st opt nblev glev (fun _ => ord[IT.toNat]) 0 s := by
      simp only [triStep, hget]
    rw [hstep]

/-- C15. The painting order computed by `PaintTriangles` is a permutation of the triangle
numbers `0 .. N-1`, whatever the longitude, and the painting loop runs the body of the loop
once for each triangle, in that order. -/
theorem paintOrder_is_permutation (gp : GraphPainter) (env : Env) (view : TView)
    (del : Delaunay) (st : TStyle) (opt : Opt) (nblev : ℤ) (glev : ℤ → ℚ) (s : Tri) :
    (paintOrder env view del).Perm ((List.range del.ndt.toNat).map fun i : ℕ => (i : ℤ)) ∧
    triLoop gp env view del st opt nblev glev
        (fun i => (paintOrder env view del).getD i.toNat 0) del.ndt.toNat 0 s =
      (paintOrder env view del).foldl
        (fun s k => triStep gp env view del st opt nblev glev (fun _ => k) 0 s) s := by
  refine ⟨tmathSort_perm _ _ _, ?_⟩
  have h := triLoop_eq_foldl gp env view del st opt nblev glev (paintOrder env view del)
    (tmathSort_length _ _ _) del.ndt.toNat 0 s (by simp) le_rfl
  simpa using h

/-- C16. In the first case (`c ≥ 0` and `s ≥ 0`), if the triangle `A` is nearer to the corner
`(xnMax, ynMax)` than the triangle `B`, that is
`(xnMax-xdA)+(ynMax-ydA) < (xnMax-xdB)+(ynMax-ydB)`, then `A` comes after `B` in the painting
order. -/
theorem near_corner_painted_last (env : Env) (view : TView) (del : Delaunay) (A B : ℤ)
    (hc : env.cos (view.longitude * env.pi / 180) ≥ 0)
    (hs : env.sin (view.longitude * env.pi / 180) ≥ 0)
    (hA : 0 ≤ A ∧ A < del.ndt) (hB : 0 ≤ B ∧ B < del.ndt)
    (h : (del.xnMax - (centre del A).1) + (del.ynMax - (centre del A).2) <
      (del.xnMax - (centre del B).1) + (del.ynMax - (centre del B).2)) :
    (paintOrder env view del).indexOf B < (paintOrder env view del).indexOf A := by
  obtain ⟨hd, ho⟩ := distLoop_eq del (env.cos (view.longitude * env.pi / 180))
    (env.sin (view.longitude * env.pi / 180)) del.ndt.toNat 0 ⟨fun _ => 0, false⟩ (by simp)
  have hq : quadrantCase (env.cos (view.longitude * env.pi / 180))
      (env.sin (view.longitude * env.pi / 180)) = 1 := (quadrantCase_cases _ _).1.mpr ⟨hc, hs⟩
  rw [hq] at hd ho
  have ho' : (distLoop del (env.cos (view.longitude * env.pi / 180))
      (env.sin (view.longitude * env.pi / 180)) del.ndt.toNat 0 ⟨fun _ => 0, false⟩).o = false := by
    rw [ho]; simp [caseDown]
  simp only [paintOrder, ho']
  apply sorted_indexOf_lt (tmathSort_increasing _ _)
  · exact (tmathSort_mem _ _ _ _).mpr hA
  · exact (tmathSort_mem _ _ _ _).mpr hB
  · rw [hd A, hd B, if_pos hA, if_pos hB]
    simp only [caseKey]
    linarith

/-- Two triangles in the plane `[0,1] × [0,1]`, the triangle 0 with the centre `(1, 1)` and the
triangle 1 with the centre `(0, 0)`, seen with `c = 1` and `s = 0`. -/
theorem near_corner_painted_last_witness :
    (((fun _ : ℚ => (1 : ℚ)) (0 * 3 / 180) ≥ 0 ∧ (fun _ : ℚ => (0 : ℚ)) (0 * 3 / 180) ≥ 0) ∧
      ((0 : ℤ) ≤ 0 ∧ (0 : ℤ) < 2) ∧ ((0 : ℤ) ≤ 1 ∧ (1 : ℤ) < 2)) ∧
    (paintOrder
      ⟨none, false, false, false, fun _ => 1, fun _ => 0, 3, id, 0, fun a b n => (a, b, n, 0),
        fun _ => 0, fun _ => 0, 0, 0, fun _ => 0, fun _ => []⟩
      ⟨0, 0, 10, fun a b _ => (a, b)⟩
      ⟨2, fun i => if i = 1 then 1 else 0, fun i => if i = 1 then 1 else 0, 0, 1, 0, 1,
        fun i => if i = 0 then 1 else 0, fun i => if i = 0 then 1 else 0,
        fun i => if i = 0 then 1 else 0⟩).indexOf 1 <
    (paintOrder
      ⟨none, false, false, false, fun _ => 1, fun _ => 0, 3, id, 0, fun a b n => (a, b, n, 0),
        fun _ => 0, fun _ => 0, 0, 0, fun _ => 0, fun _ => []⟩
      ⟨0, 0, 10, fun a b _ => (a, b)⟩
      ⟨2, fun i => if i = 1 then 1 else 0, fun i => if i = 1 then 1 else 0, 0, 1, 0, 1,
        fun i => if i = 0 then 1 else 0, fun i => if i = 0 then 1 else 0,
        fun i => if i = 0 then 1 else 0⟩).indexOf 0 :=
  ⟨⟨⟨by norm_num, by norm_num⟩, ⟨by decide, by decide⟩, ⟨by decide, by decide⟩⟩,
    near_corner_painted_last
      ⟨none, false, false, false, fun _ => 1, fun _ => 0, 3, id, 0, fun a b n => (a, b, n, 0),
        fun _ => 0, fun _ => 0, 0, 0, fun _ => 0, fun _ => []⟩
      ⟨0, 0, 10, fun a b _ => (a, b)⟩
      ⟨2, fun i => if i = 1 then 1 else 0, fun i => if i = 1 then 1 else 0, 0, 1, 0, 1,
        fun i => if i = 0 then 1 else 0, fun i => if i = 0 then 1 else 0,
        fun i => if i = 0 then 1 else 0⟩ 0 1 (by norm_num) (by norm_num)
      ⟨by decide, by decide⟩ ⟨by decide, by decide⟩ (by norm_num [centre])⟩

/-! ### One triangle of the painting loop -/

theorem Ordered_eq (a b : Ordered) (h0 : a.I0 = b.I0) (h1 : a.I1 = b.I1) (h2 : a.I2 = b.I2)
    (hx0 : a.X0 = b.X0) (hy0 : a.Y0 = b.Y0) (hz0 : a.Z0 = b.Z0)
    (hx1 : a.X1 = b.X1) (hy1 : a.Y1 = b.Y1) (hz1 : a.Z1 = b.Z1)
    (hx2 : a.X2 = b.X2) (hy2 : a.Y2 = b.Y2) (hz2 : a.Z2 = b.Z2) : a = b := by
  cases a
  cases b
  simp only [Ordered.mk.injEq]
  exact ⟨h0, h1, h2, hx0, hy0, hz0, hx1, hy1, hz1, hx2, hy2, hz2⟩

theorem orderZ_index_mem (p : Painter) (T : ℤ → ℤ) (x y : ℤ → ℚ) :
    ((orderZ p T x y).I0 = 0 ∨ (orderZ p T x y).I0 = 1 ∨ (orderZ p T x y).I0 = 2) ∧
    ((orderZ p T x y).I1 = 0 ∨ (orderZ p T x y).I1 = 1 ∨ (orderZ p T x y).I1 = 2) ∧
    ((orderZ p T x y).I2 = 0 ∨ (orderZ p T x y).I2 = 1 ∨ (orderZ p T x y).I2 = 2) := by
  have h := (orderZ_props p T x y).1
  have m0 : (orderZ p T x y).I0 ∈ [(0 : ℤ), 1, 2] := h.subset (by simp)
  have m1 : (orderZ p T x y).I1 ∈ [(0 : ℤ), 1, 2] := h.subset (by simp)
  have m2 : (orderZ p T x y).I2 ∈ [(0 : ℤ), 1, 2] := h.subset (by simp)
  simp only [List.mem_cons, List.mem_singleton, List.mem_nil_iff, or_false] at m0 m1 m2
  exact ⟨m0, m1, m2⟩

/-- The ordering reads the arrays `x`, `y` at the entries 0, 1, 2 only. -/
theorem orderZ_congr (p : Painter) (T : ℤ → ℤ) (x y x' y' : ℤ → ℚ)
    (hx : ∀ i : ℤ, i = 0 ∨ i = 1 ∨ i = 2 → x i = x' i)
    (hy : ∀ i : ℤ, i = 0 ∨ i = 1 ∨ i = 2 → y i = y' i) :
    orderZ p T x y = orderZ p T x' y' := by
  have e0 : (orderZ p T x y).I0 = (orderZ p T x' y').I0 := by
    rw [orderZ_I0, orderZ_I0]
  have e2 : (orderZ p T x y).I2 = (orderZ p T x' y').I2 := by
    rw [orderZ_I2, orderZ_I2]
  have e1 : (orderZ p T x y).I1 = (orderZ p T x' y').I1 := by
    rw [orderZ_I1, orderZ_I1, e0, e2]
  obtain ⟨-, ⟨a0, b0, c0⟩, ⟨a1, b1, c1⟩, ⟨a2, b2, c2⟩, -, -⟩ := orderZ_props p T x y
  obtain ⟨-, ⟨a0', b0', c0'⟩, ⟨a1', b1', c1'⟩, ⟨a2', b2', c2'⟩, -, -⟩ := orderZ_props p T x' y'
  obtain ⟨m0, m1, m2⟩ := orderZ_index_mem p T x y
  apply Ordered_eq _ _ e0 e1 e2
  · rw [a0, a0', ← e0]; exact hx _ m0
  · rw [b0, b0', ← e0]; exact hy _ m0
  · rw [c0, c0', e0]
  · rw [a1, a1', ← e1]; exact hx _ m1
  · rw [b1, b1', ← e1]; exact hy _ m1
  · rw [c1, c1', e1]
  · rw [a2, a2', ← e2]; exact hx _ m2
  · rw [b2, b2', ← e2]; exact hy _ m2
  · rw [c2, c2', e2]

/-- `PaintLevels` reads the arrays `x`, `y` at the entries 0, 1, 2 only. -/
theorem PaintLevels_congr (p : Painter) (st : TStyle) (T : ℤ → ℤ) (x y x' y' : ℤ → ℚ)
    (nblev : ℤ) (glev : ℤ → ℚ) (g : Gfx)
    (hx : ∀ i : ℤ, i = 0 ∨ i = 1 ∨ i = 2 → x i = x' i)
    (hy : ∀ i : ℤ, i = 0 ∨ i = 1 ∨ i = 2 → y i = y' i) :
    PaintLevels p st T x y nblev glev g = PaintLevels p st T x' y' nblev glev g := by
  simp only [PaintLevels, orderZ_congr p T x y x' y' hx hy, paintColors, paintFillArea,
    points_three, hx 0 (Or.inl rfl), hx 1 (Or.inr (Or.inl rfl)), hx 2 (Or.inr (Or.inr rfl)),
    hy 0 (Or.inl rfl), hy 1 (Or.inr (Or.inl rfl)), hy 2 (Or.inr (Or.inr rfl))]

theorem PaintPolyMarker0_three (x y : ℤ → ℚ) (g : Gfx) :
    PaintPolyMarker0 3 x y g =
      { g with
        markerStyle := 24
        out := g.out ++ [Draw.polyMarker 20 0 [(x 0, y 0)],
          Draw.polyMarker 24 g.markerColor [(x 0, y 0)],
          Draw.polyMarker 20 0 [(x 1, y 1)], Draw.polyMarker 24 g.markerColor [(x 1, y 1)],
          Draw.polyMarker 20 0 [(x 2, y 2)], Draw.polyMarker 24 g.markerColor [(x 2, y 2)]] } := by
  simp [PaintPolyMarker0, marker0Loop, setMarker, paintPolyMarker, points, List.range_succ]

/-- The calls that paint one triangle read the arrays `x`, `y` at the entries 0 to 3 only. -/
theorem drawTriangle_congr (gp : GraphPainter) (st : TStyle) (opt : Opt) (nblev : ℤ)
    (glev : ℤ → ℚ) (T : ℤ → ℤ) (x y x' y' : ℤ → ℚ) (g : Gfx)
    (hx : ∀ i : ℤ, i = 0 ∨ i = 1 ∨ i = 2 ∨ i = 3 → x i = x' i)
    (hy : ∀ i : ℤ, i = 0 ∨ i = 1 ∨ i = 2 ∨ i = 3 → y i = y' i) :
    drawTriangle gp st opt nblev glev T x y g = drawTriangle gp st opt nblev glev T x' y' g := by
  have hx3 : ∀ i : ℤ, i = 0 ∨ i = 1 ∨ i = 2 → x i = x' i := fun i h => hx i (by tauto)
  have hy3 : ∀ i : ℤ, i = 0 ∨ i = 1 ∨ i = 2 → y i = y' i := fun i h => hy i (by tauto)
  have p3 : points 3 x y = points 3 x' y' := by
    simp only [points_three, hx3 0 (by tauto), hx3 1 (by tauto), hx3 2 (by tauto),
      hy3 0 (by tauto), hy3 1 (by tauto), hy3 2 (by tauto)]
  have p4 : points 4 x y = points 4 x' y' := by
    simp only [points_four, hx 0 (by tauto), hx 1 (by tauto), hx 2 (by tauto),
      hx 3 (by tauto), hy 0 (by tauto), hy 1 (by tauto), hy 2 (by tauto), hy 3 (by tauto)]
  have m0 : ∀ g, PaintPolyMarker0 3 x y g = PaintPolyMarker0 3 x' y' g := by
    intro g
    simp only [PaintPolyMarker0_three, hx3 0 (by tauto), hx3 1 (by tauto), hx3 2 (by tauto),
      hy3 0 (by tauto), hy3 1 (by tauto), hy3 2 (by tauto)]
  have l : ∀ n gl g, PaintLevels gp.toPainter st T x y n gl g =
      PaintLevels gp.toPainter st T x' y' n gl g :=
    fun n gl g => PaintLevels_congr _ st T x y x' y' n gl g hx3 hy3
  simp only [drawTriangle, paintFillArea, paintPolyLine, paintPolyMarker, p3, p4, m0, l]

theorem vertexStep_false (gp : GraphPainter) (env : Env) (view : TView) (T : ℤ → ℤ) (t : ℤ)
    (v : Verts) (h : v.ok = false) : vertexStep gp env view T t v = v := by
  simp [vertexStep, h]

theorem vertexStep_outside (gp : GraphPainter) (env : Env) (view : TView) (T : ℤ → ℤ) (t : ℤ)
    (v : Verts) (h : outsideRange gp (T t - 1) = true) :
    (vertexStep gp env view T t v).ok = false := by
  simp only [outsideRange, decide_eq_true_eq] at h
  simp only [vertexStep]
  split_ifs with h1 h2 h3
  · exact h1
  · rfl
  · rfl
  · tauto

theorem vertexStep_inside (gp : GraphPainter) (env : Env) (view : TView) (T : ℤ → ℤ) (t : ℤ)
    (x y : ℤ → ℚ) (h : outsideRange gp (T t - 1) = false) :
    vertexStep gp env view T t { ok := true, x := x, y := y } =
      { ok := true
        x := Function.update x t (toNDC gp env view (T t - 1)).1
        y := Function.update y t (toNDC gp env view (T t - 1)).2 } := by
  simp only [outsideRange, decide_eq_false_iff_not, not_or] at h
  simp only [vertexStep]
  have h1 : ¬(gp.fX (T t - 1) < gp.fXmin ∨ gp.fX (T t - 1) > gp.fXmax) := by tauto
  have h2 : ¬(gp.fY (T t - 1) < gp.fYmin ∨ gp.fY (T t - 1) > gp.fYmax) := by tauto
  rw [if_neg (by simp), if_neg h1, if_neg h2]


theorem triStep_g_clipped (gp : GraphPainter) (env : Env) (view : TView) (del : Delaunay)
    (st : TStyle) (opt : Opt) (nblev : ℤ) (glev : ℤ → ℚ) (order : ℤ → ℤ) (IT : ℤ) (s : Tri)
    (h : clipped gp del (order IT) = true) :
    (triStep gp env view del st opt nblev glev order IT s).g = s.g := by
  have hv : (vertexStep gp env view (triangleT del (order IT)) 2
      (vertexStep gp env view (triangleT del (order IT)) 1
        (vertexStep gp env view (triangleT del (order IT)) 0
          { ok := true, x := s.x, y := s.y }))).ok = false := by
    have f : ∀ (t : ℤ) (v : Verts), v.ok = false →
        (vertexStep gp env view (triangleT del (order IT)) t v).ok = false := by
      intro t v hv
      rw [vertexStep_false _ _ _ _ _ _ hv]
      exact hv
    simp only [clipped, Bool.or_eq_true] at h
    rcases h with (h | h) | h
    · exact f 2 _ (f 1 _ (vertexStep_outside _ _ _ _ _ _ (by simpa [triangleT] using h)))
    · exact f 2 _ (vertexStep_outside _ _ _ _ _ _ (by simpa [triangleT] using h))
    · exact vertexStep_outside _ _ _ _ _ _ (by simpa [triangleT] using h)
  simp only [triStep]
  rw [if_pos hv]

theorem triStep_g_unclipped (gp : GraphPainter) (env : Env) (view : TView) (del : Delaunay)
    (st : TStyle) (opt : Opt) (nblev : ℤ) (glev : ℤ → ℚ) (order : ℤ → ℤ) (IT : ℤ) (s : Tri)
    (h : clipped gp del (order IT) = false) :
    (triStep gp env view del st opt nblev glev order IT s).g =
      drawTriangle gp st opt nblev glev (triangleT del (order IT))
        (projX gp env view del (order IT)) (projY gp env view del (order IT)) s.g := by
  simp only [clipped, Bool.or_eq_false_iff] at h
  obtain ⟨⟨h0, h1⟩, h2⟩ := h
  have e0 : outsideRange gp (triangleT del (order IT) 0 - 1) = false := by
    simpa [triangleT] using h0
  have e1 : outsideRange gp (triangleT del (order IT) 1 - 1) = false := by
    simpa [triangleT] using h1
  have e2 : outsideRange gp (triangleT del (order IT) 2 - 1) = false := by
    simpa [triangleT] using h2
  simp only [triStep]
  rw [vertexStep_inside _ _ _ _ _ _ _ e0, vertexStep_inside _ _ _ _ _ _ _ e1,
    vertexStep_inside _ _ _ _ _ _ _ e2, if_neg (by simp)]
  apply drawTriangle_congr
  · rintro i (rfl | rfl | rfl | rfl) <;> simp [projX, Function.update]
  · rintro i (rfl | rfl | rfl | rfl) <;> simp [projY, Function.update]

/-- The graphics state after the body of the loop depends on the arrays `x`, `y` left by the
triangle before in no way. -/
theorem triStep_g (gp : GraphPainter) (env : Env) (view : TView) (del : Delaunay)
    (st : TStyle) (opt : Opt) (nblev : ℤ) (glev : ℤ → ℚ) (k : ℤ) (s : Tri) :
    (triStep gp env view del st opt nblev glev (fun _ => k) 0 s).g =
      paintTriangle gp env view del st opt nblev glev k s.g := by
  unfold paintTriangle
  cases h : clipped gp del k
  · rw [triStep_g_unclipped _ _ _ _ _ _ _ _ (fun _ => k) 0 _ h,
      triStep_g_unclipped _ _ _ _ _ _ _ _ (fun _ => k) 0 _ h]
  · rw [triStep_g_clipped _ _ _ _ _ _ _ _ (fun _ => k) 0 _ h,
      triStep_g_clipped _ _ _ _ _ _ _ _ (fun _ => k) 0 _ h]

theorem foldl_triStep_g (gp : GraphPainter) (env : Env) (view : TView) (del : Delaunay)
    (st : TStyle) (opt : Opt) (nblev : ℤ) (glev : ℤ → ℚ) (ord : List ℤ) :
    ∀ s : Tri,
      (ord.foldl (fun s k => triStep gp env view del st opt nblev glev (fun _ => k) 0 s) s).g =
        ord.foldl (fun g k => paintTriangle gp env view del st opt nblev glev k g) s.g := by
  induction ord with
  | nil => intro s; rfl
  | cons k t ih =>
    intro s
    rw [List.foldl_cons, List.foldl_cons, ih, triStep_g]

theorem foldl_paintTriangle_filter (gp : GraphPainter) (env : Env) (view : TView)
    (del : Delaunay) (st : TStyle) (opt : Opt) (nblev : ℤ) (glev : ℤ → ℚ) (ord : List ℤ) :
    ∀ g : Gfx,
      ord.foldl (fun g k => paintTriangle gp env view del st opt nblev glev k g) g =
        (ord.filter fun k => !clipped gp del k).foldl
          (fun g k => paintTriangle gp env view del st opt nblev glev k g) g := by
  induction ord with
  | nil => intro g; rfl
  | cons k t ih =>
    intro g
    cases h : clipped gp del k
    · rw [List.filter_cons_of_pos (by simp [h]), List.foldl_cons, List.foldl_cons, ih]
    · rw [List.filter_cons_of_neg (by simp [h]), List.foldl_cons, ih]
      congr 1
      unfold paintTriangle
      exact triStep_g_clipped _ _ _ _ _ _ _ _ (fun _ => k) 0 _ h

theorem paintOrder_length (env : Env) (view : TView) (del : Delaunay) :
    (paintOrder env view del).length = del.ndt.toNat := by
  unfold paintOrder
  exact tmathSort_length _ _ _

theorem gridLevels_attrs (env : Env) (view : TView) (g : Gfx) :
    (gridLevels env view g).2.fillStyle = g.fillStyle ∧
    (gridLevels env view g).2.fillColor = g.fillColor ∧
    (gridLevels env view g).2.lineStyle = g.lineStyle ∧
    (gridLevels env view g).2.out = g.out := by
  simp only [gridLevels]
  split_ifs <;> exact ⟨rfl, rfl, rfl, rfl⟩

theorem PaintTriangles_eq (gp : GraphPainter) (env : Env) (view : TView) (del : Delaunay)
    (st : TStyle) (opt : Opt) (g : Gfx) (hview : env.view = some view) :
    PaintTriangles gp env del st opt g =
      setLineStyle (setFillStyle
        ((paintOrder env view del).foldl
          (fun acc k => paintTriangle gp env view del st opt
            (if !opt.tri1 && !opt.tri2 && !opt.w then gridLevels env view g
              else ((0, fun _ => 0), g)).1.1
            (if !opt.tri1 && !opt.tri2 && !opt.w then gridLevels env view g
              else ((0, fun _ => 0), g)).1.2 k acc)
          (setFillStyle (setFillColor
            (if !opt.tri1 && !opt.tri2 && !opt.w then gridLevels env view g
              else ((0, fun _ => 0), g)).2
            (if !opt.tri1 && !opt.tri2 && !opt.w then gridLevels env view g
              else ((0, fun _ => 0), g)).2.fillColor) 1001))
        (if !opt.tri1 && !opt.tri2 && !opt.w then gridLevels env view g
          else ((0, fun _ => 0), g)).2.fillStyle)
      (if !opt.tri1 && !opt.tri2 && !opt.w then gridLevels env view g
        else ((0, fun _ => 0), g)).2.lineStyle := by
  unfold PaintTriangles
  rw [hview]
  simp only
  generalize (if (!opt.tri1 && !opt.tri2 && !opt.w) = true then gridLevels env view g
    else ((0, fun _ => 0), g)) = lg
  rw [triLoop_eq_foldl gp env view del st opt _ _ _ (paintOrder_length env view del)
    del.ndt.toNat 0 _ (by simp) le_rfl]
  simp only [Int.toNat_zero, List.drop_zero]
  rw [foldl_triStep_g]
  rfl

/-! ### Clipping -/

/-- C17. A triangle with a vertex outside the display range in X or in Y leaves the graphics
state as it was, in every mode: no call to the pad is made for it.  And whatever the painting
order is, the painting loop paints what it would paint if these triangles were not in the
order at all. -/
theorem clipped_triangle_not_painted (gp : GraphPainter) (env : Env) (view : TView)
    (del : Delaunay) (st : TStyle) (opt : Opt) (nblev : ℤ) (glev : ℤ → ℚ) :
    (∀ (order : ℤ → ℤ) (IT : ℤ) (s : Tri), clipped gp del (order IT) = true →
      (triStep gp env view del st opt nblev glev order IT s).g = s.g) ∧
    ∀ (ord : List ℤ) (s : Tri), ord.length = del.ndt.toNat →
      (triLoop gp env view del st opt nblev glev (fun i => ord.getD i.toNat 0)
        del.ndt.toNat 0 s).g =
      (ord.filter fun k => !clipped gp del k).foldl
        (fun g k => paintTriangle gp env view del st opt nblev glev k g) s.g := by
  refine ⟨fun order IT s h => triStep_g_clipped _ _ _ _ _ _ _ _ _ _ _ h, fun ord s hlen => ?_⟩
  rw [triLoop_eq_foldl gp env view del st opt nblev glev ord hlen del.ndt.toNat 0 s (by simp)
    le_rfl]
  simp only [Int.toNat_zero, List.drop_zero]
  rw [foldl_triStep_g, foldl_paintTriangle_filter]

/-- The triangle of `del0` over the points `gp1`, whose first vertex is at `x = xMax + 1`: the
body of the loop and the loop as a whole paint nothing. -/
theorem clipped_triangle_not_painted_witness :
    clipped gp1 del0 0 = true ∧
    (triStep gp1 env0 view0 del0 st0 optTri1 0 (fun _ => 0) (fun _ => 0) 0
      { x := fun _ => 0, y := fun _ => 0, g := gfx0 }).g = gfx0 ∧
    (triLoop gp1 env0 view0 del0 st0 optTri1 0 (fun _ => 0)
      (fun i => [(0 : ℤ)].getD i.toNat 0) del0.ndt.toNat 0
      { x := fun _ => 0, y := fun _ => 0, g := gfx0 }).g =
      ([(0 : ℤ)].filter fun k => !clipped gp1 del0 k).foldl
        (fun g k => paintTriangle gp1 env0 view0 del0 st0 optTri1 0 (fun _ => 0) k g) gfx0 :=
  ⟨by simp [clipped, outsideRange, gp1, gp0, del0, arr3],
    (clipped_triangle_not_painted gp1 env0 view0 del0 st0 optTri1 0 (fun _ => 0)).1
      (fun _ => 0) 0 { x := fun _ => 0, y := fun _ => 0, g := gfx0 }
      (by simp [clipped, outsideRange, gp1, gp0, del0, arr3]),
    (clipped_triangle_not_painted gp1 env0 view0 del0 st0 optTri1 0 (fun _ => 0)).2
      [0] { x := fun _ => 0, y := fun _ => 0, g := gfx0 } rfl⟩

/-! ### The mode `"tri1"` -/

theorem contourStep_out (env : Env) (st : TStyle) (ndivz k : ℤ) (c : Canvas) :
    (contourStep env st ndivz k c).gfx.out = c.gfx.out := by
  unfold contourStep
  generalize env.contourList (env.contourLevelPad k) = l
  induction l generalizing c with
  | nil => rfl
  | cons o t ih =>
    rw [List.foldl_cons, ih]
    cases o <;> rfl

theorem contourLoop_out (env : Env) (st : TStyle) (ndivz : ℤ) :
    ∀ (fuel : ℕ) (k : ℤ) (c : Canvas),
      (contourLoop env st ndivz fuel k c).gfx.out = c.gfx.out := by
  intro fuel
  induction fuel with
  | zero => intro k c; rfl
  | succ n ih =>
    intro k c
    simp only [contourLoop]
    split_ifs
    · rw [ih, contourStep_out]
    · rfl

theorem PaintContour_out (env : Env) (st : TStyle) (c : Canvas) :
    (PaintContour env st c).gfx.out = c.gfx.out := by
  simp only [PaintContour]
  exact contourLoop_out _ _ _ _ _ _

/-- C18, the claim refuted. On a pad without a view, `Paint` with the option `"cont"` paints
the graphs of the two contour levels, in the palette colours 2 and 4. -/
theorem Paint_contours_without_view :
    env1.view = none ∧
    (Paint gp0 env1 hist0 del0 st0 optCont { gfx := gfx0, graphs := [] }).graphs =
      [(2, [(0, 0), (1, 1)]), (4, [(0, 0), (1, 1)])] := by
  have c0 : contourColor 5 2 0 = 2 := by
    simp only [contourColor, truncInt]
    norm_num
  have c1 : contourColor 5 2 1 = 4 := by
    simp only [contourColor, truncInt]
    norm_num
  refine ⟨rfl, ?_⟩
  simp [Paint, optCont, PaintContour, env1, env0, contourLoop, contourStep, st0, c0, c1]

/-- C18, as amended. Without a view `PaintTriangles` and `PaintPolyMarker` return at once, so
that `Paint` makes no call to the pad; but `PaintContour` does not ask for the view, and with
the option `"cont"` the contour graphs are painted all the same. -/
theorem Paint_without_view (gp : GraphPainter) (env : Env) (hist : Hist) (del : Delaunay)
    (st : TStyle) (opt : Opt) (c : Canvas) (hview : env.view = none) :
    (∀ (gp : GraphPainter) (g : Gfx), PaintTriangles gp env del st opt g = g) ∧
    (∀ (gp : GraphPainter) (g : Gfx), PaintPolyMarker gp env opt g = g) ∧
    Paint gp env hist del st opt c = (if opt.cont then PaintContour env st c else c) ∧
    (Paint gp env hist del st opt c).gfx.out = c.gfx.out := by
  have ht : ∀ (gp : GraphPainter) (g : Gfx), PaintTriangles gp env del st opt g = g := by
    intro gp g
    simp [PaintTriangles, hview]
  have hm : ∀ (gp : GraphPainter) (g : Gfx), PaintPolyMarker gp env opt g = g := by
    intro gp g
    simp [PaintPolyMarker, hview]
  have hp : Paint gp env hist del st opt c = (if opt.cont then PaintContour env st c else c) := by
    simp only [Paint, ht, hm]
    simp
  refine ⟨ht, hm, hp, ?_⟩
  rw [hp]
  split_ifs
  · exact PaintContour_out env st c
  · rfl

/-- The pad `env1` and the option `"tri1"`. -/
theorem Paint_without_view_witness :
    env1.view = none ∧
    (Paint gp0 env1 hist0 del0 st0 optTri1 { gfx := gfx0, graphs := [] }).gfx.out = gfx0.out :=
  ⟨rfl, (Paint_without_view gp0 env1 hist0 del0 st0 optTri1 { gfx := gfx0, graphs := [] }
    rfl).2.2.2⟩

/-! ### The markers -/

/-- C19. Of the three points `(2,0)`, `(1,0)`, `(0,1)` the first one is outside the display
range `[0,1]` in X.  `PaintPolyMarker` paints two markers: one at whatever the heap held in
the first entries of `xm`, `ym`, the other at `(1,0)`; the point `(0,1)` gets no marker. -/
theorem PaintPolyMarker_wrong_entries (hx hy : ℤ → ℚ) :
    (PaintPolyMarker gp1 { env0 with heapX := hx, heapY := hy } optP gfx0).out =
      [Draw.polyMarker 1 1 [(hx 0, hy 0), (1, 0)]] := by
  norm_num [PaintPolyMarker, env0, markLoop, markStep, gp1, gp0, toNDC, view0, paintPolyMarker,
    points, List.range_succ, arr3, optP, gfx0, Function.update]
  rw [show Int.toNat 2 = 2 from rfl]
  simp [List.range_succ]

/-! ### The polygons of the stripes in closed form -/

theorem stripeBody_poly_first (p : Painter) (st : TStyle) (o : Ordered) (c0 c2 : ℤ)
    (s : Stripe) :
    (stripeBody p st o c0 c2 c0 s).g.out =
        s.g.out ++ [Draw.fillArea (st.colorPalette c0)
          (stripePoly p st.numberOfColors o c0 c2 c0)] ∧
      (stripeBody p st o c0 c2 c0 s).Zi = levelZ p st.numberOfColors c0 ∧
      (stripeBody p st o c0 c2 c0 s).Zip = levelZ p st.numberOfColors c0 ∧
      ((stripeBody p st o c0 c2 c0 s).xp 1, (stripeBody p st o c0 c2 c0 s).yp 1) =
        longPt o (levelZ p st.numberOfColors c0) ∧
      ((stripeBody p st o c0 c2 c0 s).xp 2, (stripeBody p st o c0 c2 c0 s).yp 2) =
        shortAfter p st.numberOfColors o c0 c0 := by
  have hout := stripeBody_out p st o c0 c2 c0 s
  obtain ⟨e1, e2, e3, e4, e5⟩ := stripeBody_first_eq p st o c0 c2 s
  obtain ⟨h1, h2, h3, h4⟩ := firstStripe_spec p st.numberOfColors o c0 s
  refine ⟨?_, e1.trans h1, e2.trans h1, by rw [e3, e4]; exact h2, ?_⟩
  · rw [hout, e3, e4, e5, h4]
    simp only [stripePoly, if_true]
  · rw [e3, e4, h3]
    simp only [shortAfter, if_true]

theorem stripeBody_poly_middle (p : Painter) (st : TStyle) (o : Ordered) (c0 c2 Ci : ℤ)
    (s : Stripe) (h0 : Ci ≠ c0) (h2 : Ci ≠ c2)
    (hZip : s.Zip = levelZ p st.numberOfColors (Ci - 1))
    (h1 : (s.xp 1, s.yp 1) = longPt o (levelZ p st.numberOfColors (Ci - 1)))
    (hs : (s.xp 2, s.yp 2) = shortAfter p st.numberOfColors o c0 (Ci - 1)) :
    (stripeBody p st o c0 c2 Ci s).g.out =
        s.g.out ++ [Draw.fillArea (st.colorPalette Ci)
          (stripePoly p st.numberOfColors o c0 c2 Ci)] ∧
      (stripeBody p st o c0 c2 Ci s).Zi = levelZ p st.numberOfColors Ci ∧
      (stripeBody p st o c0 c2 Ci s).Zip = levelZ p st.numberOfColors Ci ∧
      ((stripeBody p st o c0 c2 Ci s).xp 1, (stripeBody p st o c0 c2 Ci s).yp 1) =
        longPt o (levelZ p st.numberOfColors Ci) ∧
      ((stripeBody p st o c0 c2 Ci s).xp 2, (stripeBody p st o c0 c2 Ci s).yp 2) =
        shortAfter p st.numberOfColors o c0 Ci := by
  have hout := stripeBody_out p st o c0 c2 Ci s
  obtain ⟨e1, e2, e3, e4, e5⟩ := stripeBody_middle_eq p st o c0 c2 Ci s h0 h2
  obtain ⟨k1, k2, k3, k4⟩ := middleStripe_spec p st.numberOfColors o Ci s
  refine ⟨?_, e1.trans k1, e2.trans k1, by rw [e3, e4]; exact k2, ?_⟩
  · rw [hout, e3, e4, e5, k4, hZip, h1, hs]
    simp only [stripePoly, if_neg h0, if_neg h2]
  · rw [e3, e4, k3]
    simp only [shortAfter, if_neg h0]

theorem stripeBody_poly_last (p : Painter) (st : TStyle) (o : Ordered) (c0 c2 : ℤ)
    (s : Stripe) (h : c2 ≠ c0)
    (hZi : s.Zi = levelZ p st.numberOfColors (c2 - 1))
    (h1 : (s.xp 1, s.yp 1) = longPt o (levelZ p st.numberOfColors (c2 - 1)))
    (hs : (s.xp 2, s.yp 2) = shortAfter p st.numberOfColors o c0 (c2 - 1)) :
    (stripeBody p st o c0 c2 c2 s).g.out =
      s.g.out ++ [Draw.fillArea (st.colorPalette c2)
        (stripePoly p st.numberOfColors o c0 c2 c2)] := by
  have hout := stripeBody_out p st o c0 c2 c2 s
  obtain ⟨-, -, e3, e4, e5⟩ := stripeBody_last_eq p st o c0 c2 s h
  have h4 := lastStripe_spec o s
  rw [hout, e3, e4, e5, h4, hZi, h1, hs]
  simp only [stripePoly, if_neg h, if_true]

theorem range_map_shift {β : Type} (f : ℤ → β) (Ci : ℤ) (n : ℕ) :
    (List.range (n + 1)).map (fun i : ℕ => f (Ci + (i : ℤ))) =
      f Ci :: (List.range n).map (fun i : ℕ => f (Ci + 1 + (i : ℤ))) := by
  rw [List.range_succ_eq_map, List.map_cons, List.map_map]
  simp only [Nat.cast_zero, add_zero, List.cons.injEq, true_and]
  apply List.map_congr_left
  intro a _
  simp only [Function.comp_apply, Nat.succ_eq_add_one, Nat.cast_add, Nat.cast_one]
  congr 1
  ring

theorem stripeLoop_polys_tail (p : Painter) (st : TStyle) (o : Ordered) (c0 c2 : ℤ) :
    ∀ (fuel : ℕ) (Ci : ℤ) (s : Stripe), c0 < Ci → Ci ≤ c2 → fuel = (c2 - Ci + 1).toNat →
      s.Zi = levelZ p st.numberOfColors (Ci - 1) →
      s.Zip = levelZ p st.numberOfColors (Ci - 1) →
      (s.xp 1, s.yp 1) = longPt o (levelZ p st.numberOfColors (Ci - 1)) →
      (s.xp 2, s.yp 2) = shortAfter p st.numberOfColors o c0 (Ci - 1) →
      (stripeLoop p st o c0 c2 fuel Ci s).g.out =
        s.g.out ++ (List.range fuel).map fun i : ℕ =>
          Draw.fillArea (st.colorPalette (Ci + (i : ℤ)))
            (stripePoly p st.numberOfColors o c0 c2 (Ci + (i : ℤ))) := by
  intro fuel
  induction fuel with
  | zero => intro Ci s _ h2 hf; omega
  | succ n ih =>
    intro Ci s hlo hhi hf hZi hZip h1 hs
    simp only [stripeLoop, if_pos hhi]
    rcases eq_or_lt_of_le hhi with heq | hlt
    · subst heq
      have hn : n = 0 := by omega
      subst hn
      have hout := stripeBody_poly_last p st o c0 Ci s (ne_of_gt hlo) hZi h1 hs
      simp [stripeLoop, hout, List.range_succ]
    · obtain ⟨hout, a, b, c, d⟩ := stripeBody_poly_middle p st o c0 c2 Ci s (ne_of_gt hlo)
        (ne_of_lt hlt) hZip h1 hs
      rw [ih (Ci + 1) (stripeBody p st o c0 c2 Ci s) (by omega) (by omega) (by omega)
        (by rwa [add_sub_cancel_right]) (by rwa [add_sub_cancel_right])
        (by rwa [add_sub_cancel_right]) (by rwa [add_sub_cancel_right]), hout]
      have e := range_map_shift (fun k => Draw.fillArea (st.colorPalette k)
        (stripePoly p st.numberOfColors o c0 c2 k)) Ci n
      simp only at e
      rw [e]
      simp

/-- If the colour of Z0 is below the colour of Z2, the polygons painted are those of
`stripePoly`, one for each colour from the one to the other. -/
theorem paintColors_polys (p : Painter) (st : TStyle) (x y : ℤ → ℚ) (o : Ordered) (g : Gfx)
    (hlt : theColor p st.numberOfColors o.Z0 < theColor p st.numberOfColors o.Z2) :
    (paintColors p st x y o g).out =
      g.out ++ (List.range (theColor p st.numberOfColors o.Z2 -
          theColor p st.numberOfColors o.Z0 + 1).toNat).map fun i : ℕ =>
        Draw.fillArea (st.colorPalette (theColor p st.numberOfColors o.Z0 + (i : ℤ)))
          (stripePoly p st.numberOfColors o (theColor p st.numberOfColors o.Z0)
            (theColor p st.numberOfColors o.Z2) (theColor p st.numberOfColors o.Z0 + (i : ℤ))) := by
  rw [paintColors_out, if_neg (ne_of_lt hlt)]
  generalize theColor p st.numberOfColors o.Z0 = c0 at hlt ⊢
  generalize theColor p st.numberOfColors o.Z2 = c2 at hlt ⊢
  generalize hs0 : (Stripe.mk (fun _ => 0) (fun _ => 0) 0 0 0
    (divBy (divBy g (p.fZmax - p.fZmin)) (p.fZmax - p.fZmin))) = s0
  have hg0 : s0.g.out = g.out := by rw [← hs0]; rfl
  have hf : (c2 - c0 + 1).toNat = (c2 - (c0 + 1) + 1).toNat + 1 := by omega
  obtain ⟨hout, a, b, c, d⟩ := stripeBody_poly_first p st o c0 c2 s0
  rw [hf]
  simp only [stripeLoop, if_pos hlt.le]
  rw [stripeLoop_polys_tail p st o c0 c2 _ (c0 + 1) _ (by omega) (by omega) rfl
    (by rwa [add_sub_cancel_right]) (by rwa [add_sub_cancel_right])
    (by rwa [add_sub_cancel_right]) (by rwa [add_sub_cancel_right]), hout, hg0]
  have e := range_map_shift (fun k => Draw.fillArea (st.colorPalette k)
    (stripePoly p st.numberOfColors o c0 c2 k)) c0 (c2 - (c0 + 1) + 1).toNat
  simp only at e
  rw [e]
  simp

theorem orderZ_0_0_10 (x y : ℤ → ℚ) (p : Painter) (T : ℤ → ℤ) (h0 : p.fZ (T 0 - 1) = 0)
    (h1 : p.fZ (T 1 - 1) = 0) (h2 : p.fZ (T 2 - 1) = 10) :
    orderZ p T x y =
      { I0 := 1, I1 := 0, I2 := 2, X0 := x 1, Y0 := y 1, Z0 := 0, X1 := x 0, Y1 := y 0, Z1 := 0,
        X2 := x 2, Y2 := y 2, Z2 := 10 } := by
  norm_num [orderZ, orderStep, h0, h1, h2]

theorem stripePoly_chain (p : Painter) (nc : ℤ) (o : Ordered) (c0 c2 : ℤ) (hlt : c0 < c2) :
    (stripePoly p nc o c0 c2 c0)[0]? = some (V0 o) ∧
    (stripePoly p nc o c0 c2 c2)[1]? = some (V2 o) ∧
    ∀ k : ℤ, c0 ≤ k → k < c2 →
      (stripePoly p nc o c0 c2 k)[1]? = some (longPt o (levelZ p nc k)) ∧
      (stripePoly p nc o c0 c2 (k + 1))[0]? = some (longPt o (levelZ p nc k)) := by
  refine ⟨?_, ?_, fun k hk0 hk2 => ⟨?_, ?_⟩⟩
  · simp only [stripePoly, if_true]
    split_ifs <;> rfl
  · simp only [stripePoly, if_neg (ne_of_gt hlt), if_true]
    split_ifs <;> rfl
  · simp only [stripePoly, if_neg (ne_of_lt hk2)]
    split_ifs <;> rfl
  · have h1 : k + 1 ≠ c0 := by omega
    simp only [stripePoly, if_neg h1, add_sub_cancel_right]
    split_ifs <;> rfl

/-- C27. When the colour of Z0 is below the colour of Z2 the polygons painted are those of
`stripePoly`, one for each colour; the point 0 of the first one is `V0`, the point 1 of the
last one is `V2`, and the point 0 of each of the others is the point 1 of the one before it,
the point of the long edge at the bound between the two bands. -/
theorem stripes_chained (p : Painter) (st : TStyle) (T : ℤ → ℤ) (x y : ℤ → ℚ)
    (nblev : ℤ) (glev : ℤ → ℚ) (g : Gfx) (hn : nblev ≤ 0)
    (hlt : theColor p st.numberOfColors (orderZ p T x y).Z0 <
      theColor p st.numberOfColors (orderZ p T x y).Z2) :
    (PaintLevels p st T x y nblev glev g).out =
      g.out ++ (List.range (theColor p st.numberOfColors (orderZ p T x y).Z2 -
          theColor p st.numberOfColors (orderZ p T x y).Z0 + 1).toNat).map (fun i : ℕ =>
        Draw.fillArea
          (st.colorPalette (theColor p st.numberOfColors (orderZ p T x y).Z0 + (i : ℤ)))
          (stripePoly p st.numberOfColors (orderZ p T x y)
            (theColor p st.numberOfColors (orderZ p T x y).Z0)
            (theColor p st.numberOfColors (orderZ p T x y).Z2)
            (theColor p st.numberOfColors (orderZ p T x y).Z0 + (i : ℤ)))) ∧
    (stripePoly p st.numberOfColors (orderZ p T x y)
      (theColor p st.numberOfColors (orderZ p T x y).Z0)
      (theColor p st.numberOfColors (orderZ p T x y).Z2)
      (theColor p st.numberOfColors (orderZ p T x y).Z0))[0]? = some (V0 (orderZ p T x y)) ∧
    (stripePoly p st.numberOfColors (orderZ p T x y)
      (theColor p st.numberOfColors (orderZ p T x y).Z0)
      (theColor p st.numberOfColors (orderZ p T x y).Z2)
      (theColor p st.numberOfColors (orderZ p T x y).Z2))[1]? = some (V2 (orderZ p T x y)) ∧
    ∀ k : ℤ, theColor p st.numberOfColors (orderZ p T x y).Z0 ≤ k →
      k < theColor p st.numberOfColors (orderZ p T x y).Z2 →
      (stripePoly p st.numberOfColors (orderZ p T x y)
        (theColor p st.numberOfColors (orderZ p T x y).Z0)
        (theColor p st.numberOfColors (orderZ p T x y).Z2) k)[1]? =
          some (longPt (orderZ p T x y) (levelZ p st.numberOfColors k)) ∧
      (stripePoly p st.numberOfColors (orderZ p T x y)
        (theColor p st.numberOfColors (orderZ p T x y).Z0)
        (theColor p st.numberOfColors (orderZ p T x y).Z2) (k + 1))[0]? =
          some (longPt (orderZ p T x y) (levelZ p st.numberOfColors k)) := by
  simp only [PaintLevels, if_pos hn]
  obtain ⟨a, b, c⟩ := stripePoly_chain p st.numberOfColors (orderZ p T x y) _ _ hlt
  exact ⟨paintColors_polys p st x y _ g hlt, a, b, c⟩

/-- The triangle with the Z values `(0, 0, 10)`, five colours on `[0, 10]`: the first polygon
starts at `V0` and the last one has `V2` as its point 1. -/
theorem stripes_chained_witness :
    ((0 : ℤ) ≤ 0 ∧
      theColor ⟨arr3 0 0 10, 0, 10⟩ (⟨5, id⟩ : TStyle).numberOfColors
          (orderZ ⟨arr3 0 0 10, 0, 10⟩ idx3 (arr3 0 1 0) (arr3 0 0 1)).Z0 <
        theColor ⟨arr3 0 0 10, 0, 10⟩ (⟨5, id⟩ : TStyle).numberOfColors
          (orderZ ⟨arr3 0 0 10, 0, 10⟩ idx3 (arr3 0 1 0) (arr3 0 0 1)).Z2) ∧
    (stripePoly ⟨arr3 0 0 10, 0, 10⟩ (⟨5, id⟩ : TStyle).numberOfColors
      (orderZ ⟨arr3 0 0 10, 0, 10⟩ idx3 (arr3 0 1 0) (arr3 0 0 1))
      (theColor ⟨arr3 0 0 10, 0, 10⟩ (⟨5, id⟩ : TStyle).numberOfColors
        (orderZ ⟨arr3 0 0 10, 0, 10⟩ idx3 (arr3 0 1 0) (arr3 0 0 1)).Z0)
      (theColor ⟨arr3 0 0 10, 0, 10⟩ (⟨5, id⟩ : TStyle).numberOfColors
        (orderZ ⟨arr3 0 0 10, 0, 10⟩ idx3 (arr3 0 1 0) (arr3 0 0 1)).Z2)
      (theColor ⟨arr3 0 0 10, 0, 10⟩ (⟨5, id⟩ : TStyle).numberOfColors
        (orderZ ⟨arr3 0 0 10, 0, 10⟩ idx3 (arr3 0 1 0) (arr3 0 0 1)).Z0))[0]? =
      some (V0 (orderZ ⟨arr3 0 0 10, 0, 10⟩ idx3 (arr3 0 1 0) (arr3 0 0 1))) :=
  have ho := orderZ_0_0_10 (arr3 0 1 0) (arr3 0 0 1) ⟨arr3 0 0 10, 0, 10⟩ idx3
    (by simp [arr3, idx3]) (by simp [arr3, idx3]) (by simp [arr3, idx3])
  have c0 : theColor ⟨arr3 0 0 10, 0, 10⟩ 5 0 = 0 :=
    theColor_of_intCast _ _ _ _ (by norm_num)
  have c2 : theColor ⟨arr3 0 0 10, 0, 10⟩ 5 10 = 4 :=
    theColor_of_intCast _ _ _ _ (by norm_num)
  have hlt : theColor ⟨arr3 0 0 10, 0, 10⟩ (⟨5, id⟩ : TStyle).numberOfColors
      (orderZ ⟨arr3 0 0 10, 0, 10⟩ idx3 (arr3 0 1 0) (arr3 0 0 1)).Z0 <
      theColor ⟨arr3 0 0 10, 0, 10⟩ (⟨5, id⟩ : TStyle).numberOfColors
      (orderZ ⟨arr3 0 0 10, 0, 10⟩ idx3 (arr3 0 1 0) (arr3 0 0 1)).Z2 := by
    rw [ho]
    show theColor ⟨arr3 0 0 10, 0, 10⟩ 5 0 < theColor ⟨arr3 0 0 10, 0, 10⟩ 5 10
    rw [c0, c2]
    decide
  ⟨⟨by decide, hlt⟩,
    (stripes_chained ⟨arr3 0 0 10, 0, 10⟩ ⟨5, id⟩ idx3 (arr3 0 1 0) (arr3 0 0 1) 0
      (fun _ => 0) gfx0 (by decide) hlt).2.1⟩

/-! ### The signed area of the stripes -/

theorem tri2_eq_shoelace (o : Ordered) : tri2 o = shoelace2 [V0 o, V2 o, V1 o] := by
  simp only [tri2, shoelace2, shoelaceFrom, cross, V0, V1, V2]
  ring

/-- C25. In exact arithmetic, for `zMin < zMax`, at least two colours, vertex Z values not
below `zMin`, a colour of Z0 below the colour of Z2, and `Z1 < Z2` or `Z2` on no band boundary
`zMin + k·(zMax - zMin)/(numColors - 1)`, the signed areas (half the shoelace sums) of the
polygons `PaintLevels` paints in colour mode sum to the signed area of the triangle taken in
the vertex order `(V0, V2, V1)`. -/
theorem stripes_signed_area (p : Painter) (st : TStyle) (T : ℤ → ℤ) (x y : ℤ → ℚ)
    (nblev : ℤ) (glev : ℤ → ℚ) (g : Gfx) (hn : nblev ≤ 0)
    (hr : p.fZmin < p.fZmax) (hnc : 2 ≤ st.numberOfColors)
    (hmin : p.fZmin ≤ (orderZ p T x y).Z0)
    (hlt : theColor p st.numberOfColors (orderZ p T x y).Z0 <
      theColor p st.numberOfColors (orderZ p T x y).Z2)
    (hnd : (orderZ p T x y).Z1 < (orderZ p T x y).Z2 ∨
      ∀ k : ℤ, (orderZ p T x y).Z2 ≠ levelZ p st.numberOfColors k) :
    paintedShoelace (PaintLevels p st T x y nblev glev g).out / 2 =
      paintedShoelace g.out / 2 +
        shoelace2 [V0 (orderZ p T x y), V2 (orderZ p T x y), V1 (orderZ p T x y)] / 2 := by
  obtain ⟨-, -, -, -, h01, h12⟩ := orderZ_props p T x y
  have h := (paintColors_conserves p st T x y g hr hnc (le_trans hmin (le_trans h01 h12))
    hnd).1
  rw [if_neg (ne_of_lt hlt), tri2_eq_shoelace] at h
  simp only [PaintLevels, if_pos hn]
  rw [h]
  ring

/-- The triangle with the Z values `(0, 5, 10)`, five colours on `[0, 10]`. -/
theorem stripes_signed_area_witness :
    ((0 : ℤ) ≤ 0 ∧ (⟨arr3 0 5 10, 0, 10⟩ : Painter).fZmin < (⟨arr3 0 5 10, 0, 10⟩ : Painter).fZmax ∧
      (2 : ℤ) ≤ (⟨5, id⟩ : TStyle).numberOfColors ∧
      (⟨arr3 0 5 10, 0, 10⟩ : Painter).fZmin ≤
        (orderZ ⟨arr3 0 5 10, 0, 10⟩ idx3 (arr3 0 1 0) (arr3 0 0 1)).Z0 ∧
      theColor ⟨arr3 0 5 10, 0, 10⟩ (⟨5, id⟩ : TStyle).numberOfColors
          (orderZ ⟨arr3 0 5 10, 0, 10⟩ idx3 (arr3 0 1 0) (arr3 0 0 1)).Z0 <
        theColor ⟨arr3 0 5 10, 0, 10⟩ (⟨5, id⟩ : TStyle).numberOfColors
          (orderZ ⟨arr3 0 5 10, 0, 10⟩ idx3 (arr3 0 1 0) (arr3 0 0 1)).Z2 ∧
      (orderZ ⟨arr3 0 5 10, 0, 10⟩ idx3 (arr3 0 1 0) (arr3 0 0 1)).Z1 <
        (orderZ ⟨arr3 0 5 10, 0, 10⟩ idx3 (arr3 0 1 0) (arr3 0 0 1)).Z2) ∧
    paintedShoelace (PaintLevels ⟨arr3 0 5 10, 0, 10⟩ ⟨5, id⟩ idx3 (arr3 0 1 0) (arr3 0 0 1) 0
        (fun _ => 0) gfx0).out / 2 =
      paintedShoelace gfx0.out / 2 +
        shoelace2 [V0 (orderZ ⟨arr3 0 5 10, 0, 10⟩ idx3 (arr3 0 1 0) (arr3 0 0 1)),
          V2 (orderZ ⟨arr3 0 5 10, 0, 10⟩ idx3 (arr3 0 1 0) (arr3 0 0 1)),
          V1 (orderZ ⟨arr3 0 5 10, 0, 10⟩ idx3 (arr3 0 1 0) (arr3 0 0 1))] / 2 :=
  have ho := orderZ_0_5_10 (arr3 0 1 0) (arr3 0 0 1) ⟨arr3 0 5 10, 0, 10⟩ idx3
    (by simp [arr3, idx3]) (by simp [arr3, idx3]) (by simp [arr3, idx3])
  have c0 : theColor ⟨arr3 0 5 10, 0, 10⟩ 5 0 = 0 :=
    theColor_of_intCast _ _ _ _ (by norm_num)
  have c2 : theColor ⟨arr3 0 5 10, 0, 10⟩ 5 10 = 4 :=
    theColor_of_intCast _ _ _ _ (by norm_num)
  have hlt : theColor ⟨arr3 0 5 10, 0, 10⟩ (⟨5, id⟩ : TStyle).numberOfColors
      (orderZ ⟨arr3 0 5 10, 0, 10⟩ idx3 (arr3 0 1 0) (arr3 0 0 1)).Z0 <
      theColor ⟨arr3 0 5 10, 0, 10⟩ (⟨5, id⟩ : TStyle).numberOfColors
      (orderZ ⟨arr3 0 5 10, 0, 10⟩ idx3 (arr3 0 1 0) (arr3 0 0 1)).Z2 := by
    rw [ho]
    show theColor ⟨arr3 0 5 10, 0, 10⟩ 5 0 < theColor ⟨arr3 0 5 10, 0, 10⟩ 5 10
    rw [c0, c2]
    decide
  ⟨⟨by decide, by norm_num, by decide, by rw [ho], hlt, by rw [ho]; norm_num⟩,
    stripes_signed_area ⟨arr3 0 5 10, 0, 10⟩ ⟨5, id⟩ idx3 (arr3 0 1 0) (arr3 0 0 1) 0
      (fun _ => 0) gfx0 (by decide) (by norm_num) (by decide) (by rw [ho]) hlt
      (Or.inl (by rw [ho]; norm_num))⟩

/-! ### The points of the stripes lie on the edges -/

theorem onEdge_V0 (o : Ordered) : onEdge o (V0 o) :=
  Or.inl ⟨0, le_rfl, zero_le_one, by simp [V0]⟩

theorem onEdge_V1 (o : Ordered) : onEdge o (V1 o) :=
  Or.inr (Or.inl ⟨1, zero_le_one, le_rfl, by simp [V0, V1]⟩)

theorem onEdge_V2 (o : Ordered) : onEdge o (V2 o) :=
  Or.inl ⟨1, zero_le_one, le_rfl, by simp [V0, V2]⟩

theorem onEdge_longPt (o : Ordered) (z : ℚ) (h0 : o.Z0 ≤ z) (h2 : z ≤ o.Z2) :
    onEdge o (longPt o z) :=
  Or.inl ⟨(z - o.Z0) / (o.Z2 - o.Z0), ratio_nonneg (le_trans h0 h2) h0,
    ratio_le_one (le_trans h0 h2) h2, rfl⟩

theorem onEdge_lowPt (o : Ordered) (z : ℚ) (h0 : o.Z0 ≤ z) (h1 : z ≤ o.Z1) :
    onEdge o (lowPt o z) :=
  Or.inr (Or.inl ⟨(z - o.Z0) / (o.Z1 - o.Z0), ratio_nonneg (le_trans h0 h1) h0,
    ratio_le_one (le_trans h0 h1) h1, rfl⟩)

theorem onEdge_highPt (o : Ordered) (z : ℚ) (h1 : o.Z1 ≤ z) (h2 : z ≤ o.Z2) :
    onEdge o (highPt o z) :=
  Or.inr (Or.inr ⟨(z - o.Z1) / (o.Z2 - o.Z1), ratio_nonneg (le_trans h1 h2) h1,
    ratio_le_one (le_trans h1 h2) h2, rfl⟩)

theorem onEdge_shortPt (o : Ordered) (z : ℚ) (h0 : o.Z0 ≤ z) (h2 : z ≤ o.Z2) :
    onEdge o (shortPt o z) := by
  unfold shortPt
  split_ifs with h
  · exact onEdge_lowPt o z h0 h.le
  · exact onEdge_highPt o z (not_lt.mp h) h2

theorem onEdge_shortAfter (p : Painter) (nc : ℤ) (o : Ordered) (c0 k : ℤ)
    (h0 : o.Z0 < levelZ p nc k) (h2 : levelZ p nc k ≤ o.Z2) :
    onEdge o (shortAfter p nc o c0 k) := by
  unfold shortAfter
  split_ifs with _ h
  · rcases h with h | h
    · exact onEdge_highPt o _ h h2
    · exact onEdge_highPt o _ (h ▸ h0.le) h2
  · exact onEdge_lowPt o _ h0.le (le_of_lt (not_le.mp (fun hh => h (Or.inl hh))))
  · exact onEdge_shortPt o _ h0.le h2

theorem stripePoly_onEdge (p : Painter) (nc : ℤ) (o : Ordered) (c0 c2 : ℤ)
    (hlt : c0 < c2) (hlev : LevelsInside p nc o c0 c2) (k : ℤ) (hk0 : c0 ≤ k) (hk2 : k ≤ c2) :
    ∀ P ∈ stripePoly p nc o c0 c2 k, onEdge o P := by
  intro P hP
  have hup : k < c2 → o.Z0 < levelZ p nc k ∧ levelZ p nc k ≤ o.Z2 :=
    fun h => ⟨(hlev k hk0 h).1, (hlev k hk0 h).2.1⟩
  have hlo : c0 < k → o.Z0 < levelZ p nc (k - 1) ∧ levelZ p nc (k - 1) ≤ o.Z2 :=
    fun h => ⟨(hlev (k - 1) (by omega) (by omega)).1, (hlev (k - 1) (by omega) (by omega)).2.1⟩
  unfold stripePoly at hP
  by_cases a : k = c0
  · rw [if_pos a] at hP
    obtain ⟨u0, u2⟩ := hup (by omega)
    split_ifs at hP with h <;>
      simp only [List.mem_cons, List.mem_singleton, List.mem_nil_iff, or_false] at hP
    · rcases hP with rfl | rfl | rfl | rfl
      · exact onEdge_V0 o
      · exact onEdge_longPt o _ u0.le u2
      · rcases h with h | h
        · exact onEdge_highPt o _ h u2
        · exact onEdge_highPt o _ (h ▸ u0.le) u2
      · exact onEdge_V1 o
    · rcases hP with rfl | rfl | rfl
      · exact onEdge_V0 o
      · exact onEdge_longPt o _ u0.le u2
      · exact onEdge_lowPt o _ u0.le (le_of_lt (not_le.mp (fun hh => h (Or.inl hh))))
  · rw [if_neg a] at hP
    obtain ⟨l0, l2⟩ := hlo (lt_of_le_of_ne hk0 (Ne.symm a))
    by_cases b : k = c2
    · rw [if_pos b] at hP
      split_ifs at hP with h <;>
        simp only [List.mem_cons, List.mem_singleton, List.mem_nil_iff, or_false] at hP
      · rcases hP with rfl | rfl | rfl | rfl
        · exact onEdge_longPt o _ l0.le l2
        · exact onEdge_V2 o
        · exact onEdge_V1 o
        · exact onEdge_shortAfter p nc o c0 _ l0 l2
      · rcases hP with rfl | rfl | rfl
        · exact onEdge_longPt o _ l0.le l2
        · exact onEdge_V2 o
        · exact onEdge_shortAfter p nc o c0 _ l0 l2
    · rw [if_neg b] at hP
      obtain ⟨u0, u2⟩ := hup (lt_of_le_of_ne hk2 b)
      split_ifs at hP with h <;>
        simp only [List.mem_cons, List.mem_singleton, List.mem_nil_iff, or_false] at hP
      · rcases hP with rfl | rfl | rfl | rfl | rfl
        · exact onEdge_longPt o _ l0.le l2
        · exact onEdge_longPt o _ u0.le u2
        · exact onEdge_shortPt o _ u0.le u2
        · exact onEdge_V1 o
        · exact onEdge_shortAfter p nc o c0 _ l0 l2
      · rcases hP with rfl | rfl | rfl | rfl
        · exact onEdge_longPt o _ l0.le l2
        · exact onEdge_longPt o _ u0.le u2
        · exact onEdge_shortPt o _ u0.le u2
        · exact onEdge_shortAfter p nc o c0 _ l0 l2

/-- C26. In exact arithmetic, for `zMin < zMax`, at least two colours, vertex Z values not
below `zMin`, `Z1 < Z2` and a colour of Z0 below the colour of Z2: every band boundary `Zi`
computed for a colour below that of Z2 satisfies `Z0 < Zi ≤ Z2`; the ratio `Rl` of the long
edge and the ratio `Rs` of the short edge taken for it (on `(V0,V1)` below `Z1`, on `(V1,V2)`
from `Z1` on) lie in `[0, 1]`; and every point of every polygon painted lies on an edge of the
triangle, at a ratio in `[0, 1]`. -/
theorem stripe_vertices_on_edges (p : Painter) (st : TStyle) (T : ℤ → ℤ) (x y : ℤ → ℚ)
    (nblev : ℤ) (glev : ℤ → ℚ) (g : Gfx) (hn : nblev ≤ 0)
    (hr : p.fZmin < p.fZmax) (hnc : 2 ≤ st.numberOfColors)
    (hmin : p.fZmin ≤ (orderZ p T x y).Z0)
    (h12 : (orderZ p T x y).Z1 < (orderZ p T x y).Z2)
    (hlt : theColor p st.numberOfColors (orderZ p T x y).Z0 <
      theColor p st.numberOfColors (orderZ p T x y).Z2) :
    (∀ k : ℤ, theColor p st.numberOfColors (orderZ p T x y).Z0 ≤ k →
      k < theColor p st.numberOfColors (orderZ p T x y).Z2 →
      ((orderZ p T x y).Z0 < levelZ p st.numberOfColors k ∧
        levelZ p st.numberOfColors k ≤ (orderZ p T x y).Z2) ∧
      (0 ≤ (levelZ p st.numberOfColors k - (orderZ p T x y).Z0) /
          ((orderZ p T x y).Z2 - (orderZ p T x y).Z0) ∧
        (levelZ p st.numberOfColors k - (orderZ p T x y).Z0) /
          ((orderZ p T x y).Z2 - (orderZ p T x y).Z0) ≤ 1) ∧
      (levelZ p st.numberOfColors k < (orderZ p T x y).Z1 →
        0 ≤ (levelZ p st.numberOfColors k - (orderZ p T x y).Z0) /
          ((orderZ p T x y).Z1 - (orderZ p T x y).Z0) ∧
        (levelZ p st.numberOfColors k - (orderZ p T x y).Z0) /
          ((orderZ p T x y).Z1 - (orderZ p T x y).Z0) ≤ 1) ∧
      ((orderZ p T x y).Z1 ≤ levelZ p st.numberOfColors k →
        0 ≤ (levelZ p st.numberOfColors k - (orderZ p T x y).Z1) /
          ((orderZ p T x y).Z2 - (orderZ p T x y).Z1) ∧
        (levelZ p st.numberOfColors k - (orderZ p T x y).Z1) /
          ((orderZ p T x y).Z2 - (orderZ p T x y).Z1) ≤ 1)) ∧
    (PaintLevels p st T x y nblev glev g).out =
      g.out ++ (List.range (theColor p st.numberOfColors (orderZ p T x y).Z2 -
          theColor p st.numberOfColors (orderZ p T x y).Z0 + 1).toNat).map (fun i : ℕ =>
        Draw.fillArea
          (st.colorPalette (theColor p st.numberOfColors (orderZ p T x y).Z0 + (i : ℤ)))
          (stripePoly p st.numberOfColors (orderZ p T x y)
            (theColor p st.numberOfColors (orderZ p T x y).Z0)
            (theColor p st.numberOfColors (orderZ p T x y).Z2)
            (theColor p st.numberOfColors (orderZ p T x y).Z0 + (i : ℤ)))) ∧
    ∀ k : ℤ, theColor p st.numberOfColors (orderZ p T x y).Z0 ≤ k →
      k ≤ theColor p st.numberOfColors (orderZ p T x y).Z2 →
      ∀ P ∈ stripePoly p st.numberOfColors (orderZ p T x y)
          (theColor p st.numberOfColors (orderZ p T x y).Z0)
          (theColor p st.numberOfColors (orderZ p T x y).Z2) k,
        onEdge (orderZ p T x y) P := by
  obtain ⟨-, -, -, -, h01, -⟩ := orderZ_props p T x y
  have hlev := levelsInside_of p st.numberOfColors (orderZ p T x y) hr hnc h12.le
    (le_trans hmin (le_trans h01 h12.le)) (Or.inl h12)
  simp only [PaintLevels, if_pos hn]
  refine ⟨fun k hk0 hk2 => ?_, paintColors_polys p st x y _ g hlt,
    fun k hk0 hk2 => stripePoly_onEdge p st.numberOfColors _ _ _ hlt hlev k hk0 hk2⟩
  obtain ⟨a, b, -⟩ := hlev k hk0 hk2
  exact ⟨⟨a, b⟩, ⟨ratio_nonneg (le_trans h01 h12.le) a.le, ratio_le_one (le_trans h01 h12.le) b⟩,
    fun h => ⟨ratio_nonneg h01 a.le, ratio_le_one h01 h.le⟩,
    fun h => ⟨ratio_nonneg h12.le h, ratio_le_one h12.le b⟩⟩

/-- The triangle with the Z values `(0, 5, 10)`, five colours on `[0, 10]`: the boundary of
the colour 0 is `5/2`, inside `(Z0, Z2]`. -/
theorem stripe_vertices_on_edges_witness :
    ((0 : ℤ) ≤ 0 ∧ (⟨arr3 0 5 10, 0, 10⟩ : Painter).fZmin < (⟨arr3 0 5 10, 0, 10⟩ : Painter).fZmax ∧
      (2 : ℤ) ≤ (⟨5, id⟩ : TStyle).numberOfColors ∧
      (⟨arr3 0 5 10, 0, 10⟩ : Painter).fZmin ≤
        (orderZ ⟨arr3 0 5 10, 0, 10⟩ idx3 (arr3 0 1 0) (arr3 0 0 1)).Z0 ∧
      (orderZ ⟨arr3 0 5 10, 0, 10⟩ idx3 (arr3 0 1 0) (arr3 0 0 1)).Z1 <
        (orderZ ⟨arr3 0 5 10, 0, 10⟩ idx3 (arr3 0 1 0) (arr3 0 0 1)).Z2 ∧
      theColor ⟨arr3 0 5 10, 0, 10⟩ (⟨5, id⟩ : TStyle).numberOfColors
          (orderZ ⟨arr3 0 5 10, 0, 10⟩ idx3 (arr3 0 1 0) (arr3 0 0 1)).Z0 <
        theColor ⟨arr3 0 5 10, 0, 10⟩ (⟨5, id⟩ : TStyle).numberOfColors
          (orderZ ⟨arr3 0 5 10, 0, 10⟩ idx3 (arr3 0 1 0) (arr3 0 0 1)).Z2) ∧
    ∀ k : ℤ, theColor ⟨arr3 0 5 10, 0, 10⟩ (⟨5, id⟩ : TStyle).numberOfColors
        (orderZ ⟨arr3 0 5 10, 0, 10⟩ idx3 (arr3 0 1 0) (arr3 0 0 1)).Z0 ≤ k →
      k ≤ theColor ⟨arr3 0 5 10, 0, 10⟩ (⟨5, id⟩ : TStyle).numberOfColors
        (orderZ ⟨arr3 0 5 10, 0, 10⟩ idx3 (arr3 0 1 0) (arr3 0 0 1)).Z2 →
      ∀ P ∈ stripePoly ⟨arr3 0 5 10, 0, 10⟩ (⟨5, id⟩ : TStyle).numberOfColors
          (orderZ ⟨arr3 0 5 10, 0, 10⟩ idx3 (arr3 0 1 0) (arr3 0 0 1))
          (theColor ⟨arr3 0 5 10, 0, 10⟩ (⟨5, id⟩ : TStyle).numberOfColors
            (orderZ ⟨arr3 0 5 10, 0, 10⟩ idx3 (arr3 0 1 0) (arr3 0 0 1)).Z0)
          (theColor ⟨arr3 0 5 10, 0, 10⟩ (⟨5, id⟩ : TStyle).numberOfColors
            (orderZ ⟨arr3 0 5 10, 0, 10⟩ idx3 (arr3 0 1 0) (arr3 0 0 1)).Z2) k,
        onEdge (orderZ ⟨arr3 0 5 10, 0, 10⟩ idx3 (arr3 0 1 0) (arr3 0 0 1)) P :=
  have ho := orderZ_0_5_10 (arr3 0 1 0) (arr3 0 0 1) ⟨arr3 0 5 10, 0, 10⟩ idx3
    (by simp [arr3, idx3]) (by simp [arr3, idx3]) (by simp [arr3, idx3])
  have c0 : theColor ⟨arr3 0 5 10, 0, 10⟩ 5 0 = 0 :=
    theColor_of_intCast _ _ _ _ (by norm_num)
  have c2 : theColor ⟨arr3 0 5 10, 0, 10⟩ 5 10 = 4 :=
    theColor_of_intCast _ _ _ _ (by norm_num)
  have hlt : theColor ⟨arr3 0 5 10, 0, 10⟩ (⟨5, id⟩ : TStyle).numberOfColors
      (orderZ ⟨arr3 0 5 10, 0, 10⟩ idx3 (arr3 0 1 0) (arr3 0 0 1)).Z0 <
      theColor ⟨arr3 0 5 10, 0, 10⟩ (⟨5, id⟩ : TStyle).numberOfColors
      (orderZ ⟨arr3 0 5 10, 0, 10⟩ idx3 (arr3 0 1 0) (arr3 0 0 1)).Z2 := by
    rw [ho]
    show theColor ⟨arr3 0 5 10, 0, 10⟩ 5 0 < theColor ⟨arr3 0 5 10, 0, 10⟩ 5 10
    rw [c0, c2]
    decide
  ⟨⟨by decide, by norm_num, by decide, by rw [ho], by rw [ho]; norm_num, hlt⟩,
    (stripe_vertices_on_edges ⟨arr3 0 5 10, 0, 10⟩ ⟨5, id⟩ idx3 (arr3 0 1 0) (arr3 0 0 1) 0
      (fun _ => 0) gfx0 (by decide) (by norm_num) (by decide) (by rw [ho])
      (by rw [ho]; norm_num) hlt).2.2⟩

/-! ### The mode `"tri2"` -/

/-- With `tri2`, the calls that paint one triangle are the colour levels, and the markers if
they are asked for. -/
theorem drawTriangle_tri2 (gp : GraphPainter) (st : TStyle) (opt : Opt) (nblev : ℤ)
    (glev : ℤ → ℚ) (T : ℤ → ℤ) (x y : ℤ → ℚ) (g : Gfx) (h2 : opt.tri2 = true) :
    ∃ fills marks : List Draw,
      (drawTriangle gp st opt nblev glev T x y g).out = g.out ++ fills ++ marks ∧
      (PaintLevels gp.toPainter st T x y defaultNblev defaultGlev g).out = g.out ++ fills ∧
      (∀ d ∈ fills, ∃ c pts, d = Draw.fillArea c pts) ∧
      (∀ d ∈ marks, ∃ a b pts, d = Draw.polyMarker a b pts) ∧
      (opt.p = false → marks = []) := by
  obtain ⟨fills, hf, hall⟩ :=
    paintColors_only_fills gp.toPainter st x y (orderZ gp.toPainter T x y) g
  have hl : PaintLevels gp.toPainter st T x y defaultNblev defaultGlev g =
      paintColors gp.toPainter st x y (orderZ gp.toPainter T x y) g := by
    simp [PaintLevels, defaultNblev]
  have hd : drawTriangle gp st opt nblev glev T x y g =
      (if opt.p then
        if opt.p0 then PaintPolyMarker0 3 x y
          (paintColors gp.toPainter st x y (orderZ gp.toPainter T x y) g)
        else paintPolyMarker (paintColors gp.toPainter st x y (orderZ gp.toPainter T x y) g)
          3 x y
      else paintColors gp.toPainter st x y (orderZ gp.toPainter T x y) g) := by
    simp [drawTriangle, h2, hl]
  rw [hd, hl]
  cases hp : opt.p
  · refine ⟨fills, [], ?_, hf, hall, fun d hd => by simp at hd, fun _ => rfl⟩
    simp [hf]
  · cases hp0 : opt.p0
    · refine ⟨fills,
        [Draw.polyMarker (paintColors gp.toPainter st x y (orderZ gp.toPainter T x y) g).markerStyle
          (paintColors gp.toPainter st x y (orderZ gp.toPainter T x y) g).markerColor
          (points 3 x y)], ?_, hf, hall, ?_, fun h => by simp at h⟩
      · simp [paintPolyMarker, hf]
      · intro d hd
        simp only [List.mem_singleton] at hd
        exact ⟨_, _, _, hd⟩
    · refine ⟨fills,
        [Draw.polyMarker 20 0 [(x 0, y 0)],
          Draw.polyMarker 24
            (paintColors gp.toPainter st x y (orderZ gp.toPainter T x y) g).markerColor
            [(x 0, y 0)],
          Draw.polyMarker 20 0 [(x 1, y 1)],
          Draw.polyMarker 24
            (paintColors gp.toPainter st x y (orderZ gp.toPainter T x y) g).markerColor
            [(x 1, y 1)],
          Draw.polyMarker 20 0 [(x 2, y 2)],
          Draw.polyMarker 24
            (paintColors gp.toPainter st x y (orderZ gp.toPainter T x y) g).markerColor
            [(x 2, y 2)]], ?_, hf, hall, ?_, fun h => by simp at h⟩
      · simp [PaintPolyMarker0_three, hf]
      · intro d hd
        simp only [List.mem_cons, List.mem_singleton, List.mem_nil_iff, or_false] at hd
        rcases hd with h | h | h | h | h | h <;> exact ⟨_, _, _, h⟩

/-- C21. With `tri2`, a triangle that is not clipped is painted as the colour levels of
`PaintLevels`, fill polygons only, followed by the markers if they are asked for: the pad gets
no line at all, neither outline nor grid segment, and no fill besides those of the colour
levels. -/
theorem tri2_fill_only (gp : GraphPainter) (env : Env) (view : TView) (del : Delaunay)
    (st : TStyle) (opt : Opt) (nblev : ℤ) (glev : ℤ → ℚ) (order : ℤ → ℤ) (IT : ℤ) (s : Tri)
    (h2 : opt.tri2 = true) (hc : clipped gp del (order IT) = false) :
    ∃ fills marks : List Draw,
      (triStep gp env view del st opt nblev glev order IT s).g.out =
        s.g.out ++ fills ++ marks ∧
      (PaintLevels gp.toPainter st (triangleT del (order IT)) (projX gp env view del (order IT))
        (projY gp env view del (order IT)) defaultNblev defaultGlev s.g).out = s.g.out ++ fills ∧
      (∀ d ∈ fills, ∃ c pts, d = Draw.fillArea c pts) ∧
      (∀ d ∈ marks, ∃ a b pts, d = Draw.polyMarker a b pts) ∧
      (opt.p = false → marks = []) := by
  rw [triStep_g_unclipped _ _ _ _ _ _ _ _ _ _ _ hc]
  exact drawTriangle_tri2 gp st opt nblev glev (triangleT del (order IT))
    (projX gp env view del (order IT)) (projY gp env view del (order IT)) s.g h2

/-- The triangle of `del0` over the points `gp0` with the option `"tri2"`. -/
theorem tri2_fill_only_witness :
    (optTri2.tri2 = true ∧ clipped gp0 del0 0 = false) ∧
    ∃ fills marks : List Draw,
      (triStep gp0 env0 view0 del0 st0 optTri2 0 (fun _ => 0) (fun _ => 0) 0
        { x := fun _ => 0, y := fun _ => 0, g := gfx0 }).g.out = gfx0.out ++ fills ++ marks ∧
      (PaintLevels gp0.toPainter st0 (triangleT del0 0) (projX gp0 env0 view0 del0 0)
        (projY gp0 env0 view0 del0 0) defaultNblev defaultGlev gfx0).out = gfx0.out ++ fills ∧
      (∀ d ∈ fills, ∃ c pts, d = Draw.fillArea c pts) ∧
      (∀ d ∈ marks, ∃ a b pts, d = Draw.polyMarker a b pts) ∧
      (optTri2.p = false → marks = []) :=
  ⟨⟨rfl, by simp [clipped, outsideRange, gp0, del0, arr3]⟩,
    tri2_fill_only gp0 env0 view0 del0 st0 optTri2 0 (fun _ => 0) (fun _ => 0) 0
      { x := fun _ => 0, y := fun _ => 0, g := gfx0 } rfl
      (by simp [clipped, outsideRange, gp0, del0, arr3])⟩

/-! ### The hollow markers -/

theorem marker0Loop_out (n : ℤ) (x y : ℤ → ℚ) (MC : ℤ) :
    ∀ (fuel : ℕ) (i : ℤ) (g : Gfx), fuel = (n - i).toNat →
      (marker0Loop n x y MC fuel i g).out =
        g.out ++ (List.range fuel).flatMap fun j : ℕ =>
          [Draw.polyMarker 20 0 [(x (i + (j : ℤ)), y (i + (j : ℤ)))],
            Draw.polyMarker 24 MC [(x (i + (j : ℤ)), y (i + (j : ℤ)))]] := by
  intro fuel
  induction fuel with
  | zero => intro i g _; simp [marker0Loop]
  | succ m ih =>
    intro i g hf
    have hlt : i < n := by omega
    simp only [marker0Loop, if_pos hlt]
    have e : ∀ j : ℤ, j + (i + 1) = i + (j + 1) := fun j => by ring
    rw [ih (i + 1) _ (by omega), List.range_succ_eq_map, List.flatMap_cons, List.flatMap_map]
    simp [setMarker, paintPolyMarker, points, List.range_succ, add_assoc, add_comm, e]

/-- C22. `PaintPolyMarker0(n,x,y)` makes `2n` calls to `PaintPolyMarker`: for each position
`i = 0, ..., n-1` in turn, one marker of style 20 and colour 0 at `(x[i], y[i])`, then one
marker of style 24, in the marker colour the graph had at entry, at the same position. -/
theorem PaintPolyMarker0_calls (n : ℤ) (x y : ℤ → ℚ) (g : Gfx) :
    (PaintPolyMarker0 n x y g).out =
      g.out ++ (List.range n.toNat).flatMap (fun i : ℕ =>
        [Draw.polyMarker 20 0 [(x (i : ℤ), y (i : ℤ))],
          Draw.polyMarker 24 g.markerColor [(x (i : ℤ), y (i : ℤ))]]) ∧
    (PaintPolyMarker0 n x y g).out.length = g.out.length + 2 * n.toNat := by
  have h := marker0Loop_out n x y g.markerColor n.toNat 0 g (by simp)
  simp only [zero_add] at h
  have hlen : ∀ m : ℕ, ((List.range m).flatMap (fun i : ℕ =>
      [Draw.polyMarker 20 0 [(x (i : ℤ), y (i : ℤ))],
        Draw.polyMarker 24 g.markerColor [(x (i : ℤ), y (i : ℤ))]])).length = 2 * m := by
    intro m
    induction m with
    | zero => simp
    | succ k ih => rw [List.range_succ, List.flatMap_append, List.length_append, ih]; simp; ring
  refine ⟨h, ?_⟩
  unfold PaintPolyMarker0
  rw [h, List.length_append, hlen]

/-! ### The colours of the contours -/

/-- C28. For `ndivz ≥ 1` contour levels, `ncolors ≥ 1` colours and `0 ≤ k < ndivz`, the
palette index `Int_t((k+0.99)*ncolors/ndivz)` of the level `k` lies in `[0, ncolors-1]`, and
it does not decrease with `k`. -/
theorem contourColor_in_range (ncolors ndivz k : ℤ) (hd : 1 ≤ ndivz) (hc : 1 ≤ ncolors)
    (hk0 : 0 ≤ k) (hk : k < ndivz) :
    (0 ≤ contourColor ncolors ndivz k ∧ contourColor ncolors ndivz k ≤ ncolors - 1) ∧
    ∀ j : ℤ, k ≤ j → contourColor ncolors ndivz k ≤ contourColor ncolors ndivz j := by
  have hdq : (0 : ℚ) < (ndivz : ℚ) := by exact_mod_cast (by omega : (0 : ℤ) < ndivz)
  have hcq : (0 : ℚ) < (ncolors : ℚ) := by exact_mod_cast (by omega : (0 : ℤ) < ncolors)
  have hkq : (0 : ℚ) ≤ (k : ℚ) := by exact_mod_cast hk0
  have hk1 : (k : ℚ) + 1 ≤ (ndivz : ℚ) := by exact_mod_cast (by omega : k + 1 ≤ ndivz)
  have hq0 : 0 ≤ ((k : ℚ) + 99 / 100) * (ncolors : ℚ) / (ndivz : ℚ) :=
    div_nonneg (mul_nonneg (by linarith) hcq.le) hdq.le
  have hq1 : ((k : ℚ) + 99 / 100) * (ncolors : ℚ) / (ndivz : ℚ) < (ncolors : ℚ) := by
    rw [div_lt_iff₀ hdq]
    have : ((k : ℚ) + 99 / 100) < (ndivz : ℚ) := by linarith
    nlinarith
  refine ⟨⟨?_, ?_⟩, fun j hj => ?_⟩
  · unfold contourColor
    rw [truncInt_of_nonneg hq0]
    exact Int.floor_nonneg.mpr hq0
  · unfold contourColor
    rw [truncInt_of_nonneg hq0]
    have : ⌊((k : ℚ) + 99 / 100) * (ncolors : ℚ) / (ndivz : ℚ)⌋ < ncolors :=
      Int.floor_lt.mpr hq1
    omega
  · unfold contourColor
    apply truncInt_mono
    have hjq : (k : ℚ) ≤ (j : ℚ) := by exact_mod_cast hj
    apply div_le_div_of_nonneg_right _ hdq.le
    exact mul_le_mul_of_nonneg_right (by linarith) hcq.le

/-- Five colours and two contour levels: the level 0 has the palette index 2. -/
theorem contourColor_in_range_witness :
    ((1 : ℤ) ≤ 2 ∧ (1 : ℤ) ≤ 5 ∧ (0 : ℤ) ≤ 0 ∧ (0 : ℤ) < 2) ∧
    (0 ≤ contourColor 5 2 0 ∧ contourColor 5 2 0 ≤ 5 - 1) :=
  ⟨by decide, (contourColor_in_range 5 2 0 (by decide) (by decide) (by decide) (by decide)).1⟩

/-! ### The attributes of the graph after `PaintTriangles` -/

theorem gridStep_fillColor (o : Ordered) (Zl : ℚ) (g : Gfx) :
    (gridStep o Zl g).fillColor = g.fillColor := by
  simp only [gridStep]
  split_ifs <;> rfl

theorem gridLoop_fillColor (o : Ordered) (nblev : ℤ) (glev : ℤ → ℚ) :
    ∀ (fuel : ℕ) (i : ℤ) (g : Gfx), (gridLoop o nblev glev fuel i g).fillColor = g.fillColor := by
  intro fuel
  induction fuel with
  | zero => intro i g; rfl
  | succ n ih =>
    intro i g
    simp only [gridLoop]
    split_ifs
    · rw [ih, gridStep_fillColor]
    · rfl

theorem PaintLevels_fillColor (p : Painter) (st : TStyle) (T : ℤ → ℤ) (x y : ℤ → ℚ)
    (nblev : ℤ) (glev : ℤ → ℚ) (g : Gfx) :
    (PaintLevels p st T x y nblev glev g).fillColor = g.fillColor := by
  simp only [PaintLevels]
  split_ifs
  · simp [paintColors, setFillColor, divBy]
  · simp only [paintGrid, setLineStyle]
    exact gridLoop_fillColor _ _ _ _ _ _

theorem drawTriangle_fillColor (gp : GraphPainter) (st : TStyle) (opt : Opt) (nblev : ℤ)
    (glev : ℤ → ℚ) (T : ℤ → ℤ) (x y : ℤ → ℚ) (g : Gfx) :
    (drawTriangle gp st opt nblev glev T x y g).fillColor = g.fillColor := by
  simp only [drawTriangle]
  split_ifs <;>
    simp [PaintPolyMarker0_three, paintPolyMarker, paintPolyLine, paintFillArea,
      PaintLevels_fillColor]

theorem paintTriangle_fillColor (gp : GraphPainter) (env : Env) (view : TView)
    (del : Delaunay) (st : TStyle) (opt : Opt) (nblev : ℤ) (glev : ℤ → ℚ) (k : ℤ) (g : Gfx) :
    (paintTriangle gp env view del st opt nblev glev k g).fillColor = g.fillColor := by
  unfold paintTriangle
  cases h : clipped gp del k
  · rw [triStep_g_unclipped _ _ _ _ _ _ _ _ (fun _ => k) 0 _ h]
    exact drawTriangle_fillColor _ _ _ _ _ _ _ _ _
  · rw [triStep_g_clipped _ _ _ _ _ _ _ _ (fun _ => k) 0 _ h]

theorem foldl_paintTriangle_fillColor (gp : GraphPainter) (env : Env) (view : TView)
    (del : Delaunay) (st : TStyle) (opt : Opt) (nblev : ℤ) (glev : ℤ → ℚ) (ord : List ℤ) :
    ∀ g : Gfx,
      (ord.foldl (fun g k => paintTriangle gp env view del st opt nblev glev k g) g).fillColor =
        g.fillColor := by
  induction ord with
  | nil => intro g; rfl
  | cons k t ih =>
    intro g
    rw [List.foldl_cons, ih, paintTriangle_fillColor]

/-- C29. When the pad has a view, the fill style, the fill colour and the line style of the
graph after `PaintTriangles` are those it had at entry, whatever the option and the
triangulation, clipped triangles or not; and every call of `PaintLevels` leaves the fill
colour as it found it. -/
theorem PaintTriangles_restores (gp : GraphPainter) (env : Env) (view : TView)
    (del : Delaunay) (st : TStyle) (opt : Opt) (g : Gfx) (hview : env.view = some view) :
    ((PaintTriangles gp env del st opt g).fillStyle = g.fillStyle ∧
      (PaintTriangles gp env del st opt g).fillColor = g.fillColor ∧
      (PaintTriangles gp env del st opt g).lineStyle = g.lineStyle) ∧
    ∀ (T : ℤ → ℤ) (x y : ℤ → ℚ) (nblev : ℤ) (glev : ℤ → ℚ) (g : Gfx),
      (PaintLevels gp.toPainter st T x y nblev glev g).fillColor = g.fillColor := by
  refine ⟨?_, fun T x y nblev glev g => PaintLevels_fillColor _ _ _ _ _ _ _ _⟩
  obtain ⟨a, b, c, -⟩ := gridLevels_attrs env view g
  have hg : (if !opt.tri1 && !opt.tri2 && !opt.w then gridLevels env view g
      else ((0, fun _ => 0), g)).2.fillStyle = g.fillStyle ∧
      (if !opt.tri1 && !opt.tri2 && !opt.w then gridLevels env view g
        else ((0, fun _ => 0), g)).2.fillColor = g.fillColor ∧
      (if !opt.tri1 && !opt.tri2 && !opt.w then gridLevels env view g
        else ((0, fun _ => 0), g)).2.lineStyle = g.lineStyle := by
    split_ifs
    · exact ⟨a, b, c⟩
    · exact ⟨rfl, rfl, rfl⟩
  rw [PaintTriangles_eq gp env view del st opt g hview]
  generalize (if (!opt.tri1 && !opt.tri2 && !opt.w) = true then gridLevels env view g
    else ((0, fun _ => 0), g)) = lg at hg ⊢
  refine ⟨hg.1, ?_, hg.2.2⟩
  exact (foldl_paintTriangle_fillColor gp env view del st opt _ _ _ _).trans hg.2.1

/-- The triangle of `del0` over the points `gp0` with the option `"tri1"`. -/
theorem PaintTriangles_restores_witness :
    env0.view = some view0 ∧
    (PaintTriangles gp0 env0 del0 st0 optTri1 gfx0).fillStyle = gfx0.fillStyle ∧
    (PaintTriangles gp0 env0 del0 st0 optTri1 gfx0).fillColor = gfx0.fillColor ∧
    (PaintTriangles gp0 env0 del0 st0 optTri1 gfx0).lineStyle = gfx0.lineStyle :=
  ⟨rfl, (PaintTriangles_restores gp0 env0 view0 del0 st0 optTri1 gfx0 rfl).1⟩

/-! ### TMVA::CrossEvaluation::MergeFoldResults -/

theorem mergeLoop_eq {α β : Type} (ce : CrossEvaluation α β) :
    ∀ (fuel iFold : ℕ) (m : Merged α β), iFold + fuel = ce.fNumFolds →
      ce.fNumFolds ≤ ce.fOutputsPerFold.length → ce.fNumFolds ≤ ce.fClassesPerFold.length →
      mergeLoop ce fuel iFold m =
        some { outputs := m.outputs ++ ((ce.fOutputsPerFold.drop iFold).take fuel).flatten
               classes := m.classes ++ ((ce.fClassesPerFold.drop iFold).take fuel).flatten } := by
  intro fuel
  induction fuel with
  | zero => intro iFold m _ _ _; simp [mergeLoop]
  | succ n ih =>
    intro iFold m hf ho hc
    have hlt : iFold < ce.fNumFolds := by omega
    have h1 : iFold < ce.fOutputsPerFold.length := by omega
    have h2 : iFold < ce.fClassesPerFold.length := by omega
    simp only [mergeLoop, if_pos hlt, List.getElem?_eq_getElem h1, List.getElem?_eq_getElem h2]
    rw [ih (iFold + 1) _ (by omega) ho hc, List.drop_eq_getElem_cons h1,
      List.drop_eq_getElem_cons h2]
    simp only [List.take_succ_cons, List.flatten_cons, List.append_assoc]

/-- C30. When at least `fNumFolds` results are stored, both of outputs and of class labels,
`MergeFoldResults` returns, and it has inserted the outputs (and the class labels) of the
folds `0, 1, ..., fNumFolds-1`, one fold after the other, at the front of the training results
and at the front of the testing results of the method: the same sequence in both, as long as
the sum of the lengths of the folds. -/
theorem MergeFoldResults_injects {α β : Type} (ce : CrossEvaluation α β) (ds : DataSet α β)
    (ho : ce.fNumFolds ≤ ce.fOutputsPerFold.length)
    (hc : ce.fNumFolds ≤ ce.fClassesPerFold.length) :
    MergeFoldResults ce ds =
      some
        { training :=
            { valueVector :=
                (ce.fOutputsPerFold.take ce.fNumFolds).flatten ++ ds.training.valueVector
              valueVectorTypes :=
                (ce.fClassesPerFold.take ce.fNumFolds).flatten ++ ds.training.valueVectorTypes }
          testing :=
            { valueVector :=
                (ce.fOutputsPerFold.take ce.fNumFolds).flatten ++ ds.testing.valueVector
              valueVectorTypes :=
                (ce.fClassesPerFold.take ce.fNumFolds).flatten ++ ds.testing.valueVectorTypes } } ∧
    (ce.fOutputsPerFold.take ce.fNumFolds).flatten.length =
      ((ce.fOutputsPerFold.take ce.fNumFolds).map List.length).sum ∧
    (ce.fClassesPerFold.take ce.fNumFolds).flatten.length =
      ((ce.fClassesPerFold.take ce.fNumFolds).map List.length).sum := by
  refine ⟨?_, List.length_flatten _, List.length_flatten _⟩
  unfold MergeFoldResults
  rw [mergeLoop_eq ce ce.fNumFolds 0 _ (by simp) ho hc]
  simp [insertFront]

/-- Two folds, of one and of two events. -/
theorem MergeFoldResults_injects_witness :
    ((⟨2, [[1], [2, 3]], [[true], [false, true]]⟩ : CrossEvaluation ℚ Bool).fNumFolds ≤
        (⟨2, [[1], [2, 3]], [[true], [false, true]]⟩ :
          CrossEvaluation ℚ Bool).fOutputsPerFold.length ∧
      (⟨2, [[1], [2, 3]], [[true], [false, true]]⟩ : CrossEvaluation ℚ Bool).fNumFolds ≤
        (⟨2, [[1], [2, 3]], [[true], [false, true]]⟩ :
          CrossEvaluation ℚ Bool).fClassesPerFold.length) ∧
    MergeFoldResults (⟨2, [[1], [2, 3]], [[true], [false, true]]⟩ : CrossEvaluation ℚ Bool)
        ⟨⟨[9], [false]⟩, ⟨[], []⟩⟩ =
      some ⟨⟨[1, 2, 3, 9], [true, false, true, false]⟩, ⟨[1, 2, 3], [true, false, true]⟩⟩ :=
  ⟨⟨by decide, by decide⟩,
    (MergeFoldResults_injects (⟨2, [[1], [2, 3]], [[true], [false, true]]⟩ :
      CrossEvaluation ℚ Bool) ⟨⟨[9], [false]⟩, ⟨[], []⟩⟩ (by decide) (by decide)).1.trans
      (by simp)⟩

/-! ### Colour indices and the bands of the specification -/

theorem theColor_eq_bandSpec (p : Painter) (nc : ℤ) (Z : ℚ) (hr : p.fZmin < p.fZmax)
    (hn : 1 ≤ nc) (hlo : p.fZmin ≤ Z) (hhi : Z ≤ p.fZmax) :
    theColor p nc Z = bandSpec p.fZmin p.fZmax nc Z := by
  have hd : 0 < p.fZmax - p.fZmin := sub_pos.mpr hr
  have hm : (0 : ℚ) ≤ ((nc - 1 : ℤ) : ℚ) := by exact_mod_cast (by omega : 0 ≤ nc - 1)
  have hq0 : 0 ≤ (Z - p.fZmin) / (p.fZmax - p.fZmin) := div_nonneg (sub_nonneg.mpr hlo) hd.le
  have hq1 : (Z - p.fZmin) / (p.fZmax - p.fZmin) ≤ 1 := by
    rw [div_le_one hd]
    linarith
  have hv0 : 0 ≤ (Z - p.fZmin) / (p.fZmax - p.fZmin) * ((nc - 1 : ℤ) : ℚ) := mul_nonneg hq0 hm
  have hv1 : (Z - p.fZmin) / (p.fZmax - p.fZmin) * ((nc - 1 : ℤ) : ℚ) ≤ ((nc - 1 : ℤ) : ℚ) := by
    calc (Z - p.fZmin) / (p.fZmax - p.fZmin) * ((nc - 1 : ℤ) : ℚ)
        ≤ 1 * ((nc - 1 : ℤ) : ℚ) := mul_le_mul_of_nonneg_right hq1 hm
      _ = ((nc - 1 : ℤ) : ℚ) := one_mul _
  have h0 : 0 ≤ ⌊(Z - p.fZmin) / (p.fZmax - p.fZmin) * ((nc - 1 : ℤ) : ℚ)⌋ :=
    Int.floor_nonneg.mpr hv0
  have h1 : ⌊(Z - p.fZmin) / (p.fZmax - p.fZmin) * ((nc - 1 : ℤ) : ℚ)⌋ ≤ nc - 1 := by
    have := Int.floor_mono hv1
    rwa [Int.floor_intCast] at this
  unfold theColor
  rw [truncInt_of_nonneg hv0, bandSpec, min_eq_right h1, max_eq_right h0]

/-- For vertex Z values inside `[zMin, zMax]` the colour indices of Z0 and of Z2 are the bands
of the specification. -/
theorem theColor_orderZ_bandSpec (p : Painter) (st : TStyle) (T : ℤ → ℤ) (x y : ℤ → ℚ)
    (hr : p.fZmin < p.fZmax) (hnc : 1 ≤ st.numberOfColors)
    (hlo : p.fZmin ≤ (orderZ p T x y).Z0) (hhi : (orderZ p T x y).Z2 ≤ p.fZmax) :
    theColor p st.numberOfColors (orderZ p T x y).Z0 =
        bandSpec p.fZmin p.fZmax st.numberOfColors (orderZ p T x y).Z0 ∧
      theColor p st.numberOfColors (orderZ p T x y).Z2 =
        bandSpec p.fZmin p.fZmax st.numberOfColors (orderZ p T x y).Z2 := by
  obtain ⟨-, -, -, -, h01, h12⟩ := orderZ_props p T x y
  exact ⟨theColor_eq_bandSpec p _ _ hr hnc hlo (le_trans (le_trans h01 h12) hhi),
    theColor_eq_bandSpec p _ _ hr hnc (le_trans hlo (le_trans h01 h12)) hhi⟩

/-- C2, the claim refuted. On `[0, 10]` with five colours the Z values `(-10, -7, -5)` are all
in the band 0, and `PaintLevels` paints three polygons, in the palette colours of the indices
`-4, -3, -2`; and the flat triangle `Z = (-10, -10, -10)`, of band 0, is filled with the
palette colour of the index `-4`. -/
theorem PaintLevels_one_band_three_fills :
    (bandSpec 0 10 5 (orderZ ⟨arr3 (-10) (-7) (-5), 0, 10⟩ idx3 (arr3 0 1 0) (arr3 0 0 1)).Z0 = 0 ∧
      bandSpec 0 10 5 (orderZ ⟨arr3 (-10) (-7) (-5), 0, 10⟩ idx3 (arr3 0 1 0) (arr3 0 0 1)).Z2 = 0) ∧
    (∃ q0 q1 q2 : List Pt,
      (PaintLevels ⟨arr3 (-10) (-7) (-5), 0, 10⟩ ⟨5, id⟩ idx3 (arr3 0 1 0) (arr3 0 0 1) 0
          (fun _ => 0) gfx0).out =
        [Draw.fillArea (-4) q0, Draw.fillArea (-3) q1, Draw.fillArea (-2) q2]) ∧
    bandSpec 0 10 5 (-10) = 0 ∧
    (PaintLevels ⟨arr3 (-10) (-10) (-10), 0, 10⟩ ⟨5, id⟩ idx3 (arr3 0 1 0) (arr3 0 0 1) 0
        (fun _ => 0) gfx0).out = [Draw.fillArea (-4) [(0, 0), (1, 0), (0, 1)]] := by
  have z0 : (orderZ ⟨arr3 (-10) (-7) (-5), 0, 10⟩ idx3 (arr3 0 1 0) (arr3 0 0 1)).Z0 = -10 := by
    norm_num [orderZ, orderStep, arr3, idx3]
  have z2 : (orderZ ⟨arr3 (-10) (-7) (-5), 0, 10⟩ idx3 (arr3 0 1 0) (arr3 0 0 1)).Z2 = -5 := by
    norm_num [orderZ, orderStep, arr3, idx3]
  have c0 : theColor ⟨arr3 (-10) (-7) (-5), 0, 10⟩ 5 (-10) = -4 :=
    theColor_of_intCast _ _ _ _ (by norm_num)
  have c2 : theColor ⟨arr3 (-10) (-7) (-5), 0, 10⟩ 5 (-5) = -2 :=
    theColor_of_intCast _ _ _ _ (by norm_num)
  have hlt : theColor ⟨arr3 (-10) (-7) (-5), 0, 10⟩ (⟨5, id⟩ : TStyle).numberOfColors
      (orderZ ⟨arr3 (-10) (-7) (-5), 0, 10⟩ idx3 (arr3 0 1 0) (arr3 0 0 1)).Z0 <
      theColor ⟨arr3 (-10) (-7) (-5), 0, 10⟩ (⟨5, id⟩ : TStyle).numberOfColors
      (orderZ ⟨arr3 (-10) (-7) (-5), 0, 10⟩ idx3 (arr3 0 1 0) (arr3 0 0 1)).Z2 := by
    rw [z0, z2]
    show theColor ⟨arr3 (-10) (-7) (-5), 0, 10⟩ 5 (-10) <
      theColor ⟨arr3 (-10) (-7) (-5), 0, 10⟩ 5 (-5)
    rw [c0, c2]
    decide
  refine ⟨⟨by rw [z0]; norm_num [bandSpec], by rw [z2]; norm_num [bandSpec]⟩, ?_,
    by norm_num [bandSpec], ?_⟩
  · obtain ⟨pts, hpts⟩ := PaintLevels_colours_increasing ⟨arr3 (-10) (-7) (-5), 0, 10⟩ ⟨5, id⟩
      idx3 (arr3 0 1 0) (arr3 0 0 1) 0 (fun _ => 0) gfx0 le_rfl hlt
    refine ⟨pts 0, pts 1, pts 2, ?_⟩
    rw [hpts, z0, z2]
    show gfx0.out ++ (List.range (theColor ⟨arr3 (-10) (-7) (-5), 0, 10⟩ 5 (-5) -
      theColor ⟨arr3 (-10) (-7) (-5), 0, 10⟩ 5 (-10) + 1).toNat).map _ = _
    rw [c0, c2]
    norm_num [gfx0]
    rw [show Int.toNat 3 = 3 from rfl]
    norm_num [List.range_succ]
  · have h := PaintLevels_single_colour ⟨arr3 (-10) (-10) (-10), 0, 10⟩ ⟨5, id⟩ idx3
      (arr3 0 1 0) (arr3 0 0 1) 0 (fun _ => 0) gfx0 le_rfl
      (Or.inl ⟨by simp [arr3, idx3], by simp [arr3, idx3]⟩)
    have z : (orderZ ⟨arr3 (-10) (-10) (-10), 0, 10⟩ idx3 (arr3 0 1 0) (arr3 0 0 1)).Z0 =
        -10 := by
      norm_num [orderZ, orderStep, arr3, idx3]
    have c : theColor ⟨arr3 (-10) (-10) (-10), 0, 10⟩ 5 (-10) = -4 :=
      theColor_of_intCast _ _ _ _ (by norm_num)
    rw [h, z]
    show gfx0.out ++ [Draw.fillArea (id (theColor ⟨arr3 (-10) (-10) (-10), 0, 10⟩ 5 (-10))) _] = _
    rw [c]
    norm_num [gfx0, arr3]

/-- C2, as amended. If the colour index the code computes for Z0, the truncation toward zero
of `(Z - zMin)/(zMax - zMin)·(numColors - 1)` with no clamp, equals the one it computes for
Z2, and in particular if the triangle is flat, `PaintLevels` in colour mode hands exactly one
polygon to the pad: the three vertices it was given, in the order given, filled with the
palette colour of that index.  For `zMin < zMax`, at least one colour and vertex Z values
inside `[zMin, zMax]` the index is the band of the specification: triangles with
`band(Z0) = band(Z2)` are painted as that one polygon in the palette colour `band(Z0)`. -/
theorem PaintLevels_single_band (p : Painter) (st : TStyle) (T : ℤ → ℤ) (x y : ℤ → ℚ)
    (nblev : ℤ) (glev : ℤ → ℚ) (g : Gfx) (hn : nblev ≤ 0) :
    (((p.fZ (T 0 - 1) = p.fZ (T 1 - 1) ∧ p.fZ (T 1 - 1) = p.fZ (T 2 - 1)) ∨
        theColor p st.numberOfColors (orderZ p T x y).Z0 =
          theColor p st.numberOfColors (orderZ p T x y).Z2) →
      (PaintLevels p st T x y nblev glev g).out =
        g.out ++ [Draw.fillArea
          (st.colorPalette (theColor p st.numberOfColors (orderZ p T x y).Z0))
          [(x 0, y 0), (x 1, y 1), (x 2, y 2)]]) ∧
    (p.fZmin < p.fZmax → 1 ≤ st.numberOfColors → p.fZmin ≤ (orderZ p T x y).Z0 →
      (orderZ p T x y).Z2 ≤ p.fZmax →
      bandSpec p.fZmin p.fZmax st.numberOfColors (orderZ p T x y).Z0 =
        bandSpec p.fZmin p.fZmax st.numberOfColors (orderZ p T x y).Z2 →
      (PaintLevels p st T x y nblev glev g).out =
        g.out ++ [Draw.fillArea
          (st.colorPalette (bandSpec p.fZmin p.fZmax st.numberOfColors (orderZ p T x y).Z0))
          [(x 0, y 0), (x 1, y 1), (x 2, y 2)]]) := by
  refine ⟨fun h => PaintLevels_single_colour p st T x y nblev glev g hn h,
    fun hr hnc hlo hhi hb => ?_⟩
  obtain ⟨e0, e2⟩ := theColor_orderZ_bandSpec p st T x y hr hnc hlo hhi
  rw [← e0]
  exact PaintLevels_single_colour p st T x y nblev glev g hn (Or.inr (by rw [e0, e2, hb]))

/-- The flat triangle `Z = (3, 3, 3)` with five colours on `[0, 10]`, of band 1. -/
theorem PaintLevels_single_band_witness :
    ((0 : ℤ) ≤ 0 ∧
      ((⟨arr3 3 3 3, 0, 10⟩ : Painter).fZmin < (⟨arr3 3 3 3, 0, 10⟩ : Painter).fZmax ∧
        (1 : ℤ) ≤ (⟨5, id⟩ : TStyle).numberOfColors ∧
        (⟨arr3 3 3 3, 0, 10⟩ : Painter).fZmin ≤
          (orderZ ⟨arr3 3 3 3, 0, 10⟩ idx3 (arr3 0 1 0) (arr3 0 0 1)).Z0 ∧
        (orderZ ⟨arr3 3 3 3, 0, 10⟩ idx3 (arr3 0 1 0) (arr3 0 0 1)).Z2 ≤
          (⟨arr3 3 3 3, 0, 10⟩ : Painter).fZmax ∧
        bandSpec (⟨arr3 3 3 3, 0, 10⟩ : Painter).fZmin (⟨arr3 3 3 3, 0, 10⟩ : Painter).fZmax
            (⟨5, id⟩ : TStyle).numberOfColors
            (orderZ ⟨arr3 3 3 3, 0, 10⟩ idx3 (arr3 0 1 0) (arr3 0 0 1)).Z0 =
          bandSpec (⟨arr3 3 3 3, 0, 10⟩ : Painter).fZmin (⟨arr3 3 3 3, 0, 10⟩ : Painter).fZmax
            (⟨5, id⟩ : TStyle).numberOfColors
            (orderZ ⟨arr3 3 3 3, 0, 10⟩ idx3 (arr3 0 1 0) (arr3 0 0 1)).Z2)) ∧
    (PaintLevels ⟨arr3 3 3 3, 0, 10⟩ ⟨5, id⟩ idx3 (arr3 0 1 0) (arr3 0 0 1) 0 (fun _ => 0)
        gfx0).out =
      gfx0.out ++ [Draw.fillArea
        ((⟨5, id⟩ : TStyle).colorPalette
          (bandSpec (⟨arr3 3 3 3, 0, 10⟩ : Painter).fZmin (⟨arr3 3 3 3, 0, 10⟩ : Painter).fZmax
            (⟨5, id⟩ : TStyle).numberOfColors
            (orderZ ⟨arr3 3 3 3, 0, 10⟩ idx3 (arr3 0 1 0) (arr3 0 0 1)).Z0))
        [(arr3 0 1 0 0, arr3 0 0 1 0), (arr3 0 1 0 1, arr3 0 0 1 1),
          (arr3 0 1 0 2, arr3 0 0 1 2)]] :=
  have z0 : (orderZ ⟨arr3 3 3 3, 0, 10⟩ idx3 (arr3 0 1 0) (arr3 0 0 1)).Z0 = 3 := by
    norm_num [orderZ, orderStep, arr3, idx3]
  have z2 : (orderZ ⟨arr3 3 3 3, 0, 10⟩ idx3 (arr3 0 1 0) (arr3 0 0 1)).Z2 = 3 := by
    norm_num [orderZ, orderStep, arr3, idx3]
  ⟨⟨by decide, by norm_num, by decide, by rw [z0]; norm_num, by rw [z2]; norm_num,
      by rw [z0, z2]⟩,
    (PaintLevels_single_band ⟨arr3 3 3 3, 0, 10⟩ ⟨5, id⟩ idx3 (arr3 0 1 0) (arr3 0 0 1) 0
      (fun _ => 0) gfx0 (by decide)).2 (by norm_num) (by decide) (by rw [z0]; norm_num)
      (by rw [z2]; norm_num) (by rw [z0, z2])⟩

/-- C3, the claim refuted. On `[0, 10]` with five colours the Z values `(0, 5, 20)` have
`band(Z0) = 0` and `band(Z2) = 4`, five bands, and `PaintLevels` paints nine polygons, in the
palette colours of the indices 0 to 8. -/
theorem PaintLevels_more_fills_than_bands :
    (bandSpec 0 10 5 (orderZ ⟨arr3 0 5 20, 0, 10⟩ idx3 (arr3 0 1 0) (arr3 0 0 1)).Z0 = 0 ∧
      bandSpec 0 10 5 (orderZ ⟨arr3 0 5 20, 0, 10⟩ idx3 (arr3 0 1 0) (arr3 0 0 1)).Z2 = 4) ∧
    ∃ pts : ℕ → List Pt,
      (PaintLevels ⟨arr3 0 5 20, 0, 10⟩ ⟨5, id⟩ idx3 (arr3 0 1 0) (arr3 0 0 1) 0 (fun _ => 0)
          gfx0).out =
        [Draw.fillArea 0 (pts 0), Draw.fillArea 1 (pts 1), Draw.fillArea 2 (pts 2),
          Draw.fillArea 3 (pts 3), Draw.fillArea 4 (pts 4), Draw.fillArea 5 (pts 5),
          Draw.fillArea 6 (pts 6), Draw.fillArea 7 (pts 7), Draw.fillArea 8 (pts 8)] := by
  have z0 : (orderZ ⟨arr3 0 5 20, 0, 10⟩ idx3 (arr3 0 1 0) (arr3 0 0 1)).Z0 = 0 := by
    norm_num [orderZ, orderStep, arr3, idx3]
  have z2 : (orderZ ⟨arr3 0 5 20, 0, 10⟩ idx3 (arr3 0 1 0) (arr3 0 0 1)).Z2 = 20 := by
    norm_num [orderZ, orderStep, arr3, idx3]
  have c0 : theColor ⟨arr3 0 5 20, 0, 10⟩ 5 0 = 0 :=
    theColor_of_intCast _ _ _ _ (by norm_num)
  have c2 : theColor ⟨arr3 0 5 20, 0, 10⟩ 5 20 = 8 :=
    theColor_of_intCast _ _ _ _ (by norm_num)
  have hlt : theColor ⟨arr3 0 5 20, 0, 10⟩ (⟨5, id⟩ : TStyle).numberOfColors
      (orderZ ⟨arr3 0 5 20, 0, 10⟩ idx3 (arr3 0 1 0) (arr3 0 0 1)).Z0 <
      theColor ⟨arr3 0 5 20, 0, 10⟩ (⟨5, id⟩ : TStyle).numberOfColors
      (orderZ ⟨arr3 0 5 20, 0, 10⟩ idx3 (arr3 0 1 0) (arr3 0 0 1)).Z2 := by
    rw [z0, z2]
    show theColor ⟨arr3 0 5 20, 0, 10⟩ 5 0 < theColor ⟨arr3 0 5 20, 0, 10⟩ 5 20
    rw [c0, c2]
    decide
  refine ⟨⟨by rw [z0]; norm_num [bandSpec], by rw [z2]; norm_num [bandSpec]⟩, ?_⟩
  obtain ⟨pts, hpts⟩ := PaintLevels_colours_increasing ⟨arr3 0 5 20, 0, 10⟩ ⟨5, id⟩
    idx3 (arr3 0 1 0) (arr3 0 0 1) 0 (fun _ => 0) gfx0 le_rfl hlt
  refine ⟨pts, ?_⟩
  rw [hpts, z0, z2]
  show gfx0.out ++ (List.range (theColor ⟨arr3 0 5 20, 0, 10⟩ 5 20 -
    theColor ⟨arr3 0 5 20, 0, 10⟩ 5 0 + 1).toNat).map _ = _
  rw [c0, c2]
  norm_num [gfx0]
  rw [show Int.toNat 9 = 9 from rfl]
  norm_num [List.range_succ]

/-- C3, as amended. If the colour index `c0` the code computes for Z0, the truncation toward
zero of `(Z - zMin)/(zMax - zMin)·(numColors - 1)` with no clamp, is below the index `c2` it
computes for Z2, `PaintLevels` in colour mode hands exactly `c2 - c0 + 1` fill polygons to the
pad, the `i`-th of them (`i = 0, 1, ...`) filled with the palette colour of the index
`c0 + i`.  For `zMin < zMax`, at least one colour and vertex Z values inside `[zMin, zMax]`
the indices are the bands of the specification: with `b0 = band(Z0) < b2 = band(Z2)` there
are exactly `b2 - b0 + 1` polygons, the `i`-th in the palette colour of the band `b0 + i`. -/
theorem PaintLevels_bands_increasing (p : Painter) (st : TStyle) (T : ℤ → ℤ) (x y : ℤ → ℚ)
    (nblev : ℤ) (glev : ℤ → ℚ) (g : Gfx) (hn : nblev ≤ 0) :
    (theColor p st.numberOfColors (orderZ p T x y).Z0 <
        theColor p st.numberOfColors (orderZ p T x y).Z2 →
      ∃ pts : ℕ → List Pt, (PaintLevels p st T x y nblev glev g).out =
        g.out ++ (List.range (theColor p st.numberOfColors (orderZ p T x y).Z2 -
            theColor p st.numberOfColors (orderZ p T x y).Z0 + 1).toNat).map (fun i : ℕ =>
          Draw.fillArea (st.colorPalette
            (theColor p st.numberOfColors (orderZ p T x y).Z0 + (i : ℤ))) (pts i))) ∧
    (p.fZmin < p.fZmax → 1 ≤ st.numberOfColors → p.fZmin ≤ (orderZ p T x y).Z0 →
      (orderZ p T x y).Z2 ≤ p.fZmax →
      bandSpec p.fZmin p.fZmax st.numberOfColors (orderZ p T x y).Z0 <
        bandSpec p.fZmin p.fZmax st.numberOfColors (orderZ p T x y).Z2 →
      ∃ pts : ℕ → List Pt, (PaintLevels p st T x y nblev glev g).out =
        g.out ++ (List.range (bandSpec p.fZmin p.fZmax st.numberOfColors (orderZ p T x y).Z2 -
            bandSpec p.fZmin p.fZmax st.numberOfColors (orderZ p T x y).Z0 + 1).toNat).map
          (fun i : ℕ => Draw.fillArea (st.colorPalette
            (bandSpec p.fZmin p.fZmax st.numberOfColors (orderZ p T x y).Z0 + (i : ℤ)))
            (pts i))) := by
  refine ⟨fun h => PaintLevels_colours_increasing p st T x y nblev glev g hn h,
    fun hr hnc hlo hhi hb => ?_⟩
  obtain ⟨e0, e2⟩ := theColor_orderZ_bandSpec p st T x y hr hnc hlo hhi
  rw [← e0, ← e2] at hb ⊢
  exact PaintLevels_colours_increasing p st T x y nblev glev g hn hb

/-- The triangle with the Z values `(0, 5, 10)`, five colours on `[0, 10]`: the bands are 0
and 4. -/
theorem PaintLevels_bands_increasing_witness :
    ((0 : ℤ) ≤ 0 ∧
      ((⟨arr3 0 5 10, 0, 10⟩ : Painter).fZmin < (⟨arr3 0 5 10, 0, 10⟩ : Painter).fZmax ∧
        (1 : ℤ) ≤ (⟨5, id⟩ : TStyle).numberOfColors ∧
        (⟨arr3 0 5 10, 0, 10⟩ : Painter).fZmin ≤
          (orderZ ⟨arr3 0 5 10, 0, 10⟩ idx3 (arr3 0 1 0) (arr3 0 0 1)).Z0 ∧
        (orderZ ⟨arr3 0 5 10, 0, 10⟩ idx3 (arr3 0 1 0) (arr3 0 0 1)).Z2 ≤
          (⟨arr3 0 5 10, 0, 10⟩ : Painter).fZmax ∧
        bandSpec (⟨arr3 0 5 10, 0, 10⟩ : Painter).fZmin (⟨arr3 0 5 10, 0, 10⟩ : Painter).fZmax
            (⟨5, id⟩ : TStyle).numberOfColors
            (orderZ ⟨arr3 0 5 10, 0, 10⟩ idx3 (arr3 0 1 0) (arr3 0 0 1)).Z0 <
          bandSpec (⟨arr3 0 5 10, 0, 10⟩ : Painter).fZmin (⟨arr3 0 5 10, 0, 10⟩ : Painter).fZmax
            (⟨5, id⟩ : TStyle).numberOfColors
            (orderZ ⟨arr3 0 5 10, 0, 10⟩ idx3 (arr3 0 1 0) (arr3 0 0 1)).Z2)) ∧
    ∃ pts : ℕ → List Pt,
      (PaintLevels ⟨arr3 0 5 10, 0, 10⟩ ⟨5, id⟩ idx3 (arr3 0 1 0) (arr3 0 0 1) 0 (fun _ => 0)
          gfx0).out =
        gfx0.out ++ (List.range
          (bandSpec (⟨arr3 0 5 10, 0, 10⟩ : Painter).fZmin (⟨arr3 0 5 10, 0, 10⟩ : Painter).fZmax
              (⟨5, id⟩ : TStyle).numberOfColors
              (orderZ ⟨arr3 0 5 10, 0, 10⟩ idx3 (arr3 0 1 0) (arr3 0 0 1)).Z2 -
            bandSpec (⟨arr3 0 5 10, 0, 10⟩ : Painter).fZmin
              (⟨arr3 0 5 10, 0, 10⟩ : Painter).fZmax (⟨5, id⟩ : TStyle).numberOfColors
              (orderZ ⟨arr3 0 5 10, 0, 10⟩ idx3 (arr3 0 1 0) (arr3 0 0 1)).Z0 + 1).toNat).map
          (fun i : ℕ => Draw.fillArea ((⟨5, id⟩ : TStyle).colorPalette
            (bandSpec (⟨arr3 0 5 10, 0, 10⟩ : Painter).fZmin
              (⟨arr3 0 5 10, 0, 10⟩ : Painter).fZmax (⟨5, id⟩ : TStyle).numberOfColors
              (orderZ ⟨arr3 0 5 10, 0, 10⟩ idx3 (arr3 0 1 0) (arr3 0 0 1)).Z0 + (i : ℤ)))
            (pts i)) :=
  have ho := orderZ_0_5_10 (arr3 0 1 0) (arr3 0 0 1) ⟨arr3 0 5 10, 0, 10⟩ idx3
    (by simp [arr3, idx3]) (by simp [arr3, idx3]) (by simp [arr3, idx3])
  have hb : bandSpec (⟨arr3 0 5 10, 0, 10⟩ : Painter).fZmin
      (⟨arr3 0 5 10, 0, 10⟩ : Painter).fZmax (⟨5, id⟩ : TStyle).numberOfColors
      (orderZ ⟨arr3 0 5 10, 0, 10⟩ idx3 (arr3 0 1 0) (arr3 0 0 1)).Z0 <
      bandSpec (⟨arr3 0 5 10, 0, 10⟩ : Painter).fZmin (⟨arr3 0 5 10, 0, 10⟩ : Painter).fZmax
        (⟨5, id⟩ : TStyle).numberOfColors
        (orderZ ⟨arr3 0 5 10, 0, 10⟩ idx3 (arr3 0 1 0) (arr3 0 0 1)).Z2 := by
    rw [ho]
    norm_num [bandSpec]
  ⟨⟨by decide, by norm_num, by decide, by rw [ho], by rw [ho], hb⟩,
    (PaintLevels_bands_increasing ⟨arr3 0 5 10, 0, 10⟩ ⟨5, id⟩ idx3 (arr3 0 1 0) (arr3 0 0 1) 0
      (fun _ => 0) gfx0 (by decide)).2 (by norm_num) (by decide) (by rw [ho]) (by rw [ho])
      hb⟩

end TGraphPainter
